import Mathlib

/-! N4L tree-sitter parser: lexer and parse tables.

A shallow embedding of `editors/tree-sitter-n4l/src/parser.c`: the symbol and
field registry, the lexer automaton `ts_lex`, the lex-mode table, the parse
tables and the action list, followed by theorems about them.

Input is a list of characters; the lookahead is the code point of the next
character (`0` at the end of input, as the lexer reports it), and positions
count characters from the place where a `ts_lex` call starts.
-/

namespace N4L

/-! ## Symbol identifiers (`enum ts_symbol_identifiers`) -/

abbrev ts_builtin_sym_end : Nat := 0
abbrev sym_comment : Nat := 1
abbrev anon_sym_DASH : Nat := 2
abbrev aux_sym_section_token1 : Nat := 3
abbrev anon_sym_PLUS : Nat := 4
abbrev anon_sym_COLON_COLON : Nat := 5
abbrev aux_sym_context_block_token1 : Nat := 6
abbrev sym_todo_block : Nat := 7
abbrev anon_sym_AT : Nat := 8
abbrev aux_sym_alias_definition_token1 : Nat := 9
abbrev anon_sym_DOLLAR : Nat := 10
abbrev aux_sym_reference_line_token1 : Nat := 11
abbrev anon_sym_LPAREN : Nat := 12
abbrev aux_sym_relation_line_token1 : Nat := 13
abbrev anon_sym_RPAREN : Nat := 14
abbrev sym_statement : Nat := 15
abbrev sym_source_file : Nat := 16
abbrev sym_section : Nat := 17
abbrev sym_context_block : Nat := 18
abbrev sym_alias_definition : Nat := 19
abbrev sym_reference_line : Nat := 20
abbrev sym_relation_line : Nat := 21
abbrev aux_sym_source_file_repeat1 : Nat := 22

/-! ## Field identifiers (`enum ts_field_identifiers`) -/

abbrev field_alias : Nat := 1
abbrev field_alias_ref : Nat := 2
abbrev field_content : Nat := 3
abbrev field_number_ref : Nat := 4
abbrev field_prefix : Nat := 5
abbrev field_relation : Nat := 6
abbrev field_title : Nat := 7

/-! ## The lexer -/

/-- What a lexer state does after its optional `ACCEPT_TOKEN`: `ADVANCE(s)`,
`SKIP(s)` or `END_STATE()`. -/
inductive LexAct where
  | advance (s : Nat)
  | skip (s : Nat)
  | stop
  deriving DecidableEq, Repr

/-- One `case` of the `switch` in `ts_lex`: the symbol of a leading
`ACCEPT_TOKEN`, if the case has one, and the transition chosen for the
lookahead. -/
structure LexCase where
  accept : Option Nat
  next : LexAct
  deriving DecidableEq, Repr

/-- The body of `switch (state)` in `ts_lex`, one branch per `case`, the
`if`s in the order of the source. `la` is `lookahead`, `eof` is
`lexer->eof(lexer)`. `none` is the `default: return false`. -/
def ts_lex_case (state : Nat) (la : Nat) (eof : Bool) : Option LexCase :=
  match state with
  | 0 => some ⟨none,
      if eof then .advance 8
      else if la = '#'.toNat then .advance 10
      else if la = '$'.toNat then .advance 33
      else if la = '('.toNat then .advance 36
      else if la = ')'.toNat then .advance 41
      else if la = '+'.toNat then .advance 17
      else if la = '-'.toNat then .advance 11
      else if la = '/'.toNat then .advance 5
      else if la = ':'.toNat then .advance 6
      else if la = '@'.toNat then .advance 28
      else if la = '\t'.toNat ∨ la = '\n'.toNat ∨ la = '\x0c'.toNat ∨ la = '\r'.toNat ∨ la = ' '.toNat
        then .skip 0
      else if '0'.toNat ≤ la ∧ la ≤ '9'.toNat then .advance 35
      else if 'A'.toNat ≤ la ∧ la ≤ 'Z'.toNat then .advance 31
      else if la = '_'.toNat ∨ ('a'.toNat ≤ la ∧ la ≤ 'z'.toNat) then .advance 32
      else .stop⟩
  | 1 => some ⟨none,
      if la = ' '.toNat then .advance 1
      else if ('0'.toNat ≤ la ∧ la ≤ '9'.toNat) ∨ ('A'.toNat ≤ la ∧ la ≤ 'Z'.toNat)
        then .advance 26
      else .stop⟩
  | 2 => some ⟨none,
      if la = '#'.toNat then .advance 10
      else if la = '/'.toNat then .advance 5
      else if la = '\t'.toNat ∨ la = '\n'.toNat ∨ la = '\x0c'.toNat ∨ la = '\r'.toNat ∨ la = ' '.toNat
        then .skip 2
      else if '0'.toNat ≤ la ∧ la ≤ '9'.toNat then .advance 35
      else if ('A'.toNat ≤ la ∧ la ≤ 'Z'.toNat) ∨ la = '_'.toNat ∨
          ('a'.toNat ≤ la ∧ la ≤ 'z'.toNat) then .advance 32
      else .stop⟩
  | 3 => some ⟨none,
      if la = '#'.toNat then .advance 10
      else if la = '/'.toNat then .advance 23
      else if la = '\t'.toNat ∨ la = '\n'.toNat ∨ la = '\x0c'.toNat ∨ la = '\r'.toNat ∨ la = ' '.toNat
        then .advance 22
      else if la ≠ 0 ∧ la ≠ ':'.toNat then .advance 24
      else .stop⟩
  | 4 => some ⟨none,
      if la = '#'.toNat then .advance 9
      else if la = '/'.toNat then .advance 39
      else if la = '\t'.toNat ∨ la = '\n'.toNat ∨ la = '\x0c'.toNat ∨ la = '\r'.toNat ∨ la = ' '.toNat
        then .advance 38
      else if la ≠ 0 ∧ la ≠ ')'.toNat then .advance 40
      else .stop⟩
  | 5 => some ⟨none,
      if la = '/'.toNat then .advance 10 else .stop⟩
  | 6 => some ⟨none,
      if la = ':'.toNat then .advance 19 else .stop⟩
  | 7 => some ⟨none,
      if eof then .advance 8
      else if la = '\n'.toNat then .skip 7
      else if la = '#'.toNat then .advance 10
      else if la = '$'.toNat then .advance 34
      else if la = '('.toNat then .advance 37
      else if la = '+'.toNat then .advance 18
      else if la = '-'.toNat then .advance 12
      else if la = '/'.toNat then .advance 44
      else if la = ':'.toNat then .advance 45
      else if la = '@'.toNat then .advance 29
      else if la = '\t'.toNat ∨ la = '\x0c'.toNat ∨ la = '\r'.toNat ∨ la = ' '.toNat then .advance 43
      else if 'A'.toNat ≤ la ∧ la ≤ 'Z'.toNat then .advance 46
      else if la ≠ 0 then .advance 47
      else .stop⟩
  | 8 => some ⟨some ts_builtin_sym_end, .stop⟩
  | 9 => some ⟨some sym_comment,
      if la = '\n'.toNat then .advance 40
      else if la = ')'.toNat then .advance 10
      else if la ≠ 0 then .advance 9
      else .stop⟩
  | 10 => some ⟨some sym_comment,
      if la ≠ 0 ∧ la ≠ '\n'.toNat then .advance 10 else .stop⟩
  | 11 => some ⟨some anon_sym_DASH, .stop⟩
  | 12 => some ⟨some anon_sym_DASH,
      if la ≠ 0 ∧ la ≠ '\n'.toNat then .advance 47 else .stop⟩
  | 13 => some ⟨some aux_sym_section_token1,
      if la = '#'.toNat then .advance 10
      else if la = '/'.toNat then .advance 14
      else if la = ':'.toNat then .advance 15
      else if la = '\t'.toNat ∨ la = '\x0c'.toNat ∨ la = '\r'.toNat ∨ la = ' '.toNat then .advance 13
      else if la ≠ 0 ∧ la ≠ '\t'.toNat ∧ la ≠ '\n'.toNat then .advance 16
      else .stop⟩
  | 14 => some ⟨some aux_sym_section_token1,
      if la = '/'.toNat then .advance 10
      else if la ≠ 0 ∧ la ≠ '\n'.toNat then .advance 16
      else .stop⟩
  | 15 => some ⟨some aux_sym_section_token1,
      if la = ':'.toNat then .advance 21
      else if la ≠ 0 ∧ la ≠ '\n'.toNat then .advance 16
      else .stop⟩
  | 16 => some ⟨some aux_sym_section_token1,
      if la ≠ 0 ∧ la ≠ '\n'.toNat then .advance 16 else .stop⟩
  | 17 => some ⟨some anon_sym_PLUS, .stop⟩
  | 18 => some ⟨some anon_sym_PLUS,
      if la ≠ 0 ∧ la ≠ '\n'.toNat then .advance 47 else .stop⟩
  | 19 => some ⟨some anon_sym_COLON_COLON, .stop⟩
  | 20 => some ⟨some anon_sym_COLON_COLON,
      if la ≠ 0 ∧ la ≠ '\n'.toNat then .advance 47 else .stop⟩
  | 21 => some ⟨some anon_sym_COLON_COLON,
      if la ≠ 0 ∧ la ≠ '\n'.toNat then .advance 16 else .stop⟩
  | 22 => some ⟨some aux_sym_context_block_token1,
      if la = '\n'.toNat then .advance 22
      else if la = '#'.toNat then .advance 10
      else if la = '/'.toNat then .advance 23
      else if la = ':'.toNat then .advance 24
      else if la = '\t'.toNat ∨ la = '\x0c'.toNat ∨ la = '\r'.toNat ∨ la = ' '.toNat then .advance 22
      else if la ≠ 0 then .advance 24
      else .stop⟩
  | 23 => some ⟨some aux_sym_context_block_token1,
      if la = '/'.toNat then .advance 10
      else if la ≠ 0 ∧ la ≠ '\n'.toNat then .advance 24
      else .stop⟩
  | 24 => some ⟨some aux_sym_context_block_token1,
      if la ≠ 0 ∧ la ≠ '\n'.toNat then .advance 24 else .stop⟩
  | 25 => some ⟨some sym_todo_block,
      if la = ' '.toNat then .advance 1
      else if la = '_'.toNat ∨ ('a'.toNat ≤ la ∧ la ≤ 'z'.toNat) then .advance 32
      else if ('0'.toNat ≤ la ∧ la ≤ '9'.toNat) ∨ ('A'.toNat ≤ la ∧ la ≤ 'Z'.toNat)
        then .advance 25
      else .stop⟩
  | 26 => some ⟨some sym_todo_block,
      if la = ' '.toNat then .advance 1
      else if ('0'.toNat ≤ la ∧ la ≤ '9'.toNat) ∨ ('A'.toNat ≤ la ∧ la ≤ 'Z'.toNat)
        then .advance 26
      else .stop⟩
  | 27 => some ⟨some sym_todo_block,
      if la = ' '.toNat then .advance 42
      else if ('0'.toNat ≤ la ∧ la ≤ '9'.toNat) ∨ ('A'.toNat ≤ la ∧ la ≤ 'Z'.toNat)
        then .advance 27
      else if la ≠ 0 ∧ la ≠ '\n'.toNat then .advance 47
      else .stop⟩
  | 28 => some ⟨some anon_sym_AT, .stop⟩
  | 29 => some ⟨some anon_sym_AT,
      if la ≠ 0 ∧ la ≠ '\n'.toNat then .advance 47 else .stop⟩
  | 30 => some ⟨some aux_sym_alias_definition_token1,
      if la = ' '.toNat then .advance 1
      else if la = '_'.toNat ∨ ('a'.toNat ≤ la ∧ la ≤ 'z'.toNat) then .advance 32
      else if ('0'.toNat ≤ la ∧ la ≤ '9'.toNat) ∨ ('A'.toNat ≤ la ∧ la ≤ 'Z'.toNat)
        then .advance 25
      else .stop⟩
  | 31 => some ⟨some aux_sym_alias_definition_token1,
      if la = ' '.toNat then .advance 1
      else if la = '_'.toNat ∨ ('a'.toNat ≤ la ∧ la ≤ 'z'.toNat) then .advance 32
      else if ('0'.toNat ≤ la ∧ la ≤ '9'.toNat) ∨ ('A'.toNat ≤ la ∧ la ≤ 'Z'.toNat)
        then .advance 30
      else .stop⟩
  | 32 => some ⟨some aux_sym_alias_definition_token1,
      if ('0'.toNat ≤ la ∧ la ≤ '9'.toNat) ∨ ('A'.toNat ≤ la ∧ la ≤ 'Z'.toNat) ∨
          la = '_'.toNat ∨ ('a'.toNat ≤ la ∧ la ≤ 'z'.toNat) then .advance 32
      else .stop⟩
  | 33 => some ⟨some anon_sym_DOLLAR, .stop⟩
  | 34 => some ⟨some anon_sym_DOLLAR,
      if la ≠ 0 ∧ la ≠ '\n'.toNat then .advance 47 else .stop⟩
  | 35 => some ⟨some aux_sym_reference_line_token1,
      if '0'.toNat ≤ la ∧ la ≤ '9'.toNat then .advance 35 else .stop⟩
  | 36 => some ⟨some anon_sym_LPAREN, .stop⟩
  | 37 => some ⟨some anon_sym_LPAREN,
      if la ≠ 0 ∧ la ≠ '\n'.toNat then .advance 47 else .stop⟩
  | 38 => some ⟨some aux_sym_relation_line_token1,
      if la = '#'.toNat then .advance 9
      else if la = '/'.toNat then .advance 39
      else if la = '\t'.toNat ∨ la = '\n'.toNat ∨ la = '\x0c'.toNat ∨ la = '\r'.toNat ∨ la = ' '.toNat
        then .advance 38
      else if la ≠ 0 ∧ la ≠ ')'.toNat then .advance 40
      else .stop⟩
  | 39 => some ⟨some aux_sym_relation_line_token1,
      if la = '/'.toNat then .advance 9
      else if la ≠ 0 ∧ la ≠ ')'.toNat then .advance 40
      else .stop⟩
  | 40 => some ⟨some aux_sym_relation_line_token1,
      if la ≠ 0 ∧ la ≠ ')'.toNat then .advance 40 else .stop⟩
  | 41 => some ⟨some anon_sym_RPAREN, .stop⟩
  | 42 => some ⟨some sym_statement,
      if la = ' '.toNat then .advance 42
      else if ('0'.toNat ≤ la ∧ la ≤ '9'.toNat) ∨ ('A'.toNat ≤ la ∧ la ≤ 'Z'.toNat)
        then .advance 27
      else if la ≠ 0 ∧ la ≠ '\n'.toNat then .advance 47
      else .stop⟩
  | 43 => some ⟨some sym_statement,
      if la = '#'.toNat then .advance 10
      else if la = '$'.toNat then .advance 34
      else if la = '('.toNat then .advance 37
      else if la = '+'.toNat then .advance 18
      else if la = '-'.toNat then .advance 12
      else if la = '/'.toNat then .advance 44
      else if la = ':'.toNat then .advance 45
      else if la = '@'.toNat then .advance 29
      else if la = '\t'.toNat then .advance 43
      else if la = '\x0c'.toNat then .advance 43
      else if la = '\r'.toNat then .advance 43
      else if la = ' '.toNat then .advance 43
      else if 'A'.toNat ≤ la ∧ la ≤ 'Z'.toNat then .advance 46
      else if la ≠ 0 ∧ la ≠ '\t'.toNat ∧ la ≠ '\n'.toNat then .advance 47
      else .stop⟩
  | 44 => some ⟨some sym_statement,
      if la = '/'.toNat then .advance 10
      else if la ≠ 0 ∧ la ≠ '\n'.toNat then .advance 47
      else .stop⟩
  | 45 => some ⟨some sym_statement,
      if la = ':'.toNat then .advance 20
      else if la ≠ 0 ∧ la ≠ '\n'.toNat then .advance 47
      else .stop⟩
  | 46 => some ⟨some sym_statement,
      if la = ' '.toNat ∨ ('0'.toNat ≤ la ∧ la ≤ '9'.toNat) ∨
          ('A'.toNat ≤ la ∧ la ≤ 'Z'.toNat) then .advance 42
      else if la ≠ 0 ∧ la ≠ '\n'.toNat then .advance 47
      else .stop⟩
  | 47 => some ⟨some sym_statement,
      if la ≠ 0 ∧ la ≠ '\n'.toNat then .advance 47 else .stop⟩
  | _ => none

/-- The lexer object the generated code works on: the input from the
current position on, the current position, the start of the token being
scanned, the end marked by the last `ACCEPT_TOKEN`, and the symbol it
recorded. -/
structure TSLexer where
  rest : List Char
  pos : Nat
  token_start : Nat
  token_end : Nat
  result_symbol : Nat
  deriving DecidableEq, Repr

/-- A token returned by `ts_lex`: its symbol and its range `[start, stop)`. -/
structure Token where
  sym : Nat
  start : Nat
  stop : Nat
  deriving DecidableEq, Repr

/-- The three ways a run of the lexer loop can end: `ts_lex` returned true
with a token, returned false, or the step budget of the model ran out. -/
inductive LexResult where
  | token (t : Token)
  | noToken
  | outOfFuel
  deriving DecidableEq, Repr

namespace TSLexer

/-- Modelled from the spec: `lexer->lookahead`, a field of the lexer object
declared in `tree_sitter/parser.h` (not under src/): the code point of the
next character, `0` on end of buffer (§4.2). -/
def lookahead (lx : TSLexer) : Nat :=
  match lx.rest with
  | [] => 0
  | c :: _ => c.toNat

/-- Modelled from the spec: `lexer->eof(lexer)` of `tree_sitter/parser.h`
(not under src/): true on end of buffer (§4.2). -/
def eof (lx : TSLexer) : Bool :=
  lx.rest.isEmpty

/-- Modelled from the spec: `lexer->advance(lexer, skip)` of
`tree_sitter/parser.h` (not under src/): consume the lookahead character;
with `skip` set the character is whitespace that produces no token, so the
token start moves past it (§4.2). At the end of buffer nothing is left to
consume. -/
def advance (lx : TSLexer) (skip : Bool) : TSLexer :=
  match lx.rest with
  | [] => lx
  | _ :: cs =>
    { lx with rest := cs, pos := lx.pos + 1,
              token_start := if skip then lx.pos + 1 else lx.token_start }

/-- Modelled from the spec: the macro `ACCEPT_TOKEN(symbol)` of
`tree_sitter/parser.h` (not under src/): record the token kind and mark the
current position as the token end. -/
def accept_token (lx : TSLexer) (symbol : Nat) : TSLexer :=
  { lx with result_symbol := symbol, token_end := lx.pos }

end TSLexer

/-- Modelled from the spec: the control flow the macros `START_LEXER`,
`ADVANCE`, `SKIP` and `END_STATE` of `tree_sitter/parser.h` (not under src/)
give the `switch` of `ts_lex`: read lookahead and eof, run the case of the
current state, and either consume a character and go on in the next state,
or return `result`, which is true once a token has been accepted. `fuel`
bounds the number of cases run. -/
def lexLoop : Nat → Nat → Bool → TSLexer → LexResult
  | 0, _, _, _ => .outOfFuel
  | fuel + 1, state, result, lx =>
    match ts_lex_case state lx.lookahead lx.eof with
    | none => .noToken
    | some c =>
      let lx1 := match c.accept with
        | some symbol => lx.accept_token symbol
        | none => lx
      let result1 := result || c.accept.isSome
      match c.next with
      | .advance s => lexLoop fuel s result1 (lx1.advance false)
      | .skip s => lexLoop fuel s result1 (lx1.advance true)
      | .stop =>
        if result1 then .token ⟨lx1.result_symbol, lx1.token_start, lx1.token_end⟩
        else .noToken

/-- The function `ts_lex(lexer, state)` on the input that starts at the
lexer position: the token it returns, with positions counted from that
start. The budget of `length + 2` cases is never used up. -/
def ts_lex (state : Nat) (input : List Char) : LexResult :=
  lexLoop (input.length + 2) state false ⟨input, 0, 0, 0, 0⟩

/-! ## Symbol metadata and field maps -/

/-- One entry of `ts_symbol_metadata`. -/
structure TSSymbolMetadata where
  visible : Bool
  named : Bool
  deriving DecidableEq, Repr

/-- The table `ts_symbol_metadata`, indexed by symbol. -/
def ts_symbol_metadata (symbol : Nat) : Option TSSymbolMetadata :=
  match symbol with
  | 0 => some ⟨false, true⟩   -- ts_builtin_sym_end
  | 1 => some ⟨true, true⟩    -- sym_comment
  | 2 => some ⟨true, false⟩   -- anon_sym_DASH
  | 3 => some ⟨false, false⟩  -- aux_sym_section_token1
  | 4 => some ⟨true, false⟩   -- anon_sym_PLUS
  | 5 => some ⟨true, false⟩   -- anon_sym_COLON_COLON
  | 6 => some ⟨false, false⟩  -- aux_sym_context_block_token1
  | 7 => some ⟨true, true⟩    -- sym_todo_block
  | 8 => some ⟨true, false⟩   -- anon_sym_AT
  | 9 => some ⟨false, false⟩  -- aux_sym_alias_definition_token1
  | 10 => some ⟨true, false⟩  -- anon_sym_DOLLAR
  | 11 => some ⟨false, false⟩ -- aux_sym_reference_line_token1
  | 12 => some ⟨true, false⟩  -- anon_sym_LPAREN
  | 13 => some ⟨false, false⟩ -- aux_sym_relation_line_token1
  | 14 => some ⟨true, false⟩  -- anon_sym_RPAREN
  | 15 => some ⟨true, true⟩   -- sym_statement
  | 16 => some ⟨true, true⟩   -- sym_source_file
  | 17 => some ⟨true, true⟩   -- sym_section
  | 18 => some ⟨true, true⟩   -- sym_context_block
  | 19 => some ⟨true, true⟩   -- sym_alias_definition
  | 20 => some ⟨true, true⟩   -- sym_reference_line
  | 21 => some ⟨true, true⟩   -- sym_relation_line
  | 22 => some ⟨false, false⟩ -- aux_sym_source_file_repeat1
  | _ => none

/-- One entry of `ts_field_map_slices`: where a production's field entries
start in `ts_field_map_entries`, and how many there are. -/
structure TSFieldMapSlice where
  index : Nat
  length : Nat
  deriving DecidableEq, Repr

/-- One entry of `ts_field_map_entries`. -/
structure TSFieldMapEntry where
  field_id : Nat
  child_index : Nat
  deriving DecidableEq, Repr

/-- The table `ts_field_map_slices[PRODUCTION_ID_COUNT]`; production 0 is not
initialised in the source and is therefore all zero. -/
def ts_field_map_slices (production_id : Nat) : Option TSFieldMapSlice :=
  match production_id with
  | 0 => some ⟨0, 0⟩
  | 1 => some ⟨0, 1⟩
  | 2 => some ⟨1, 1⟩
  | 3 => some ⟨2, 1⟩
  | 4 => some ⟨3, 1⟩
  | 5 => some ⟨4, 1⟩
  | 6 => some ⟨5, 1⟩
  | 7 => some ⟨6, 2⟩
  | _ => none

/-- The table `ts_field_map_entries`. -/
def ts_field_map_entries : List TSFieldMapEntry :=
  [ ⟨field_title, 1⟩,
    ⟨field_alias, 1⟩,
    ⟨field_alias_ref, 1⟩,
    ⟨field_number_ref, 1⟩,
    ⟨field_content, 1⟩,
    ⟨field_relation, 1⟩,
    ⟨field_content, 2⟩,
    ⟨ field_prefix, 0⟩ ]

/-- The field entries of a production: its slice of `ts_field_map_entries`. -/
def fieldMap (production_id : Nat) : List TSFieldMapEntry :=
  match ts_field_map_slices production_id with
  | some sl => (ts_field_map_entries.drop sl.index).take sl.length
  | none => []

/-! ## Lex modes and parse tables -/

/-- The table `ts_lex_modes[STATE_COUNT]`: the lex state of each parse state. -/
def ts_lex_modes (state : Nat) : Nat :=
  match state with
  | 0 => 0
  | 1 => 7
  | 2 => 7
  | 3 => 7
  | 4 => 7
  | 5 => 7
  | 6 => 7
  | 7 => 7
  | 8 => 7
  | 9 => 7
  | 10 => 7
  | 11 => 2
  | 12 => 13
  | 13 => 3
  | 14 => 2
  | 15 => 4
  | 16 => 0
  | 17 => 3
  | 18 => 0
  | 19 => 0
  | 20 => 0
  | 21 => 0
  | _ => 0

abbrev STATE_COUNT : Nat := 22
abbrev LARGE_STATE_COUNT : Nat := 4
abbrev SYMBOL_COUNT : Nat := 23
abbrev TOKEN_COUNT : Nat := 16
abbrev FIELD_COUNT : Nat := 7
abbrev PRODUCTION_ID_COUNT : Nat := 8

/-- The table `ts_parse_table[LARGE_STATE_COUNT][SYMBOL_COUNT]`: for a
terminal the index `ACTIONS(i)` into `ts_parse_actions`, for a non-terminal
the goto `STATE(s)`; entries the source does not initialise are 0. -/
def ts_parse_table (state symbol : Nat) : Nat :=
  match state, symbol with
  | 0, 0 => 1    -- ts_builtin_sym_end
  | 0, 1 => 3    -- sym_comment
  | 0, 2 => 1    -- anon_sym_DASH
  | 0, 4 => 1    -- anon_sym_PLUS
  | 0, 5 => 1    -- anon_sym_COLON_COLON
  | 0, 7 => 1    -- sym_todo_block
  | 0, 8 => 1    -- anon_sym_AT
  | 0, 9 => 1    -- aux_sym_alias_definition_token1
  | 0, 10 => 1   -- anon_sym_DOLLAR
  | 0, 11 => 1   -- aux_sym_reference_line_token1
  | 0, 12 => 1   -- anon_sym_LPAREN
  | 0, 14 => 1   -- anon_sym_RPAREN
  | 1, 16 => 16  -- sym_source_file
  | 1, 17 => 2   -- sym_section
  | 1, 18 => 2   -- sym_context_block
  | 1, 19 => 2   -- sym_alias_definition
  | 1, 20 => 2   -- sym_reference_line
  | 1, 21 => 2   -- sym_relation_line
  | 1, 22 => 2   -- aux_sym_source_file_repeat1
  | 1, 0 => 5    -- ts_builtin_sym_end
  | 1, 1 => 7    -- sym_comment
  | 1, 2 => 9    -- anon_sym_DASH
  | 1, 4 => 11   -- anon_sym_PLUS
  | 1, 5 => 13   -- anon_sym_COLON_COLON
  | 1, 7 => 15   -- sym_todo_block
  | 1, 8 => 17   -- anon_sym_AT
  | 1, 10 => 19  -- anon_sym_DOLLAR
  | 1, 12 => 21  -- anon_sym_LPAREN
  | 1, 15 => 15  -- sym_statement
  | 2, 17 => 3   -- sym_section
  | 2, 18 => 3   -- sym_context_block
  | 2, 19 => 3   -- sym_alias_definition
  | 2, 20 => 3   -- sym_reference_line
  | 2, 21 => 3   -- sym_relation_line
  | 2, 22 => 3   -- aux_sym_source_file_repeat1
  | 2, 0 => 23   -- ts_builtin_sym_end
  | 2, 1 => 7    -- sym_comment
  | 2, 2 => 9    -- anon_sym_DASH
  | 2, 4 => 11   -- anon_sym_PLUS
  | 2, 5 => 13   -- anon_sym_COLON_COLON
  | 2, 7 => 25   -- sym_todo_block
  | 2, 8 => 17   -- anon_sym_AT
  | 2, 10 => 19  -- anon_sym_DOLLAR
  | 2, 12 => 21  -- anon_sym_LPAREN
  | 2, 15 => 25  -- sym_statement
  | 3, 17 => 3   -- sym_section
  | 3, 18 => 3   -- sym_context_block
  | 3, 19 => 3   -- sym_alias_definition
  | 3, 20 => 3   -- sym_reference_line
  | 3, 21 => 3   -- sym_relation_line
  | 3, 22 => 3   -- aux_sym_source_file_repeat1
  | 3, 0 => 27   -- ts_builtin_sym_end
  | 3, 1 => 7    -- sym_comment
  | 3, 2 => 29   -- anon_sym_DASH
  | 3, 4 => 32   -- anon_sym_PLUS
  | 3, 5 => 35   -- anon_sym_COLON_COLON
  | 3, 7 => 38   -- sym_todo_block
  | 3, 8 => 41   -- anon_sym_AT
  | 3, 10 => 44  -- anon_sym_DOLLAR
  | 3, 12 => 47  -- anon_sym_LPAREN
  | 3, 15 => 38  -- sym_statement
  | _, _ => 0

/-- The table `ts_small_parse_table`, as the flat array of the source: for
each small state the number of groups, then per group the action index, the
number of symbols and the symbols. -/
def ts_small_parse_table : List Nat :=
  [ -- [0]
    3, 7, 1, sym_comment, 50, 1, ts_builtin_sym_end,
    52, 8, anon_sym_DASH, anon_sym_PLUS, anon_sym_COLON_COLON, sym_todo_block,
      anon_sym_AT, anon_sym_DOLLAR, anon_sym_LPAREN, sym_statement,
    -- [17]
    3, 7, 1, sym_comment, 54, 1, ts_builtin_sym_end,
    56, 8, anon_sym_DASH, anon_sym_PLUS, anon_sym_COLON_COLON, sym_todo_block,
      anon_sym_AT, anon_sym_DOLLAR, anon_sym_LPAREN, sym_statement,
    -- [34]
    3, 7, 1, sym_comment, 58, 1, ts_builtin_sym_end,
    60, 8, anon_sym_DASH, anon_sym_PLUS, anon_sym_COLON_COLON, sym_todo_block,
      anon_sym_AT, anon_sym_DOLLAR, anon_sym_LPAREN, sym_statement,
    -- [51]
    3, 7, 1, sym_comment, 62, 1, ts_builtin_sym_end,
    64, 8, anon_sym_DASH, anon_sym_PLUS, anon_sym_COLON_COLON, sym_todo_block,
      anon_sym_AT, anon_sym_DOLLAR, anon_sym_LPAREN, sym_statement,
    -- [68]
    3, 7, 1, sym_comment, 66, 1, ts_builtin_sym_end,
    68, 8, anon_sym_DASH, anon_sym_PLUS, anon_sym_COLON_COLON, sym_todo_block,
      anon_sym_AT, anon_sym_DOLLAR, anon_sym_LPAREN, sym_statement,
    -- [85]
    3, 7, 1, sym_comment, 70, 1, ts_builtin_sym_end,
    72, 8, anon_sym_DASH, anon_sym_PLUS, anon_sym_COLON_COLON, sym_todo_block,
      anon_sym_AT, anon_sym_DOLLAR, anon_sym_LPAREN, sym_statement,
    -- [102]
    3, 7, 1, sym_comment, 74, 1, ts_builtin_sym_end,
    76, 8, anon_sym_DASH, anon_sym_PLUS, anon_sym_COLON_COLON, sym_todo_block,
      anon_sym_AT, anon_sym_DOLLAR, anon_sym_LPAREN, sym_statement,
    -- [119]
    3, 3, 1, sym_comment, 78, 1, aux_sym_alias_definition_token1,
      80, 1, aux_sym_reference_line_token1,
    -- [129]
    3, 7, 1, sym_comment, 82, 1, aux_sym_section_token1, 84, 1, anon_sym_COLON_COLON,
    -- [139]
    2, 7, 1, sym_comment, 86, 1, aux_sym_context_block_token1,
    -- [146]
    2, 3, 1, sym_comment, 88, 1, aux_sym_alias_definition_token1,
    -- [153]
    2, 7, 1, sym_comment, 90, 1, aux_sym_relation_line_token1,
    -- [160]
    2, 3, 1, sym_comment, 92, 1, ts_builtin_sym_end,
    -- [167]
    2, 7, 1, sym_comment, 94, 1, aux_sym_context_block_token1,
    -- [174]
    2, 3, 1, sym_comment, 96, 1, anon_sym_COLON_COLON,
    -- [181]
    2, 3, 1, sym_comment, 98, 1, anon_sym_RPAREN,
    -- [188]
    2, 3, 1, sym_comment, 100, 1, anon_sym_COLON_COLON,
    -- [195]
    2, 3, 1, sym_comment, 102, 1, anon_sym_COLON_COLON ]

/-- The table `ts_small_parse_table_map`, indexed by `SMALL_STATE(id)`, which
is `id - LARGE_STATE_COUNT`. -/
def ts_small_parse_table_map (i : Nat) : Nat :=
  match i with
  | 0 => 0
  | 1 => 17
  | 2 => 34
  | 3 => 51
  | 4 => 68
  | 5 => 85
  | 6 => 102
  | 7 => 119
  | 8 => 129
  | 9 => 139
  | 10 => 146
  | 11 => 153
  | 12 => 160
  | 13 => 167
  | 14 => 174
  | 15 => 181
  | 16 => 188
  | 17 => 195
  | _ => 0

/-- A parse action, as the macros `SHIFT`, `SHIFT_REPEAT`, `SHIFT_EXTRA`,
`REDUCE`, `RECOVER` and `ACCEPT_INPUT` build it. -/
inductive TSParseAction where
  | shift (state : Nat) (extra : Bool) (repetition : Bool)
  | reduce (symbol : Nat) (child_count : Nat) (dynamic_precedence : Int) (production_id : Nat)
  | accept
  | recover
  deriving DecidableEq, Repr

/-- An entry of `ts_parse_actions`: the header (`count` is the length of
`actions`, `reusable`) with the actions that follow it. -/
structure TSParseActionEntry where
  reusable : Bool
  actions : List TSParseAction
  deriving DecidableEq, Repr

abbrev SHIFT (state : Nat) : TSParseAction := .shift state false false
abbrev SHIFT_REPEAT (state : Nat) : TSParseAction := .shift state false true
abbrev SHIFT_EXTRA : TSParseAction := .shift 0 true false
abbrev REDUCE (symbol child_count : Nat) (dynamic_precedence : Int) (production_id : Nat) :
    TSParseAction := .reduce symbol child_count dynamic_precedence production_id
abbrev RECOVER : TSParseAction := .recover
abbrev ACCEPT_INPUT : TSParseAction := .accept

/-- The table `ts_parse_actions`, by the index of each entry's header. -/
def ts_parse_actions (i : Nat) : Option TSParseActionEntry :=
  match i with
  | 0 => some ⟨false, []⟩
  | 1 => some ⟨false, [RECOVER]⟩
  | 3 => some ⟨true, [SHIFT_EXTRA]⟩
  | 5 => some ⟨true, [REDUCE sym_source_file 0 0 0]⟩
  | 7 => some ⟨false, [SHIFT_EXTRA]⟩
  | 9 => some ⟨false, [SHIFT 12]⟩
  | 11 => some ⟨false, [SHIFT 20]⟩
  | 13 => some ⟨false, [SHIFT 13]⟩
  | 15 => some ⟨false, [SHIFT 2]⟩
  | 17 => some ⟨false, [SHIFT 14]⟩
  | 19 => some ⟨false, [SHIFT 11]⟩
  | 21 => some ⟨false, [SHIFT 15]⟩
  | 23 => some ⟨true, [REDUCE sym_source_file 1 0 0]⟩
  | 25 => some ⟨false, [SHIFT 3]⟩
  | 27 => some ⟨true, [REDUCE aux_sym_source_file_repeat1 2 0 0]⟩
  | 29 => some ⟨false, [REDUCE aux_sym_source_file_repeat1 2 0 0, SHIFT_REPEAT 12]⟩
  | 32 => some ⟨false, [REDUCE aux_sym_source_file_repeat1 2 0 0, SHIFT_REPEAT 20]⟩
  | 35 => some ⟨false, [REDUCE aux_sym_source_file_repeat1 2 0 0, SHIFT_REPEAT 13]⟩
  | 38 => some ⟨false, [REDUCE aux_sym_source_file_repeat1 2 0 0, SHIFT_REPEAT 3]⟩
  | 41 => some ⟨false, [REDUCE aux_sym_source_file_repeat1 2 0 0, SHIFT_REPEAT 14]⟩
  | 44 => some ⟨false, [REDUCE aux_sym_source_file_repeat1 2 0 0, SHIFT_REPEAT 11]⟩
  | 47 => some ⟨false, [REDUCE aux_sym_source_file_repeat1 2 0 0, SHIFT_REPEAT 15]⟩
  | 50 => some ⟨true, [REDUCE sym_reference_line 2 0 4]⟩
  | 52 => some ⟨false, [REDUCE sym_reference_line 2 0 4]⟩
  | 54 => some ⟨true, [REDUCE sym_section 2 0 1]⟩
  | 56 => some ⟨false, [REDUCE sym_section 2 0 1]⟩
  | 58 => some ⟨true, [REDUCE sym_alias_definition 2 0 2]⟩
  | 60 => some ⟨false, [REDUCE sym_alias_definition 2 0 2]⟩
  | 62 => some ⟨true, [REDUCE sym_reference_line 2 0 3]⟩
  | 64 => some ⟨false, [REDUCE sym_reference_line 2 0 3]⟩
  | 66 => some ⟨true, [REDUCE sym_context_block 3 0 5]⟩
  | 68 => some ⟨false, [REDUCE sym_context_block 3 0 5]⟩
  | 70 => some ⟨true, [REDUCE sym_relation_line 3 0 6]⟩
  | 72 => some ⟨false, [REDUCE sym_relation_line 3 0 6]⟩
  | 74 => some ⟨true, [REDUCE sym_context_block 4 0 7]⟩
  | 76 => some ⟨false, [REDUCE sym_context_block 4 0 7]⟩
  | 78 => some ⟨true, [SHIFT 7]⟩
  | 80 => some ⟨true, [SHIFT 4]⟩
  | 82 => some ⟨false, [SHIFT 5]⟩
  | 84 => some ⟨false, [SHIFT 17]⟩
  | 86 => some ⟨false, [SHIFT 18]⟩
  | 88 => some ⟨true, [SHIFT 6]⟩
  | 90 => some ⟨false, [SHIFT 19]⟩
  | 92 => some ⟨true, [ACCEPT_INPUT]⟩
  | 94 => some ⟨false, [SHIFT 21]⟩
  | 96 => some ⟨true, [SHIFT 8]⟩
  | 98 => some ⟨true, [SHIFT 9]⟩
  | 100 => some ⟨true, [SHIFT 17]⟩
  | 102 => some ⟨true, [SHIFT 10]⟩
  | _ => none

/-! ## The table-driven automaton -/

/-- Modelled from the spec: the table lookup of the tree-sitter runtime (not
under src/) that reads the action of a parse state for a symbol (§3, the
automaton table `action-per-lookahead-symbol`): a large state indexes
`ts_parse_table` directly; a small state scans its groups in
`ts_small_parse_table` for the symbol; 0 (no action) when it is absent. -/
def smallLookup (symbol : Nat) : Nat → List Nat → Nat
  | 0, _ => 0
  | group_count + 1, section_value :: symbol_count :: data =>
    if symbol ∈ data.take symbol_count then section_value
    else smallLookup symbol group_count (data.drop symbol_count)
  | _ + 1, _ => 0

/-- Modelled from the spec: the table lookup of the tree-sitter runtime (not
under src/), see `smallLookup`: the table value of `state` for `symbol`. -/
def ts_language_lookup (state symbol : Nat) : Nat :=
  if state ≥ LARGE_STATE_COUNT then
    match ts_small_parse_table.drop (ts_small_parse_table_map (state - LARGE_STATE_COUNT)) with
    | [] => 0
    | group_count :: data => smallLookup symbol group_count data
  else ts_parse_table state symbol

/-- Modelled from the spec: the action of the automaton table of §3 for a
parse state and a lookahead symbol, read by the tree-sitter runtime (not
under src/): the first action of the entry of `ts_parse_actions` that the
table value names; `none` when the entry has no action (Error). -/
def tableAction (state symbol : Nat) : Option TSParseAction :=
  match ts_parse_actions (ts_language_lookup state symbol) with
  | some entry => entry.actions.head?
  | none => none

/-- Modelled from the spec: the syntax node of §3: a leaf made from a token
(kind, range, whether it was shifted as an extra) or a node made by a reduce
action (kind, production, ordered children). -/
inductive Node where
  | leaf (sym : Nat) (start stop : Nat) (extra : Bool)
  | inner (sym : Nat) (production_id : Nat) (children : List Node)
  deriving Repr

namespace Node

/-- The symbol (kind) of a node. -/
def symbol : Node → Nat
  | leaf sym _ _ _ => sym
  | inner sym _ _ => sym

/-- Whether a node is an extra (a comment shifted by `SHIFT_EXTRA`). -/
def isExtra : Node → Bool
  | leaf _ _ _ extra => extra
  | inner _ _ _ => false

/-- The children of a node; a leaf has none. -/
def children : Node → List Node
  | leaf _ _ _ _ => []
  | inner _ _ cs => cs

/-- The text a leaf covers in `input`. -/
def text (input : List Char) : Node → List Char
  | leaf _ start stop _ => (input.drop start).take (stop - start)
  | inner _ _ _ => []

/-- Modelled from the spec: the field view of §3: the children of a node
that its production's field map assigns to `field`, by their position among
the children that are not extras. -/
def field (n : Node) (field_id : Nat) : List Node :=
  match n with
  | leaf _ _ _ _ => []
  | inner _ production_id cs =>
    ((fieldMap production_id).filter (fun e => e.field_id == field_id)).filterMap
      (fun e => (cs.filter (fun c => !c.isExtra)).get? e.child_index)

/-- Whether a symbol is visible according to `ts_symbol_metadata`. -/
def visibleSym (sym : Nat) : Bool :=
  match ts_symbol_metadata sym with
  | some m => m.visible
  | none => false

end Node

mutual

/-- Modelled from the spec: the tree builder of §4.4 folds invisible helper
non-terminals away: a leaf and a visible node stand for themselves, an
invisible node for its children, folded in the same way, at any depth. -/
def Node.fold : Node → List Node
  | .leaf sym start stop extra => [.leaf sym start stop extra]
  | .inner sym production_id cs =>
    if Node.visibleSym sym then [.inner sym production_id cs] else Node.foldList cs

/-- Modelled from the spec: the nodes of a list folded by `Node.fold`, in
their order. -/
def Node.foldList : List Node → List Node
  | [] => []
  | c :: cs => Node.fold c ++ Node.foldList cs

end

/-- Modelled from the spec: the outcome of a run of the automaton of §4.3:
accepted with a root node, an error action met in a state on a lookahead
token at a position, a failed `ts_lex` call, a malformed stack, or the step
budget used up. -/
inductive ParseResult where
  | accepted (root : Node)
  | error (state : Nat) (lookahead : Token) (pos : Nat)
  | lexFailed (state : Nat) (pos : Nat)
  | badStack
  | outOfFuel
  deriving Repr

/-- Modelled from the spec: the parse stack of §3, a list of (state, node)
pairs with the top first: the state on top, the start state 1 when the
stack is empty. -/
def topState (stack : List (Nat × Node)) : Nat :=
  match stack with
  | [] => 1
  | (state, _) :: _ => state

/-- Modelled from the spec: the pop of Reduce in §4.3: take stack entries
until `count` of them that are not extras have been taken; the nodes come
back in source order with the rest of the stack. -/
def popChildren : Nat → List (Nat × Node) → List Node → Option (List Node × List (Nat × Node))
  | 0, stack, acc => some (acc, stack)
  | _ + 1, [], _ => none
  | count + 1, (_, n) :: stack, acc =>
    if n.isExtra then popChildren (count + 1) stack (n :: acc)
    else popChildren count stack (n :: acc)

/-- Modelled from the spec: Accept of §4.3: the single remaining node of the
stack is the result; comments left on the stack as extras, below or above
it, become its first and last children. -/
def acceptRoot (stack : List (Nat × Node)) : Option Node :=
  let nodes := (stack.map Prod.snd).reverse
  match nodes.filter (fun n => !n.isExtra) with
  | [.inner sym production_id cs] =>
    some (.inner sym production_id
      (nodes.takeWhile Node.isExtra ++ cs ++ (nodes.dropWhile Node.isExtra).drop 1))
  | _ => none

/-- Modelled from the spec: the automaton of §4.3, which the tree-sitter
runtime (not under src/) implements. With no lookahead it calls `ts_lex` in
the lex state `ts_lex_modes` gives the current parse state, at the current
position. With a lookahead it takes the table action: Shift pushes the new
state with the token as a leaf and goes on behind the token (an extra keeps
the state); Reduce pops the production's children, builds the node and
pushes it with the goto state, keeping the lookahead; Accept returns the
remaining node (`acceptRoot`); no action or Recover is an error. -/
def parseLoop : Nat → List (Nat × Node) → List Char → Nat → Option Token → ParseResult
  | 0, _, _, _, _ => .outOfFuel
  | fuel + 1, stack, rest, pos, none =>
    match ts_lex (ts_lex_modes (topState stack)) rest with
    | .token t => parseLoop fuel stack rest pos (some t)
    | _ => .lexFailed (topState stack) pos
  | fuel + 1, stack, rest, pos, some t =>
    match tableAction (topState stack) t.sym with
    | some (.shift state extra _) =>
      parseLoop fuel
        ((if extra then topState stack else state,
          Node.leaf t.sym (pos + t.start) (pos + t.stop) extra) :: stack)
        (rest.drop t.stop) (pos + t.stop) none
    | some (.reduce symbol child_count _ production_id) =>
      match popChildren child_count stack [] with
      | some (cs, stack1) =>
        parseLoop fuel
          ((ts_language_lookup (topState stack1) symbol, Node.inner symbol production_id cs)
            :: stack1)
          rest pos (some t)
      | none => .badStack
    | some .accept =>
      match acceptRoot stack with
      | some root => .accepted root
      | none => .badStack
    | some .recover => .error (topState stack) t pos
    | none => .error (topState stack) t pos

/-- Modelled from the spec: `parse(buffer)` of §6: run the automaton on
`input` from the start state 1 with an empty stack. Every token costs at
most four steps of the loop (lex, reduce of the item, reduce of the repeat,
shift), and the end of input at most five. -/
def parse (input : List Char) : ParseResult :=
  parseLoop (4 * input.length + 8) [] input 0 none

/-- Modelled from the spec: the top-level items of §3 of an accepted parse:
the kind of the root and its children with the invisible repeat nodes
folded away, however deeply they are nested. -/
def ParseResult.items : ParseResult → Option (Nat × List Node)
  | .accepted (.inner sym _ cs) => some (sym, Node.foldList cs)
  | _ => none

/-- All actions of `ts_parse_actions`, in the order of the table (its
entries have the indices 0 to 102). -/
def allParseActions : List TSParseAction :=
  (List.range 103).flatMap (fun i =>
    match ts_parse_actions i with
    | some entry => entry.actions
    | none => [])

/-- The reduce actions of the table that build `symbol`, each as the pair
of its child count and its production id, without repeats. -/
def reductionsOf (symbol : Nat) : List (Nat × Nat) :=
  (allParseActions.filterMap (fun a =>
    match a with
    | .reduce s child_count _ production_id =>
      if s = symbol then some (child_count, production_id) else none
    | _ => none)).dedup

/-- The position of the first newline of `input`, or its length when it has
none: where the line that starts `input` ends. -/
def lineEnd (input : List Char) : Nat :=
  (input.takeWhile (fun c => c != '\n')).length

/-- The leading punctuation of the grammar with the token each one names. -/
def leadingPunct : List (List Char × Nat) :=
  [(['-'], anon_sym_DASH), (['+'], anon_sym_PLUS), (['@'], anon_sym_AT),
   (['$'], anon_sym_DOLLAR), (['('], anon_sym_LPAREN), ([':', ':'], anon_sym_COLON_COLON)]

/-- The text that follows a leading punctuation is empty or starts with a
newline. -/
def AtLineEnd (rest : List Char) : Prop :=
  rest = [] ∨ rest.head? = some '\n'

instance (rest : List Char) : Decidable (AtLineEnd rest) :=
  inferInstanceAs (Decidable (_ ∨ _))

/-- An input without a NUL character. -/
def NulFree (input : List Char) : Prop :=
  ∀ c ∈ input, c ≠ '\x00'

instance (input : List Char) : Decidable (NulFree input) :=
  inferInstanceAs (Decidable (∀ c ∈ input, c ≠ '\x00'))

/-- The code points the lexer skips as whitespace: tab, newline, form feed,
carriage return and space. -/
def isSkippedCode (la : Nat) : Prop :=
  la = 9 ∨ la = 10 ∨ la = 12 ∨ la = 13 ∨ la = 32

/-- The characters the lexer skips as whitespace. -/
def isSkipped (c : Char) : Prop :=
  c = '\t' ∨ c = '\n' ∨ c = '\x0c' ∨ c = '\r' ∨ c = ' '

instance (c : Char) : Decidable (isSkipped c) :=
  inferInstanceAs (Decidable (_ ∨ _))

/-- What a transition of the lexer may be: `ADVANCE` never enters the
skipping states 0, 2 and 7 and enters state 8 only at the end of input;
`SKIP` stays in one of the states 0, 2, 7 and consumes a whitespace
character. -/
def okNext (eof : Bool) (la : Nat) (state : Nat) : LexAct → Prop
  | .advance s => s ≠ 0 ∧ s ≠ 2 ∧ s ≠ 7 ∧ (s = 8 → eof = true)
  | .skip s => s = state ∧ (state = 0 ∨ state = 2 ∨ state = 7) ∧ isSkippedCode la
  | .stop => True

/-- The tokens obtained by calling `ts_lex` repeatedly, each call starting
where the previous token ended, in the lex states `modes` one after the
other; `pos` is the position of `rest` in the whole input, and the tokens
carry positions in the whole input. `none` when a call returns no token. -/
def lexAll : List Nat → List Char → Nat → Option (List Token)
  | [], _, _ => some []
  | mode :: modes, rest, pos =>
    match ts_lex mode rest with
    | .token t =>
      match lexAll modes (rest.drop t.stop) (pos + t.stop) with
      | some ts => some (⟨t.sym, pos + t.start, pos + t.stop⟩ :: ts)
      | none => none
    | _ => none

/-- The lex states the parse states use: the values of `ts_lex_modes`. -/
def lexModes : List Nat := [0, 2, 3, 4, 7, 13]

/-- The position of the first `)` of `input`, or its length when it has
none. -/
def parenEnd (input : List Char) : Nat :=
  (input.takeWhile (fun c => c != ')')).length

/-- The two comment openers. -/
def commentOpeners : List (List Char) := [['#'], ['/', '/']]

/-- The text behind a comment opener has a `)` before its first newline, or
has no newline at all. -/
def ClosesBeforeNewline (rest : List Char) : Prop :=
  ')' ∈ rest.takeWhile (fun c => c != '\n') ∨ '\n' ∉ rest

instance (rest : List Char) : Decidable (ClosesBeforeNewline rest) :=
  inferInstanceAs (Decidable (_ ∨ _))

/-- The lexer states that advance over the leading whitespace of an opaque
text: the context-title states 3 and 22 and the relation-content states 4
and 38. -/
def inW (s : Nat) : Prop := s = 3 ∨ s = 4 ∨ s = 22 ∨ s = 38

/-- The lexer states in which a newline can be consumed by `ADVANCE`: those
of `inW` and the states 9, 39 and 40 of the relation text. -/
def inB (s : Nat) : Prop := inW s ∨ s = 9 ∨ s = 39 ∨ s = 40

/-- What an `ADVANCE` of the lexer may be: the states of `inB` are entered
only from states of `inB`, those of `inW` only from states of `inW` and on a
whitespace character; a newline is consumed only into a state of `inW` or
into state 40; state 40 leads only to itself; states 3 and 4 are never
entered. -/
def okAdvance (eof : Bool) (la state : Nat) : LexAct → Prop
  | .advance s => (inB s → inB state) ∧ (inW s → inW state ∧ isSkippedCode la) ∧
      (la = 10 → eof = true ∨ inW s ∨ s = 40) ∧ (state = 40 → s = 40) ∧ (s = 3 ∨ s = 4 → False)
  | .skip _ => True
  | .stop => True

/-- The lookahead a lexer sees in front of the text `l`. -/
def laOf (l : List Char) : Nat :=
  match l with
  | [] => 0
  | c :: _ => c.toNat

/-- Whether a lexer in front of the text `l` is at the end of input. -/
def eofOf (l : List Char) : Bool := l.isEmpty

/-- The text of a token: the characters of `input` in its range. -/
def tokenText (input : List Char) (t : Token) : List Char :=
  (input.drop t.start).take (t.stop - t.start)

/-- A text made of a run of whitespace followed by a body without a
newline. -/
def BlankThenLine (text : List Char) : Prop :=
  ∃ ws body, text = ws ++ body ∧ (∀ c ∈ ws, isSkipped c) ∧ '\n' ∉ body

/-- The lexer states reachable from the section-title state 13. -/
def inS13 (s : Nat) : Prop := s = 13 ∨ s = 14 ∨ s = 15 ∨ s = 16 ∨ s = 21 ∨ s = 10
/-- The lexer states reachable from the context-title state 3. -/
def inS3 (s : Nat) : Prop := s = 3 ∨ s = 22 ∨ s = 23 ∨ s = 24 ∨ s = 10
/-- The lexer states reachable from the relation-content state 4. -/
def inS4 (s : Nat) : Prop := s = 4 ∨ s = 38 ∨ s = 39 ∨ s = 40 ∨ s = 9 ∨ s = 10

/-- Position `k` of `input` is its end, or holds a newline or a NUL. -/
def LineStop (input : List Char) (k : Nat) : Prop :=
  input.drop k = [] ∨ (input.drop k).head? = some '\n' ∨ (input.drop k).head? = some '\x00'

/-- Position `k` of `input` is its end, or holds a `)` or a NUL. -/
def ParenStop (input : List Char) (k : Nat) : Prop :=
  input.drop k = [] ∨ (input.drop k).head? = some ')' ∨ (input.drop k).head? = some '\x00'

/-- A decimal digit. -/
def isDigitChar (c : Char) : Bool :=
  decide ('0'.toNat ≤ c.toNat ∧ c.toNat ≤ '9'.toNat)

/-- A letter of `A-Z` or `a-z`, or an underscore. -/
def isIdentStart (c : Char) : Bool :=
  decide (('A'.toNat ≤ c.toNat ∧ c.toNat ≤ 'Z'.toNat) ∨ c.toNat = '_'.toNat ∨
    ('a'.toNat ≤ c.toNat ∧ c.toNat ≤ 'z'.toNat))

/-- A character of `[A-Za-z0-9_]`. -/
def isIdentChar (c : Char) : Bool :=
  isDigitChar c || isIdentStart c

/-- The token moved `d` characters to the right. -/
def Token.shift (d : Nat) (t : Token) : Token :=
  ⟨t.sym, t.start + d, t.stop + d⟩

/-- The result of a scan moved `d` characters to the right. -/
def LexResult.shift (d : Nat) : LexResult → LexResult
  | .token t => .token (t.shift d)
  | .noToken => .noToken
  | .outOfFuel => .outOfFuel

/-- The table `ts_symbol_names`, indexed by symbol. -/
def ts_symbol_names (symbol : Nat) : Option String :=
  match symbol with
  | 0 => some "end"                       -- ts_builtin_sym_end
  | 1 => some "comment"                   -- sym_comment
  | 2 => some "-"                         -- anon_sym_DASH
  | 3 => some "section_token1"            -- aux_sym_section_token1
  | 4 => some "+"                         -- anon_sym_PLUS
  | 5 => some "::"                        -- anon_sym_COLON_COLON
  | 6 => some "context_block_token1"      -- aux_sym_context_block_token1
  | 7 => some "todo_block"                -- sym_todo_block
  | 8 => some "@"                         -- anon_sym_AT
  | 9 => some "alias_definition_token1"   -- aux_sym_alias_definition_token1
  | 10 => some "$"                        -- anon_sym_DOLLAR
  | 11 => some "reference_line_token1"    -- aux_sym_reference_line_token1
  | 12 => some "("                        -- anon_sym_LPAREN
  | 13 => some "relation_line_token1"     -- aux_sym_relation_line_token1
  | 14 => some ")"                        -- anon_sym_RPAREN
  | 15 => some "statement"                -- sym_statement
  | 16 => some "source_file"              -- sym_source_file
  | 17 => some "section"                  -- sym_section
  | 18 => some "context_block"            -- sym_context_block
  | 19 => some "alias_definition"         -- sym_alias_definition
  | 20 => some "reference_line"           -- sym_reference_line
  | 21 => some "relation_line"            -- sym_relation_line
  | 22 => some "source_file_repeat1"      -- aux_sym_source_file_repeat1
  | _ => none

/-- The symbols below `SYMBOL_COUNT` whose entry of `ts_symbol_metadata` has
the given flags, in the order of their ids. -/
def symbolsWith (visible named : Bool) : List Nat :=
  (List.range SYMBOL_COUNT).filter
    (fun s => decide (ts_symbol_metadata s = some ⟨visible, named⟩))

/-- The names `ts_symbol_names` gives a list of symbols. -/
def namesOf (symbols : List Nat) : List String :=
  symbols.filterMap ts_symbol_names

/-- The number of transitions (`ADVANCE` or `SKIP`) the loop of `lexLoop`
makes from a state on a lexer object, with the same budget of cases. -/
def lexTransitions : Nat → Nat → TSLexer → Nat
  | 0, _, _ => 0
  | fuel + 1, state, lx =>
    match ts_lex_case state lx.lookahead lx.eof with
    | none => 0
    | some c =>
      match c.next with
      | .advance s => lexTransitions fuel s (lx.advance false) + 1
      | .skip s => lexTransitions fuel s (lx.advance true) + 1
      | .stop => 0

/-- The number of cases the loop needs at most: one in state 8, which
returns at once, and the remaining length plus two elsewhere. -/
def lexBudget (state : Nat) (rest : List Char) : Nat :=
  if state = 8 then 1 else rest.length + 2

/-- The accepting lexer states reachable from the top-level state 7 by
consuming a character. -/
def inS7 (s : Nat) : Prop :=
  s = 10 ∨ s = 12 ∨ s = 18 ∨ s = 20 ∨ s = 27 ∨ s = 29 ∨ s = 34 ∨ s = 37 ∨
    s = 42 ∨ s = 43 ∨ s = 44 ∨ s = 45 ∨ s = 46 ∨ s = 47

instance (s : Nat) : Decidable (inS7 s) :=
  inferInstanceAs (Decidable (_ ∨ _))

/-- The state a transition leads to from state `s`; `s` itself when the
case stops. -/
def nextOf (s : Nat) : LexAct → Nat
  | .advance s1 => s1
  | .skip s1 => s1
  | .stop => s

/-- The state the lexer goes to from state `s` on the character `c` (not at
the end of input); `s` itself when the case of `s` stops. -/
def lexNext (s : Nat) (c : Char) : Nat :=
  match ts_lex_case s c.toNat false with
  | some k => nextOf s k.next
  | none => s

/-- A transition that is an `ADVANCE` into a state of the set `S`. -/
def advInto (S : Nat → Prop) (act : LexAct) : Prop :=
  ∃ s1, act = .advance s1 ∧ S s1

/-- The token the case of state `s` accepts (`ACCEPT_TOKEN`); 0 when it
accepts none. -/
def lexAccept (s : Nat) : Nat :=
  match ts_lex_case s 0 true with
  | some ⟨some sym, _⟩ => sym
  | _ => 0

/-- The number of newlines at the start of `input`. -/
def leadingNewlines (input : List Char) : Nat :=
  (input.takeWhile (fun c => c == '\n')).length

/-- The line a scan in the top-level lex state looks at: the text from the
first character that is no newline up to the next newline or the end of
input. -/
def scannedLine (input : List Char) : List Char :=
  (input.drop (leadingNewlines input)).takeWhile (fun c => c != '\n')

/-- A blank: space, tab, form feed or carriage return. -/
def isBlankChar (c : Char) : Bool :=
  decide (c.toNat = ' '.toNat ∨ c.toNat = '\t'.toNat ∨ c.toNat = '\x0c'.toNat ∨
    c.toNat = '\r'.toNat)

/-- An uppercase letter `A-Z`. -/
def isUpperChar (c : Char) : Bool :=
  decide ('A'.toNat ≤ c.toNat ∧ c.toNat ≤ 'Z'.toNat)

/-- An uppercase letter or a digit. -/
def isTagEnd (c : Char) : Bool :=
  isUpperChar c || isDigitChar c

/-- An uppercase letter, a digit or a space. -/
def isTagChar (c : Char) : Bool :=
  isTagEnd c || decide (c.toNat = ' '.toNat)

/-- The shape of a todo line in words: an optional run of blanks, then one
uppercase letter, then at least two more characters, all of them uppercase
letters, digits or spaces, the last of which is an uppercase letter or a
digit. -/
def isTodoLine (line : List Char) : Bool :=
  match line.dropWhile isBlankChar with
  | [] => false
  | u :: tl =>
    isUpperChar u && decide (2 ≤ tl.length) && tl.all isTagChar && tl.getLast?.any isTagEnd

/-- The lexer states from which only punctuation, comment and statement
tokens come: 10, 12, 18, 20, 29, 34, 37, 44, 45 and 47. -/
def inD (s : Nat) : Prop :=
  s = 10 ∨ s = 12 ∨ s = 18 ∨ s = 20 ∨ s = 29 ∨ s = 34 ∨ s = 37 ∨ s = 44 ∨ s = 45 ∨ s = 47

instance (s : Nat) : Decidable (inD s) :=
  inferInstanceAs (Decidable (_ ∨ _))

/-- The characters of a line: no newline and no NUL. -/
def LineChars (r : List Char) : Prop :=
  ∀ c ∈ r, c.toNat ≠ 10 ∧ c.toNat ≠ 0

/-- The invariant of the parse stack: every state on it is a parse state,
and when state 16 is on top the stack holds a source_file node that is no
extra. -/
def StackInv (stack : List (Nat × Node)) : Prop :=
  (∀ e ∈ stack, e.1 < STATE_COUNT) ∧
  (topState stack = 16 →
    ∃ e ∈ stack, e.2.isExtra = false ∧ e.2.symbol = sym_source_file)

/-! ## Lemmas on characters and on the lexer loop -/

theorem toNat_eq_iff (c : Char) (d : Char) : c.toNat = d.toNat ↔ c = d := by
  constructor
  · intro h
    rw [← Char.ofNat_toNat c, ← Char.ofNat_toNat d, h]
  · rintro rfl; rfl

theorem toNat_ne_zero {c : Char} (h : c ≠ '\x00') : c.toNat ≠ 0 := by
  intro h0
  exact h ((toNat_eq_iff c '\x00').1 h0)

theorem toNat_newline (c : Char) : c.toNat = 10 ↔ c = '\n' :=
  toNat_eq_iff c '\n'

theorem lineEnd_nil : lineEnd [] = 0 := rfl

theorem lineEnd_cons_newline (cs : List Char) : lineEnd ('\n' :: cs) = 0 := by
  simp [lineEnd]

theorem lineEnd_cons_of_ne {c : Char} (h : c ≠ '\n') (cs : List Char) :
    lineEnd (c :: cs) = lineEnd cs + 1 := by
  simp [lineEnd, List.takeWhile_cons, h]

theorem lineEnd_le (input : List Char) : lineEnd input ≤ input.length := by
  unfold lineEnd
  exact (List.takeWhile_sublist _).length_le

/-- State 47 (inside a statement): the scan runs to the next newline or to
the end of the input and returns a statement token. -/
theorem lexLoop_47 (rest : List Char) (hnul : NulFree rest) :
    ∀ (fuel : Nat) (result : Bool) (pos ts te rs : Nat), rest.length + 1 ≤ fuel →
      lexLoop fuel 47 result ⟨rest, pos, ts, te, rs⟩ =
        .token ⟨sym_statement, ts, pos + lineEnd rest⟩ := by
  induction rest with
  | nil =>
    intro fuel result pos ts te rs hf
    obtain ⟨f, rfl⟩ : ∃ f, fuel = f + 1 := ⟨fuel - 1, by omega⟩
    simp [lexLoop, ts_lex_case, TSLexer.lookahead, TSLexer.eof, TSLexer.accept_token, lineEnd]
  | cons c cs ih =>
    intro fuel result pos ts te rs hf
    obtain ⟨f, rfl⟩ : ∃ f, fuel = f + 1 := ⟨fuel - 1, by omega⟩
    have hc0 : c.toNat ≠ 0 := toNat_ne_zero (hnul c (by simp))
    have hcs : NulFree cs := fun d hd => hnul d (by simp [hd])
    simp only [List.length_cons] at hf
    by_cases hnl : c = '\n'
    · subst hnl
      simp [lexLoop, ts_lex_case, TSLexer.lookahead, TSLexer.eof, TSLexer.accept_token,
        lineEnd_cons_newline]
    · have hn : c.toNat ≠ 10 := fun h => hnl ((toNat_newline c).1 h)
      have := ih hcs f true (pos + 1) ts pos sym_statement (by omega)
      simp [lexLoop, ts_lex_case, TSLexer.lookahead, TSLexer.eof, TSLexer.accept_token,
        TSLexer.advance, hc0, hn, lineEnd_cons_of_ne hnl, this]
      omega

/-- The states entered after a leading punctuation (12, 18, 20, 29, 34, 37)
share one shape: accept the punctuation token, and go on into the statement
state 47 unless the line ends here. -/
theorem lexLoop_punct (s sym : Nat)
    (hcase : ∀ la eof, ts_lex_case s la eof =
      some ⟨some sym, if la ≠ 0 ∧ la ≠ '\n'.toNat then .advance 47 else .stop⟩)
    (rest : List Char) (hnul : NulFree rest)
    (fuel : Nat) (result : Bool) (pos ts te rs : Nat) (hf : rest.length + 2 ≤ fuel) :
    lexLoop fuel s result ⟨rest, pos, ts, te, rs⟩ =
      if AtLineEnd rest then .token ⟨sym, ts, pos⟩
      else .token ⟨sym_statement, ts, pos + lineEnd rest⟩ := by
  obtain ⟨f, rfl⟩ : ∃ f, fuel = f + 1 := ⟨fuel - 1, by omega⟩
  cases rest with
  | nil =>
    simp [lexLoop, hcase, TSLexer.lookahead, TSLexer.accept_token, AtLineEnd]
  | cons c cs =>
    have hc0 : c.toNat ≠ 0 := toNat_ne_zero (hnul c (by simp))
    have hcs : NulFree cs := fun d hd => hnul d (by simp [hd])
    simp only [List.length_cons] at hf
    by_cases hnl : c = '\n'
    · subst hnl
      simp [lexLoop, hcase, TSLexer.lookahead, TSLexer.accept_token, AtLineEnd]
    · have hn : c.toNat ≠ 10 := fun h => hnl ((toNat_newline c).1 h)
      have h47 := lexLoop_47 cs hcs f true (pos + 1) ts pos sym (by omega)
      simp [lexLoop, hcase, TSLexer.lookahead, TSLexer.accept_token, TSLexer.advance,
        AtLineEnd, hc0, hn, hnl, lineEnd_cons_of_ne hnl, h47]
      omega


/-- State 10 (inside a comment): the scan runs to the next newline or to
the end of the input and returns a comment token. -/
theorem lexLoop_10 (rest : List Char) (hnul : NulFree rest) :
    ∀ (fuel : Nat) (result : Bool) (pos ts te rs : Nat), rest.length + 1 ≤ fuel →
      lexLoop fuel 10 result ⟨rest, pos, ts, te, rs⟩ =
        .token ⟨sym_comment, ts, pos + lineEnd rest⟩ := by
  induction rest with
  | nil =>
    intro fuel result pos ts te rs hf
    obtain ⟨f, rfl⟩ : ∃ f, fuel = f + 1 := ⟨fuel - 1, by omega⟩
    simp [lexLoop, ts_lex_case, TSLexer.lookahead, TSLexer.eof, TSLexer.accept_token, lineEnd]
  | cons c cs ih =>
    intro fuel result pos ts te rs hf
    obtain ⟨f, rfl⟩ : ∃ f, fuel = f + 1 := ⟨fuel - 1, by omega⟩
    have hc0 : c.toNat ≠ 0 := toNat_ne_zero (hnul c (by simp))
    have hcs : NulFree cs := fun d hd => hnul d (by simp [hd])
    simp only [List.length_cons] at hf
    by_cases hnl : c = '\n'
    · subst hnl
      simp [lexLoop, ts_lex_case, TSLexer.lookahead, TSLexer.eof, TSLexer.accept_token,
        lineEnd_cons_newline]
    · have hn : c.toNat ≠ 10 := fun h => hnl ((toNat_newline c).1 h)
      have := ih hcs f true (pos + 1) ts pos sym_comment (by omega)
      simp [lexLoop, ts_lex_case, TSLexer.lookahead, TSLexer.eof, TSLexer.accept_token,
        TSLexer.advance, hc0, hn, lineEnd_cons_of_ne hnl, this]
      omega

/-- State 40 (inside relation text): the scan runs to the next `)` or to
the end of the input, across newlines, and returns a relation text token. -/
theorem lexLoop_40 (rest : List Char) (hnul : NulFree rest) :
    ∀ (fuel : Nat) (result : Bool) (pos ts te rs : Nat), rest.length + 1 ≤ fuel →
      lexLoop fuel 40 result ⟨rest, pos, ts, te, rs⟩ =
        .token ⟨aux_sym_relation_line_token1, ts, pos + parenEnd rest⟩ := by
  induction rest with
  | nil =>
    intro fuel result pos ts te rs hf
    obtain ⟨f, rfl⟩ : ∃ f, fuel = f + 1 := ⟨fuel - 1, by omega⟩
    simp [lexLoop, ts_lex_case, TSLexer.lookahead, TSLexer.eof, TSLexer.accept_token, parenEnd]
  | cons c cs ih =>
    intro fuel result pos ts te rs hf
    obtain ⟨f, rfl⟩ : ∃ f, fuel = f + 1 := ⟨fuel - 1, by omega⟩
    have hc0 : c.toNat ≠ 0 := toNat_ne_zero (hnul c (by simp))
    have hcs : NulFree cs := fun d hd => hnul d (by simp [hd])
    simp only [List.length_cons] at hf
    by_cases hp : c = ')'
    · subst hp
      simp [lexLoop, ts_lex_case, TSLexer.lookahead, TSLexer.eof, TSLexer.accept_token,
        parenEnd]
    · have hn : c.toNat ≠ 41 := fun h => hp ((toNat_eq_iff c ')').1 h)
      have := ih hcs f true (pos + 1) ts pos aux_sym_relation_line_token1 (by omega)
      simp [lexLoop, ts_lex_case, TSLexer.lookahead, TSLexer.eof, TSLexer.accept_token,
        TSLexer.advance, hc0, hn, hp, parenEnd, List.takeWhile_cons, this]
      simp [parenEnd] at this ⊢
      omega

/-- State 9 (a comment begun inside relation content): a `)` before the next
newline hands over to the comment state 10, and the end of the input ends
the comment; a newline met first hands over to the relation text state 40,
which runs on past it. -/
theorem lexLoop_9 (rest : List Char) (hnul : NulFree rest) :
    ∀ (fuel : Nat) (result : Bool) (pos ts te rs : Nat), rest.length + 1 ≤ fuel →
      (ClosesBeforeNewline rest →
        lexLoop fuel 9 result ⟨rest, pos, ts, te, rs⟩ =
          .token ⟨sym_comment, ts, pos + lineEnd rest⟩) ∧
      (¬ ClosesBeforeNewline rest →
        ∃ stop, lexLoop fuel 9 result ⟨rest, pos, ts, te, rs⟩ =
          .token ⟨aux_sym_relation_line_token1, ts, stop⟩ ∧ pos + lineEnd rest < stop) := by
  induction rest with
  | nil =>
    intro fuel result pos ts te rs hf
    obtain ⟨f, rfl⟩ : ∃ f, fuel = f + 1 := ⟨fuel - 1, by omega⟩
    simp [lexLoop, ts_lex_case, TSLexer.lookahead, TSLexer.eof, TSLexer.accept_token, lineEnd,
      ClosesBeforeNewline]
  | cons c cs ih =>
    intro fuel result pos ts te rs hf
    obtain ⟨f, rfl⟩ : ∃ f, fuel = f + 1 := ⟨fuel - 1, by omega⟩
    have hc0 : c.toNat ≠ 0 := toNat_ne_zero (hnul c (by simp))
    have hcs : NulFree cs := fun d hd => hnul d (by simp [hd])
    simp only [List.length_cons] at hf
    by_cases hnl : c = '\n'
    · subst hnl
      have h40 := lexLoop_40 cs hcs f true (pos + 1) ts pos sym_comment (by omega)
      have hno : ¬ ClosesBeforeNewline ('\n' :: cs) := by simp [ClosesBeforeNewline]
      refine ⟨fun h => absurd h hno, fun _ => ?_⟩
      refine ⟨pos + 1 + parenEnd cs, ?_, by simp [lineEnd_cons_newline]; omega⟩
      simp [lexLoop, ts_lex_case, TSLexer.lookahead, TSLexer.eof, TSLexer.accept_token,
        TSLexer.advance, h40]
    · have hn : c.toNat ≠ 10 := fun h => hnl ((toNat_newline c).1 h)
      by_cases hp : c = ')'
      · subst hp
        have h10 := lexLoop_10 cs hcs f true (pos + 1) ts pos sym_comment (by omega)
        have hyes : ClosesBeforeNewline (')' :: cs) := by
          left
          simp [List.takeWhile_cons]
        refine ⟨fun _ => ?_, fun h => absurd hyes h⟩
        simp [lexLoop, ts_lex_case, TSLexer.lookahead, TSLexer.eof, TSLexer.accept_token,
          TSLexer.advance, h10, lineEnd_cons_of_ne]
        omega
      · have hn41 : c.toNat ≠ 41 := fun h => hp ((toNat_eq_iff c ')').1 h)
        have hiff : ClosesBeforeNewline (c :: cs) ↔ ClosesBeforeNewline cs := by
          simp only [ClosesBeforeNewline, List.takeWhile_cons, bne_iff_ne, ne_eq, hnl,
            not_false_eq_true, decide_True, if_true, List.mem_cons, not_or]
          constructor
          · rintro (h | h)
            · rcases h with h | h
              · exact absurd h.symm hp
              · exact Or.inl h
            · exact Or.inr h.2
          · rintro (h | h)
            · exact Or.inl (Or.inr h)
            · exact Or.inr ⟨fun h' => hnl h'.symm, h⟩
        obtain ⟨ih1, ih2⟩ := ih hcs f true (pos + 1) ts pos sym_comment (by omega)
        have hstep : lexLoop (f + 1) 9 result ⟨c :: cs, pos, ts, te, rs⟩ =
            lexLoop f 9 true ⟨cs, pos + 1, ts, pos, sym_comment⟩ := by
          simp [lexLoop, ts_lex_case, TSLexer.lookahead, TSLexer.eof, TSLexer.accept_token,
            TSLexer.advance, hc0, hn, hn41]
        rw [hstep, hiff, lineEnd_cons_of_ne hnl]
        refine ⟨fun h => ?_, fun h => ?_⟩
        · rw [ih1 h]
          have : pos + 1 + lineEnd cs = pos + (lineEnd cs + 1) := by omega
          rw [this]
        · obtain ⟨stop, hs1, hs2⟩ := ih2 h
          exact ⟨stop, hs1, by omega⟩

/-- Lex state 7 on a run of newlines that ends the input: every newline is
skipped and the end-of-input token is returned at the end. -/
theorem lexLoop_7_newlines (n : Nat) :
    ∀ (fuel pos te rs : Nat), n + 2 ≤ fuel →
      lexLoop fuel 7 false ⟨List.replicate n '\n', pos, pos, te, rs⟩ =
        .token ⟨ts_builtin_sym_end, pos + n, pos + n⟩ := by
  induction n with
  | zero =>
    intro fuel pos te rs hf
    obtain ⟨f, rfl⟩ : ∃ f, fuel = f + 2 := ⟨fuel - 2, by omega⟩
    simp [lexLoop, ts_lex_case, TSLexer.lookahead, TSLexer.eof, TSLexer.advance,
      TSLexer.accept_token]
  | succ n ih =>
    intro fuel pos te rs hf
    obtain ⟨f, rfl⟩ : ∃ f, fuel = f + 1 := ⟨fuel - 1, by omega⟩
    have := ih f (pos + 1) te rs (by omega)
    rw [lexLoop]
    simp only [List.replicate_succ, ts_lex_case, TSLexer.lookahead, TSLexer.eof,
      TSLexer.advance]
    simp [this]
    omega

/-- Lex state 7 on a leading punctuation: the bare token when the line ends
right behind it, otherwise one statement token to the end of the line. -/
theorem ts_lex_7_punct (p : List Char) (sym : Nat) (rest : List Char)
    (hp : (p, sym) ∈ leadingPunct) (hnul : NulFree rest) :
    ts_lex 7 (p ++ rest) =
      if AtLineEnd rest then .token ⟨sym, 0, p.length⟩
      else .token ⟨sym_statement, 0, lineEnd (p ++ rest)⟩ := by
  simp only [leadingPunct, List.mem_cons, Prod.mk.injEq, List.mem_singleton,
    List.not_mem_nil, or_false] at hp
  rcases hp with ⟨rfl, rfl⟩ | ⟨rfl, rfl⟩ | ⟨rfl, rfl⟩ | ⟨rfl, rfl⟩ | ⟨rfl, rfl⟩ | ⟨rfl, rfl⟩
  · have h := lexLoop_punct 12 anon_sym_DASH (fun la eof => by simp [ts_lex_case])
      rest hnul (rest.length + 2) false 1 0 0 0 (by omega)
    show lexLoop (rest.length + 2 + 1) 7 false ⟨'-' :: rest, 0, 0, 0, 0⟩ = _
    rw [lexLoop]
    simp only [ts_lex_case, TSLexer.lookahead, TSLexer.eof, TSLexer.advance]
    simp [h, lineEnd_cons_of_ne, Nat.add_comm]
  · have h := lexLoop_punct 18 anon_sym_PLUS (fun la eof => by simp [ts_lex_case])
      rest hnul (rest.length + 2) false 1 0 0 0 (by omega)
    show lexLoop (rest.length + 2 + 1) 7 false ⟨'+' :: rest, 0, 0, 0, 0⟩ = _
    rw [lexLoop]
    simp only [ts_lex_case, TSLexer.lookahead, TSLexer.eof, TSLexer.advance]
    simp [h, lineEnd_cons_of_ne, Nat.add_comm]
  · have h := lexLoop_punct 29 anon_sym_AT (fun la eof => by simp [ts_lex_case])
      rest hnul (rest.length + 2) false 1 0 0 0 (by omega)
    show lexLoop (rest.length + 2 + 1) 7 false ⟨'@' :: rest, 0, 0, 0, 0⟩ = _
    rw [lexLoop]
    simp only [ts_lex_case, TSLexer.lookahead, TSLexer.eof, TSLexer.advance]
    simp [h, lineEnd_cons_of_ne, Nat.add_comm]
  · have h := lexLoop_punct 34 anon_sym_DOLLAR (fun la eof => by simp [ts_lex_case])
      rest hnul (rest.length + 2) false 1 0 0 0 (by omega)
    show lexLoop (rest.length + 2 + 1) 7 false ⟨'$' :: rest, 0, 0, 0, 0⟩ = _
    rw [lexLoop]
    simp only [ts_lex_case, TSLexer.lookahead, TSLexer.eof, TSLexer.advance]
    simp [h, lineEnd_cons_of_ne, Nat.add_comm]
  · have h := lexLoop_punct 37 anon_sym_LPAREN (fun la eof => by simp [ts_lex_case])
      rest hnul (rest.length + 2) false 1 0 0 0 (by omega)
    show lexLoop (rest.length + 2 + 1) 7 false ⟨'(' :: rest, 0, 0, 0, 0⟩ = _
    rw [lexLoop]
    simp only [ts_lex_case, TSLexer.lookahead, TSLexer.eof, TSLexer.advance]
    simp [h, lineEnd_cons_of_ne, Nat.add_comm]
  · have h := lexLoop_punct 20 anon_sym_COLON_COLON (fun la eof => by simp [ts_lex_case])
      rest hnul (rest.length + 2) true 2 0 1 sym_statement (by omega)
    show lexLoop (rest.length + 2 + 1 + 1) 7 false ⟨':' :: ':' :: rest, 0, 0, 0, 0⟩ = _
    rw [lexLoop]
    simp only [ts_lex_case, TSLexer.lookahead, TSLexer.eof, TSLexer.advance]
    simp only [Char.reduceToNat, Nat.reduceEqDiff, List.isEmpty_cons, Bool.false_eq_true,
      if_false, if_true, OfNat.ofNat_ne_zero, Nat.reduceLeDiff, false_or, or_false,
      false_and, and_false, Nat.reduceAdd, reduceCtorEq, Bool.or_self, Option.isSome_none]
    rw [lexLoop]
    simp only [ts_lex_case, TSLexer.lookahead, TSLexer.eof, TSLexer.advance,
      TSLexer.accept_token]
    have e : 1 + (lineEnd rest + 1) = lineEnd rest + 2 := by omega
    simp [h, lineEnd_cons_of_ne, Nat.add_comm, e]

/-- A property of transitions holds of an `if` when it holds of both branches. -/
theorem okNext_ite {eof : Bool} {la state : Nat} {c : Prop} [Decidable c] {a b : LexAct}
    (ha : c → okNext eof la state a) (hb : ¬ c → okNext eof la state b) :
    okNext eof la state (if c then a else b) := by
  split_ifs with h
  · exact ha h
  · exact hb h

/-- Every transition of every lexer state is of the form `okNext` allows. -/
theorem ts_lex_case_ok (state la : Nat) (eof : Bool) (c : LexCase)
    (h : ts_lex_case state la eof = some c) : okNext eof la state c.next := by
  unfold ts_lex_case at h
  split at h <;> cases h <;> dsimp only <;>
    (repeat (
      apply okNext_ite
      · intro hc
        first
          | (simp [okNext]; done)
          | (simp [okNext, isSkippedCode] at hc ⊢; simp [hc])
      intro _)) <;>
    simp [okNext]

/-- The skipping states accept nothing, and only state 8 accepts the token
for the end of input, after which it stops. -/
theorem ts_lex_case_accept (state la : Nat) (eof : Bool) (c : LexCase)
    (h : ts_lex_case state la eof = some c) :
    ((state = 0 ∨ state = 2 ∨ state = 7) → c.accept = none) ∧
    (c.accept = some ts_builtin_sym_end → state = 8) ∧ (state = 8 → c.next = .stop) := by
  unfold ts_lex_case at h
  split at h <;> cases h <;> simp

/-- A character whose code point is skipped is a whitespace character. -/
theorem isSkipped_of_code {c : Char} (h : isSkippedCode c.toNat) : isSkipped c := by
  unfold isSkippedCode at h
  unfold isSkipped
  rcases h with h | h | h | h | h
  · exact Or.inl ((toNat_eq_iff c '\t').1 h)
  · exact Or.inr (Or.inl ((toNat_eq_iff c '\n').1 h))
  · exact Or.inr (Or.inr (Or.inl ((toNat_eq_iff c '\x0c').1 h)))
  · exact Or.inr (Or.inr (Or.inr (Or.inl ((toNat_eq_iff c '\r').1 h))))
  · exact Or.inr (Or.inr (Or.inr (Or.inr ((toNat_eq_iff c ' ').1 h))))

/-- The invariant of the lexer loop: a returned token starts at the token
start reached by skipping whitespace only, does not stop before it starts,
stops inside the input, and the end-of-input token stops at its very end. -/
theorem lexLoop_sound : ∀ (fuel state : Nat) (result : Bool) (rest : List Char)
    (pos ts te rs : Nat) (t : Token),
    lexLoop fuel state result ⟨rest, pos, ts, te, rs⟩ = .token t →
    ts ≤ pos →
    (result = true → ts ≤ te ∧ te ≤ pos ∧ rs ≠ 0) →
    ((state = 0 ∨ state = 2 ∨ state = 7) → result = false ∧ ts = pos) →
    (state = 8 → rest = []) →
    ts ≤ t.start ∧ t.start ≤ t.stop ∧ t.stop ≤ pos + rest.length ∧
    (¬ (state = 0 ∨ state = 2 ∨ state = 7) → t.start = ts) ∧
    (∀ c ∈ rest.take (t.start - pos), isSkipped c) ∧
    (t.sym = 0 → t.stop = pos + rest.length) := by
  intro fuel
  induction fuel with
  | zero =>
    intro state result rest pos ts te rs t h
    simp [lexLoop] at h
  | succ fuel ih =>
    intro state result rest pos ts te rs t h hts hres hskip h8
    rw [lexLoop] at h
    cases hcase : ts_lex_case state (TSLexer.lookahead ⟨rest, pos, ts, te, rs⟩)
        (TSLexer.eof ⟨rest, pos, ts, te, rs⟩) with
    | none => rw [hcase] at h; simp at h
    | some c =>
      rw [hcase] at h
      obtain ⟨acc, nxt⟩ := c
      have hok := ts_lex_case_ok _ _ _ _ hcase
      have hacc := ts_lex_case_accept _ _ _ _ hcase
      simp only at h hok hacc
      cases nxt with
      | stop =>
        cases acc with
        | none =>
          simp only [Option.isSome_none, Bool.or_false] at h
          split_ifs at h with hr
          cases h
          obtain ⟨h1, h2, h3⟩ := hres hr
          have h0 : ts - pos = 0 := by omega
          refine ⟨le_refl _, h1, by show te ≤ pos + rest.length; omega, fun _ => rfl, ?_,
            fun hz => absurd hz h3⟩
          simp [h0]
        | some sym =>
          simp only [Option.isSome_some, Bool.or_true, if_true, TSLexer.accept_token] at h
          cases h
          have h0 : ts - pos = 0 := by omega
          refine ⟨le_refl _, hts, by simp, fun _ => rfl, ?_, ?_⟩
          · simp [h0]
          · intro hz
            have hz' : sym = 0 := hz
            subst hz'
            have := h8 (hacc.2.1 rfl)
            simp [this]
      | advance s =>
        obtain ⟨hs0, hs2, hs7, hs8⟩ := hok
        have hns : ¬ (s = 0 ∨ s = 2 ∨ s = 7) := by
          rintro (h | h | h) <;> contradiction
        have h0 : ts - pos = 0 := by omega
        have hsym : ∀ sym, acc = some sym → sym ≠ 0 := by
          intro sym hsome hz
          subst hz
          have := hacc.2.2 (hacc.2.1 hsome)
          cases this
        cases rest with
        | nil =>
          cases acc with
          | none =>
            simp only [Option.isSome_none, Bool.or_false, TSLexer.advance] at h
            obtain ⟨i1, i2, i3, i4, _, i6⟩ := ih s result [] pos ts te rs t h hts hres
              (fun hs => absurd hs hns) (fun _ => rfl)
            exact ⟨i1, i2, i3, fun _ => i4 hns, by simp, i6⟩
          | some sym =>
            simp only [Option.isSome_some, Bool.or_true, TSLexer.advance,
              TSLexer.accept_token] at h
            obtain ⟨i1, i2, i3, i4, _, i6⟩ := ih s true [] pos ts pos sym t h hts
              (fun _ => ⟨hts, le_refl _, hsym sym rfl⟩)
              (fun hs => absurd hs hns) (fun _ => rfl)
            exact ⟨i1, i2, i3, fun _ => i4 hns, by simp, i6⟩
        | cons c cs =>
          have hne8 : s = 8 → cs = [] := by
            intro h8'
            have := hs8 h8'
            simp [TSLexer.eof] at this
          cases acc with
          | none =>
            simp only [Option.isSome_none, Bool.or_false, TSLexer.advance] at h
            obtain ⟨i1, i2, i3, i4, _, i6⟩ := ih s result cs (pos + 1) ts te rs t h (by omega)
              (fun hr => by have := hres hr; omega)
              (fun hs => absurd hs hns) hne8
            have i4' := i4 hns
            refine ⟨i1, i2, by simp only [List.length_cons]; omega, fun _ => i4', ?_, ?_⟩
            · have : t.start - pos = 0 := by omega
              simp [this]
            · intro hz
              have := i6 hz
              simp only [List.length_cons]; omega
          | some sym =>
            simp only [Option.isSome_some, Bool.or_true, TSLexer.advance,
              TSLexer.accept_token] at h
            obtain ⟨i1, i2, i3, i4, _, i6⟩ := ih s true cs (pos + 1) ts pos sym t h (by omega)
              (fun _ => ⟨hts, by omega, hsym sym rfl⟩)
              (fun hs => absurd hs hns) hne8
            have i4' := i4 hns
            refine ⟨i1, i2, by simp only [List.length_cons]; omega, fun _ => i4', ?_, ?_⟩
            · have : t.start - pos = 0 := by omega
              simp [this]
            · intro hz
              have := i6 hz
              simp only [List.length_cons]; omega
      | skip s =>
        obtain ⟨hs, hst, hla⟩ := hok
        subst hs
        obtain ⟨hrf, htp⟩ := hskip hst
        have hnone := hacc.1 hst
        subst hnone
        subst hrf
        subst htp
        cases rest with
        | nil =>
          simp [TSLexer.lookahead, isSkippedCode] at hla
        | cons c cs =>
          have hc : isSkipped c := isSkipped_of_code hla
          simp only [Option.isSome_none, Bool.or_false, TSLexer.advance, if_true] at h
          obtain ⟨i1, i2, i3, _, i5, i6⟩ := ih s false cs (ts + 1) (ts + 1) te rs t h
            (le_refl _) (fun hr => by cases hr) (fun _ => ⟨rfl, rfl⟩)
            (fun h8' => by subst h8'; simp at hst)
          refine ⟨by omega, i2, by simp only [List.length_cons]; omega,
            fun hn => absurd hst hn, ?_, ?_⟩
          · have e : t.start - ts = (t.start - (ts + 1)) + 1 := by omega
            rw [e, List.take_succ_cons]
            intro d hd
            rcases List.mem_cons.1 hd with rfl | hd
            · exact hc
            · exact i5 d hd
          · intro hz
            have := i6 hz
            simp only [List.length_cons]; omega

/-- One call of `ts_lex` in a state other than 8: the token lies inside the
input, everything before its start is skipped whitespace, and the token for
the end of input stops at the end of the input. -/
theorem ts_lex_sound (state : Nat) (input : List Char) (t : Token) (h8 : state ≠ 8)
    (h : ts_lex state input = .token t) :
    t.start ≤ t.stop ∧ t.stop ≤ input.length ∧
    (∀ c ∈ input.take t.start, isSkipped c) ∧
    (t.sym = 0 → t.stop = input.length) := by
  obtain ⟨_, i2, i3, _, i5, i6⟩ := lexLoop_sound (input.length + 2) state false input 0 0 0 0 t h
    (le_refl _) (fun hr => by cases hr) (fun _ => ⟨rfl, rfl⟩) (fun h => absurd h h8)
  refine ⟨i2, by omega, ?_, fun hz => by have := i6 hz; omega⟩
  simpa using i5

/-- The token sequence of repeated `ts_lex` calls, from position `pos` on. -/
theorem lexAll_sound : ∀ (modes : List Nat) (rest : List Char) (pos : Nat) (toks : List Token),
    (∀ m ∈ modes, m ≠ 8) → lexAll modes rest pos = some toks →
    (∀ t ∈ toks, pos ≤ t.start ∧ t.start ≤ t.stop ∧ t.stop ≤ pos + rest.length) ∧
    toks.Pairwise (fun a b => a.stop ≤ b.start) ∧
    (∀ i c, rest.get? i = some c → (∃ t ∈ toks, pos + i < t.stop) →
      (∃ t ∈ toks, t.start ≤ pos + i ∧ pos + i < t.stop) ∨ isSkipped c) ∧
    (∀ t ∈ toks, t.sym = 0 → t.stop = pos + rest.length) := by
  intro modes
  induction modes with
  | nil =>
    intro rest pos toks _ h
    simp only [lexAll, Option.some.injEq] at h
    subst h
    simp
  | cons m modes ih =>
    intro rest pos toks hm h
    rw [lexAll] at h
    cases hlex : ts_lex m rest with
    | noToken => rw [hlex] at h; simp at h
    | outOfFuel => rw [hlex] at h; simp at h
    | token t =>
      rw [hlex] at h
      simp only at h
      cases hrec : lexAll modes (rest.drop t.stop) (pos + t.stop) with
      | none => rw [hrec] at h; simp at h
      | some ts =>
        rw [hrec] at h
        simp only [Option.some.injEq] at h
        subst h
        obtain ⟨s1, s2, s3, s4⟩ := ts_lex_sound m rest t (hm m (by simp)) hlex
        obtain ⟨r1, r2, r3, r4⟩ := ih (rest.drop t.stop) (pos + t.stop) ts
          (fun m' hm' => hm m' (by simp [hm'])) hrec
        have hlen : (rest.drop t.stop).length = rest.length - t.stop := by simp
        refine ⟨?_, ?_, ?_, ?_⟩
        · intro t' ht'
          rcases List.mem_cons.1 ht' with rfl | ht'
          · exact ⟨by simp, by simp; omega, by simp; omega⟩
          · have := r1 t' ht'
            omega
        · refine List.Pairwise.cons ?_ r2
          intro t' ht'
          have := r1 t' ht'
          simp only
          omega
        · intro i c hi hex
          by_cases h1 : i < t.start
          · right
            apply s3
            rw [List.mem_take_iff_getElem]
            have hil : i < rest.length := by
              rcases List.get?_eq_some.1 hi with ⟨hl, _⟩
              exact hl
            refine ⟨i, by simp; omega, ?_⟩
            rcases List.get?_eq_some.1 hi with ⟨hl, he⟩
            simpa using he
          · by_cases h2 : i < t.stop
            · left
              exact ⟨_, List.mem_cons_self _ _, by simp; omega, by simp; omega⟩
            · obtain ⟨t', ht', hlt⟩ := hex
              rcases List.mem_cons.1 ht' with rfl | ht'
              · simp only at hlt
                omega
              · have hget : (rest.drop t.stop).get? (i - t.stop) = some c := by
                  have : t.stop + (i - t.stop) = i := by omega
                  rw [List.get?_eq_getElem?, List.getElem?_drop, this, ← List.get?_eq_getElem?]
                  exact hi
                have e : pos + t.stop + (i - t.stop) = pos + i := by omega
                rcases r3 (i - t.stop) c hget ⟨t', ht', by rw [e]; exact hlt⟩ with
                  ⟨t2, ht2, hr1, hr2⟩ | hsk
                · left
                  rw [e] at hr1 hr2
                  exact ⟨t2, List.mem_cons_of_mem _ ht2, hr1, hr2⟩
                · right
                  exact hsk
        · intro t' ht' hz
          rcases List.mem_cons.1 ht' with rfl | ht'
          · have := s4 hz
            simp only
            omega
          · have := r4 t' ht' hz
            omega

/-- The property `okAdvance` holds of an `if` when it holds of both branches. -/
theorem okAdvance_ite {eof : Bool} {la state : Nat} {c : Prop} [Decidable c] {a b : LexAct}
    (ha : c → okAdvance eof la state a) (hb : ¬ c → okAdvance eof la state b) :
    okAdvance eof la state (if c then a else b) := by
  split_ifs with h
  · exact ha h
  · exact hb h

/-- Every transition of every lexer state is of the form `okAdvance` allows. -/
theorem ts_lex_case_okAdvance (state la : Nat) (eof : Bool) (c : LexCase)
    (h : ts_lex_case state la eof = some c) : okAdvance eof la state c.next := by
  unfold ts_lex_case at h
  split at h <;> cases h <;> dsimp only <;>
    (repeat (
      apply okAdvance_ite
      · intro hc
        first
          | (simp only [okAdvance]; done)
          | (simp only [okAdvance, inB, inW, isSkippedCode, Char.reduceToNat] at *; omega)
          | (simp only [okAdvance, inB, inW, isSkippedCode, Char.reduceToNat] at *
             simp; done)
          | (simp only [okAdvance, inB, inW, isSkippedCode, Char.reduceToNat] at *
             simp; omega)
          | (simp only [okAdvance, inB, inW, isSkippedCode, Char.reduceToNat] at *
             simp [hc])
      intro hn)) <;>
    simp only [okAdvance]

/-- Only the states 0 to 7 accept nothing, only the states 9 and 10 accept a
comment, and state 40 accepts the relation text. -/
theorem ts_lex_case_accept2 (state la : Nat) (eof : Bool) (c : LexCase)
    (h : ts_lex_case state la eof = some c) :
    (c.accept = none → state ≤ 7) ∧
    (c.accept = some sym_comment → state = 9 ∨ state = 10) ∧
    (state = 40 → c.accept = some aux_sym_relation_line_token1) := by
  unfold ts_lex_case at h
  split at h <;> cases h <;> simp

/-- The lexer loop keeps an invariant `I` of the current state and the text
consumed since the token start, when every `ADVANCE` keeps it: a returned
token was accepted in a state in which `I` held of the token text, with the
lookahead that follows the token, and that state then stopped or advanced
into a state that accepts nothing. -/
theorem lexLoop_inv (I : Nat → List Char → Prop)
    (hadv : ∀ s pre ch c s', I s pre → ts_lex_case s ch.toNat false = some c →
      c.next = .advance s' → I s' (pre ++ [ch]))
    (heof : ∀ s pre c s', I s pre → ts_lex_case s 0 true = some c →
      c.next = .advance s' → I s' pre) :
    ∀ (fuel state : Nat) (result : Bool) (pre rest : List Char) (pos ts te rs : Nat) (t : Token),
    lexLoop fuel state result ⟨rest, pos, ts, te, rs⟩ = .token t →
    I state pre → pos = ts + pre.length →
    ((state = 0 ∨ state = 2 ∨ state = 7) → result = false ∧ pre = []) →
    (result = true → ts ≤ te ∧ te ≤ pos ∧ ∃ a c, I a (pre.take (te - ts)) ∧
      ts_lex_case a (laOf ((pre ++ rest).drop (te - ts))) (eofOf ((pre ++ rest).drop (te - ts)))
        = some c ∧
      c.accept = some rs ∧ (c.next = .advance state ∨ ∃ s', s' ≤ 7 ∧ c.next = .advance s')) →
    ts ≤ t.start ∧ t.start ≤ t.stop ∧ t.stop ≤ pos + rest.length ∧
    (¬ (state = 0 ∨ state = 2 ∨ state = 7) → t.start = ts) ∧
    ∃ a c, I a (((pre ++ rest).drop (t.start - ts)).take (t.stop - t.start)) ∧
      ts_lex_case a (laOf ((pre ++ rest).drop (t.stop - ts)))
        (eofOf ((pre ++ rest).drop (t.stop - ts))) = some c ∧
      c.accept = some t.sym ∧ (c.next = .stop ∨ ∃ s', s' ≤ 7 ∧ c.next = .advance s') := by
  intro fuel
  induction fuel with
  | zero =>
    intro state result pre rest pos ts te rs t h
    simp [lexLoop] at h
  | succ fuel ih =>
    intro state result pre rest pos ts te rs t h hI hpos hskip hres
    rw [lexLoop] at h
    cases hcase : ts_lex_case state (TSLexer.lookahead ⟨rest, pos, ts, te, rs⟩)
        (TSLexer.eof ⟨rest, pos, ts, te, rs⟩) with
    | none => rw [hcase] at h; simp at h
    | some c =>
      rw [hcase] at h
      have hok := ts_lex_case_ok _ _ _ _ hcase
      have hacc := ts_lex_case_accept _ _ _ _ hcase
      have hacc2 := ts_lex_case_accept2 _ _ _ _ hcase
      have hla : TSLexer.lookahead ⟨rest, pos, ts, te, rs⟩ = laOf rest := rfl
      have heo : TSLexer.eof ⟨rest, pos, ts, te, rs⟩ = eofOf rest := rfl
      rw [hla, heo] at hcase
      have hdrop : (pre ++ rest).drop (pos - ts) = rest := by
        have : pos - ts = pre.length := by omega
        rw [this, List.drop_left]
      have hlen : pos - ts = pre.length := by omega
      obtain ⟨acc, nxt⟩ := c
      simp only at h hok hacc hacc2
      cases acc with
      | none =>
        have hst : state ≤ 7 := hacc2.1 rfl
        have hres' : result = true → ts ≤ te ∧ te ≤ pos ∧ ∃ a c, I a (pre.take (te - ts)) ∧
            ts_lex_case a (laOf ((pre ++ rest).drop (te - ts)))
              (eofOf ((pre ++ rest).drop (te - ts))) = some c ∧
            c.accept = some rs ∧ ∃ s', s' ≤ 7 ∧ c.next = .advance s' := by
          intro hr
          obtain ⟨h1, h2, a, c, h3, h4, h5, h6⟩ := hres hr
          refine ⟨h1, h2, a, c, h3, h4, h5, ?_⟩
          rcases h6 with h6 | h6
          · exact ⟨state, hst, h6⟩
          · exact h6
        simp only [Option.isSome_none, Bool.or_false] at h
        cases nxt with
        | stop =>
          split_ifs at h with hr
          cases h
          obtain ⟨h1, h2, a, c, h3, h4, h5, h6⟩ := hres' hr
          refine ⟨le_refl _, h1, by show te ≤ pos + rest.length; omega, fun _ => rfl,
            a, c, ?_, ?_, h5, Or.inr h6⟩
          · show I a (((pre ++ rest).drop (ts - ts)).take (te - ts))
            have : te - ts ≤ pre.length := by omega
            rw [Nat.sub_self, List.drop_zero, List.take_append_of_le_length this]
            exact h3
          · exact h4
        | advance s =>
          obtain ⟨hs0, hs2, hs7, _⟩ := hok
          have hns : ¬ (s = 0 ∨ s = 2 ∨ s = 7) := by
            rintro (h | h | h) <;> contradiction
          cases rest with
          | nil =>
            simp only [TSLexer.advance] at h
            have hI' : I s pre := heof state pre _ s hI hcase rfl
            obtain ⟨i1, i2, i3, i4, i5⟩ := ih s result pre [] pos ts te rs t h hI' hpos
              (fun hs => absurd hs hns)
              (fun hr => by
                obtain ⟨h1, h2, a, c, h3, h4, h5, h6⟩ := hres' hr
                exact ⟨h1, h2, a, c, h3, h4, h5, Or.inr h6⟩)
            exact ⟨i1, i2, i3, fun _ => i4 hns, i5⟩
          | cons ch cs =>
            simp only [TSLexer.advance] at h
            have hI' : I s (pre ++ [ch]) := hadv state pre ch _ s hI hcase rfl
            have happ : pre ++ [ch] ++ cs = pre ++ ch :: cs := by simp
            obtain ⟨i1, i2, i3, i4, i5⟩ := ih s result (pre ++ [ch]) cs (pos + 1) ts te rs t h hI'
              (by simp; omega)
              (fun hs => absurd hs hns)
              (fun hr => by
                obtain ⟨h1, h2, a, c, h3, h4, h5, h6⟩ := hres' hr
                have hle : te - ts ≤ pre.length := by omega
                refine ⟨h1, by omega, a, c, ?_, ?_, h5, Or.inr h6⟩
                · rw [List.take_append_of_le_length hle]; exact h3
                · rw [happ]; exact h4)
            rw [happ] at i5
            exact ⟨i1, i2, by simp only [List.length_cons]; omega, fun _ => i4 hns, i5⟩
        | skip s =>
          obtain ⟨hs, hst', hla'⟩ := hok
          subst hs
          obtain ⟨hrf, hpre⟩ := hskip hst'
          subst hrf
          subst hpre
          simp only [List.length_nil, Nat.add_zero] at hpos
          subst hpos
          cases rest with
          | nil => simp [TSLexer.lookahead, isSkippedCode] at hla'
          | cons ch cs =>
            simp only [TSLexer.advance, if_true] at h
            obtain ⟨i1, i2, i3, _, a, c, i5, i6, i7, i8⟩ := ih s false [] cs (pos + 1) (pos + 1)
              te rs t h hI (by simp) (fun _ => ⟨rfl, rfl⟩) (fun hr => by cases hr)
            have e1 : t.start - pos = (t.start - (pos + 1)) + 1 := by omega
            have e2 : t.stop - pos = (t.stop - (pos + 1)) + 1 := by omega
            refine ⟨by omega, i2, by simp only [List.length_cons]; omega,
              fun hn => absurd hst' hn, a, c, ?_, ?_, i7, i8⟩
            · rw [e1]
              simpa using i5
            · rw [e2]
              simpa using i6
      | some sym =>
        have hns : ¬ (state = 0 ∨ state = 2 ∨ state = 7) := by
          intro hs
          have := hacc.1 hs
          cases this
        simp only [Option.isSome_some, Bool.or_true, TSLexer.accept_token] at h
        cases nxt with
        | stop =>
          simp only [if_true] at h
          cases h
          refine ⟨le_refl _, by show ts ≤ pos; omega, by show pos ≤ pos + rest.length; omega,
            fun _ => rfl, state, ⟨some sym, LexAct.stop⟩, ?_, ?_, rfl, Or.inl rfl⟩
          · show I state (((pre ++ rest).drop (ts - ts)).take (pos - ts))
            rw [Nat.sub_self, List.drop_zero, hlen, List.take_left]
            exact hI
          · show ts_lex_case state (laOf ((pre ++ rest).drop (pos - ts)))
              (eofOf ((pre ++ rest).drop (pos - ts))) = _
            rw [hdrop]
            exact hcase
        | advance s =>
          obtain ⟨hs0, hs2, hs7, _⟩ := hok
          have hns' : ¬ (s = 0 ∨ s = 2 ∨ s = 7) := by
            rintro (h | h | h) <;> contradiction
          cases rest with
          | nil =>
            simp only [TSLexer.advance] at h
            have hI' : I s pre := heof state pre _ s hI hcase rfl
            obtain ⟨i1, i2, i3, i4, i5⟩ := ih s true pre [] pos ts pos sym t h hI' hpos
              (fun hs => absurd hs hns')
              (fun _ => ⟨by omega, le_refl _, state, _, by rw [hlen, List.take_length]; exact hI,
                by rw [hdrop]; exact hcase, rfl, Or.inl rfl⟩)
            exact ⟨i1, i2, i3, fun _ => i4 hns', i5⟩
          | cons ch cs =>
            simp only [TSLexer.advance] at h
            have hI' : I s (pre ++ [ch]) := hadv state pre ch _ s hI hcase rfl
            have happ : pre ++ [ch] ++ cs = pre ++ ch :: cs := by simp
            obtain ⟨i1, i2, i3, i4, i5⟩ := ih s true (pre ++ [ch]) cs (pos + 1) ts pos sym t h hI'
              (by simp; omega)
              (fun hs => absurd hs hns')
              (fun _ => ⟨by omega, by omega, state, _,
                by rw [hlen, List.take_left]; exact hI,
                by rw [happ, hdrop]; exact hcase, rfl, Or.inl rfl⟩)
            rw [happ] at i5
            exact ⟨i1, i2, by simp only [List.length_cons]; omega, fun _ => i4 hns', i5⟩
        | skip s =>
          obtain ⟨hs, hst', _⟩ := hok
          exact absurd hst' hns

/-- One call of `ts_lex`, see `lexLoop_inv`. -/
theorem ts_lex_inv (I : Nat → List Char → Prop)
    (hadv : ∀ s pre ch c s', I s pre → ts_lex_case s ch.toNat false = some c →
      c.next = .advance s' → I s' (pre ++ [ch]))
    (heof : ∀ s pre c s', I s pre → ts_lex_case s 0 true = some c →
      c.next = .advance s' → I s' pre)
    (state : Nat) (input : List Char) (t : Token)
    (h : ts_lex state input = .token t) (hI : I state []) :
    t.start ≤ t.stop ∧ t.stop ≤ input.length ∧
    (¬ (state = 0 ∨ state = 2 ∨ state = 7) → t.start = 0) ∧
    ∃ a c, I a (tokenText input t) ∧
      ts_lex_case a (laOf (input.drop t.stop)) (eofOf (input.drop t.stop)) = some c ∧
      c.accept = some t.sym ∧ (c.next = .stop ∨ ∃ s', s' ≤ 7 ∧ c.next = .advance s') := by
  obtain ⟨_, i2, i3, i4, a, c, i5, i6, i7, i8⟩ :=
    lexLoop_inv I hadv heof (input.length + 2) state false [] input 0 0 0 0 t h hI (by simp)
      (fun _ => ⟨rfl, rfl⟩) (fun hr => by cases hr)
  refine ⟨i2, by omega, i4, a, c, ?_, ?_, i7, i8⟩
  · simpa [tokenText] using i5
  · simpa using i6

/-- The invariant behind the comment tokens: in the states of `inW` the text
consumed so far is whitespace, in the others (state 40 apart) it is a run of
whitespace followed by a body without a newline. -/
theorem blankThenLine_adv (s : Nat) (pre : List Char) (la : Nat) (eof : Bool) (c : LexCase)
    (s' : Nat)
    (hI : (inW s → ∀ d ∈ pre, isSkipped d) ∧ (¬ inW s → s ≠ 40 → BlankThenLine pre))
    (hc : ts_lex_case s la eof = some c) (hn : c.next = .advance s') :
    (inW s' → inW s ∧ isSkippedCode la ∧ ∀ d ∈ pre, isSkipped d) ∧
    (¬ inW s' → s' ≠ 40 → (la = 10 → eof = true) ∧ BlankThenLine pre) := by
  have hok := ts_lex_case_okAdvance s la eof c hc
  rw [hn] at hok
  obtain ⟨_, h2, h3, h4, _⟩ := hok
  refine ⟨fun hw => ⟨(h2 hw).1, (h2 hw).2, hI.1 (h2 hw).1⟩, fun hw h40 => ⟨?_, ?_⟩⟩
  · intro hla
    rcases h3 hla with h | h | h
    · exact h
    · exact absurd h hw
    · exact absurd h h40
  · by_cases hws : inW s
    · exact ⟨pre, [], by simp, hI.1 hws, by simp⟩
    · exact hI.2 hws (fun h => h40 (h4 h))

/-- A comment token is a run of whitespace followed by a body without a
newline, whatever the start state. -/
theorem comment_blankThenLine (state : Nat) (input : List Char) (t : Token)
    (h : ts_lex state input = .token t) (hc : t.sym = sym_comment) :
    BlankThenLine (tokenText input t) := by
  obtain ⟨_, _, _, a, c, hI, hcase, hacc, _⟩ := ts_lex_inv
    (fun s pre => (inW s → ∀ d ∈ pre, isSkipped d) ∧ (¬ inW s → s ≠ 40 → BlankThenLine pre))
    (fun s pre ch c s' hI hcase hn => by
      obtain ⟨k1, k2⟩ := blankThenLine_adv s pre ch.toNat false c s' hI hcase hn
      refine ⟨fun hw => ?_, fun hw h40 => ?_⟩
      · obtain ⟨_, hsk, hpre⟩ := k1 hw
        intro d hd
        rcases List.mem_append.1 hd with hd | hd
        · exact hpre d hd
        · simp only [List.mem_singleton] at hd
          subst hd
          exact isSkipped_of_code hsk
      · obtain ⟨hnl, ws, body, rfl, hws, hbody⟩ := k2 hw h40
        refine ⟨ws, body ++ [ch], by simp, hws, ?_⟩
        intro hmem
        rcases List.mem_append.1 hmem with hm | hm
        · exact hbody hm
        · simp only [List.mem_singleton] at hm
          have : ch.toNat = 10 := by rw [← hm]; rfl
          have := hnl this
          cases this)
    (fun s pre c s' hI hcase hn => by
      obtain ⟨k1, k2⟩ := blankThenLine_adv s pre 0 true c s' hI hcase hn
      exact ⟨fun hw => (k1 hw).2.2, fun hw h40 => (k2 hw h40).2⟩)
    state input t h ⟨fun _ => by simp, fun _ _ => ⟨[], [], by simp, by simp, by simp⟩⟩
  have hst := (ts_lex_case_accept2 a _ _ c hcase).2.1 (by rw [hacc, hc])
  apply hI.2
  · unfold inW; omega
  · omega

/-- In the start states 0, 2, 7 and 13 no token contains a newline. -/
theorem token_no_newline (state : Nat) (input : List Char) (t : Token)
    (hs : state ∈ [0, 2, 7, 13]) (h : ts_lex state input = .token t) :
    '\n' ∉ tokenText input t := by
  obtain ⟨_, _, _, a, c, hI, _⟩ := ts_lex_inv
    (fun s pre => ¬ inB s ∧ '\n' ∉ pre)
    (fun s pre ch c s' hI hcase hn => by
      have hok := ts_lex_case_okAdvance s ch.toNat false c hcase
      rw [hn] at hok
      obtain ⟨h1, _, h3, _, _⟩ := hok
      have hb : ¬ inB s' := fun hb => hI.1 (h1 hb)
      refine ⟨hb, ?_⟩
      intro hmem
      rcases List.mem_append.1 hmem with hm | hm
      · exact hI.2 hm
      · simp only [List.mem_singleton] at hm
        have : ch.toNat = 10 := by rw [← hm]; rfl
        rcases h3 this with h | h | h
        · cases h
        · exact hb (Or.inl h)
        · exact hb (Or.inr (Or.inr (Or.inr h))))
    (fun s pre c s' hI hcase hn => by
      have hok := ts_lex_case_okAdvance s 0 true c hcase
      rw [hn] at hok
      exact ⟨fun hb => hI.1 (hok.1 hb), hI.2⟩)
    state input t h
    ⟨by
      simp only [List.mem_cons, List.mem_singleton, List.not_mem_nil, or_false] at hs
      unfold inB inW
      omega, by simp⟩
  exact hI.2

/-- A lookahead of 0 is the end of the text or a NUL. -/
theorem laOf_zero (l : List Char) (h : laOf l = 0) : l = [] ∨ l.head? = some '\x00' := by
  cases l with
  | nil => exact Or.inl rfl
  | cons c cs =>
    right
    have : c = '\x00' := (toNat_eq_iff c '\x00').1 h
    simp [this]

/-- A lookahead equal to the code of a character other than NUL is that
character. -/
theorem laOf_eq (l : List Char) (d : Char) (h : laOf l = d.toNat) (hd : d.toNat ≠ 0) :
    l.head? = some d := by
  cases l with
  | nil => exact absurd h.symm hd
  | cons c cs =>
    have : c = d := (toNat_eq_iff c d).1 h
    simp [this]

/-- The states reachable from state 13 lead to each other only, and those
that accept the section-title token stop only on a newline or on 0. -/
theorem s13_facts (s la : Nat) (eof : Bool) (c : LexCase) (hs : inS13 s)
    (h : ts_lex_case s la eof = some c) :
    (∀ s', c.next = .advance s' → inS13 s' ∧ 8 ≤ s') ∧
    (c.accept = some aux_sym_section_token1 → c.next = .stop → la = 0 ∨ la = 10) := by
  rcases hs with rfl | rfl | rfl | rfl | rfl | rfl <;>
    (simp only [ts_lex_case, Option.some.injEq] at h
     subst h
     simp only [Char.reduceToNat]
     split_ifs <;> simp [inS13] <;> omega)

/-- The states reachable from state 3 lead to each other only, and those
that accept the context-title token stop only on a newline or on 0. -/
theorem s3_facts (s la : Nat) (eof : Bool) (c : LexCase) (hs : inS3 s)
    (h : ts_lex_case s la eof = some c) :
    (∀ s', c.next = .advance s' → inS3 s' ∧ 8 ≤ s') ∧
    (c.accept = some aux_sym_context_block_token1 → c.next = .stop → la = 0 ∨ la = 10) := by
  rcases hs with rfl | rfl | rfl | rfl | rfl <;>
    (simp only [ts_lex_case, Option.some.injEq] at h
     subst h
     simp only [Char.reduceToNat]
     split_ifs <;> simp [inS3] <;> omega)

/-- The states reachable from state 4 lead to each other only; a `)` is
consumed only into the comment state 10; those that accept the relation text
token stop only on a `)` or on 0. -/
theorem s4_facts (s la : Nat) (eof : Bool) (c : LexCase) (hs : inS4 s)
    (h : ts_lex_case s la eof = some c) :
    (∀ s', c.next = .advance s' → inS4 s' ∧ 8 ≤ s' ∧ (s' ≠ 10 → s ≠ 10 ∧ la ≠ 41)) ∧
    (c.accept = some aux_sym_relation_line_token1 → s ≠ 10 ∧ (c.next = .stop → la = 0 ∨ la = 41)) := by
  rcases hs with rfl | rfl | rfl | rfl | rfl | rfl <;>
    (simp only [ts_lex_case, Option.some.injEq] at h
     subst h
     simp only [Char.reduceToNat]
     split_ifs <;> simp [inS4] <;> omega)

/-- A section-title token starts where the scan started and stops only at a
newline, a NUL or the end of input. -/
theorem section_token_stop (input : List Char) (t : Token)
    (h : ts_lex 13 input = .token t) (hsym : t.sym = aux_sym_section_token1) :
    t.start = 0 ∧ LineStop input t.stop := by
  obtain ⟨_, _, h0, a, c, hI, hcase, hacc, hnext⟩ := ts_lex_inv (fun s _ => inS13 s)
    (fun s pre ch c s' hI hcase hn => ((s13_facts s _ _ c hI hcase).1 s' hn).1)
    (fun s pre c s' hI hcase hn => ((s13_facts s _ _ c hI hcase).1 s' hn).1)
    13 input t h (by simp [inS13])
  refine ⟨h0 (by omega), ?_⟩
  obtain ⟨f1, f2⟩ := s13_facts a _ _ c hI hcase
  rcases hnext with hstop | ⟨s', hle, hadv⟩
  · rcases f2 (by rw [hacc, hsym]) hstop with hla | hla
    · rcases laOf_zero _ hla with h1 | h1
      · exact Or.inl h1
      · exact Or.inr (Or.inr h1)
    · exact Or.inr (Or.inl (laOf_eq _ '\n' hla (by decide)))
  · have := (f1 s' hadv).2
    omega

/-- A context-title token starts where the scan started and stops only at a
newline, a NUL or the end of input. -/
theorem context_token_stop (input : List Char) (t : Token)
    (h : ts_lex 3 input = .token t) (hsym : t.sym = aux_sym_context_block_token1) :
    t.start = 0 ∧ LineStop input t.stop := by
  obtain ⟨_, _, h0, a, c, hI, hcase, hacc, hnext⟩ := ts_lex_inv (fun s _ => inS3 s)
    (fun s pre ch c s' hI hcase hn => ((s3_facts s _ _ c hI hcase).1 s' hn).1)
    (fun s pre c s' hI hcase hn => ((s3_facts s _ _ c hI hcase).1 s' hn).1)
    3 input t h (by simp [inS3])
  refine ⟨h0 (by omega), ?_⟩
  obtain ⟨f1, f2⟩ := s3_facts a _ _ c hI hcase
  rcases hnext with hstop | ⟨s', hle, hadv⟩
  · rcases f2 (by rw [hacc, hsym]) hstop with hla | hla
    · rcases laOf_zero _ hla with h1 | h1
      · exact Or.inl h1
      · exact Or.inr (Or.inr h1)
    · exact Or.inr (Or.inl (laOf_eq _ '\n' hla (by decide)))
  · have := (f1 s' hadv).2
    omega

/-- A relation text token starts where the scan started, holds no `)` and
stops only at a `)`, a NUL or the end of input. -/
theorem relation_token_stop (input : List Char) (t : Token)
    (h : ts_lex 4 input = .token t) (hsym : t.sym = aux_sym_relation_line_token1) :
    t.start = 0 ∧ ParenStop input t.stop ∧ ')' ∉ tokenText input t := by
  obtain ⟨_, _, h0, a, c, hI, hcase, hacc, hnext⟩ := ts_lex_inv
    (fun s pre => inS4 s ∧ (s ≠ 10 → ')' ∉ pre))
    (fun s pre ch c s' hI hcase hn => by
      obtain ⟨k1, _, k3⟩ := (s4_facts s _ _ c hI.1 hcase).1 s' hn
      refine ⟨k1, fun h10 => ?_⟩
      obtain ⟨hs, hla⟩ := k3 h10
      intro hmem
      rcases List.mem_append.1 hmem with hm | hm
      · exact hI.2 hs hm
      · simp only [List.mem_singleton] at hm
        exact hla (by rw [← hm]; rfl))
    (fun s pre c s' hI hcase hn => by
      obtain ⟨k1, _, k3⟩ := (s4_facts s _ _ c hI.1 hcase).1 s' hn
      exact ⟨k1, fun h10 => hI.2 (k3 h10).1⟩)
    4 input t h ⟨by simp [inS4], fun _ => by simp⟩
  obtain ⟨f1, f2⟩ := s4_facts a _ _ c hI.1 hcase
  obtain ⟨g1, g2⟩ := f2 (by rw [hacc, hsym])
  refine ⟨h0 (by omega), ?_, hI.2 g1⟩
  rcases hnext with hstop | ⟨s', hle, hadv⟩
  · rcases g2 hstop with hla | hla
    · rcases laOf_zero _ hla with h1 | h1
      · exact Or.inl h1
      · exact Or.inr (Or.inr h1)
    · exact Or.inr (Or.inl (laOf_eq _ ')' hla (by decide)))
  · have := (f1 s' hadv).2.1
    omega

/-- The first `)` of a text is at `k` when no `)` comes before `k` and the
text ends at `k` or has a `)` there. -/
theorem parenEnd_eq (input : List Char) (k : Nat) (hk : k ≤ input.length)
    (hno : ')' ∉ input.take k)
    (hat : input.drop k = [] ∨ (input.drop k).head? = some ')') :
    parenEnd input = k := by
  unfold parenEnd
  have hsplit : input = input.take k ++ input.drop k := (List.take_append_drop k input).symm
  have hall : ∀ c ∈ input.take k, (c != ')') = true := by
    intro c hc
    simp only [bne_iff_ne, ne_eq]
    rintro rfl
    exact hno hc
  rw [hsplit, List.takeWhile_append_of_pos hall]
  have htail : (input.drop k).takeWhile (fun c => c != ')') = [] := by
    rcases hat with h | h
    · rw [h]; rfl
    · cases hd : input.drop k with
      | nil => rfl
      | cons c cs =>
        rw [hd] at h
        simp only [List.head?_cons, Option.some.injEq] at h
        subst h
        simp [List.takeWhile_cons]
  rw [htail]
  simp [hk]

/-- From state 35 the lexer returns the digit-run token that ends after the
maximal run of decimal digits ahead. -/
theorem lexLoop_35 (rest : List Char) :
    ∀ (fuel : Nat) (result : Bool) (pos ts te rs : Nat), rest.length + 1 ≤ fuel →
      lexLoop fuel 35 result ⟨rest, pos, ts, te, rs⟩ =
        .token ⟨aux_sym_reference_line_token1, ts,
          pos + (rest.takeWhile isDigitChar).length⟩ := by
  induction rest with
  | nil =>
    intro fuel result pos ts te rs hf
    obtain ⟨f, rfl⟩ : ∃ f, fuel = f + 1 := ⟨fuel - 1, by omega⟩
    simp [lexLoop, ts_lex_case, TSLexer.lookahead, TSLexer.eof, TSLexer.accept_token]
  | cons c cs ih =>
    intro fuel result pos ts te rs hf
    obtain ⟨f, rfl⟩ : ∃ f, fuel = f + 1 := ⟨fuel - 1, by omega⟩
    simp only [List.length_cons] at hf
    rw [lexLoop]
    by_cases hd : isDigitChar c = true
    · have hd' := hd
      simp only [isDigitChar, decide_eq_true_eq, Char.reduceToNat] at hd'
      have := ih f true (pos + 1) ts pos aux_sym_reference_line_token1 (by omega)
      simp [ts_lex_case, TSLexer.lookahead, TSLexer.eof, TSLexer.advance,
        TSLexer.accept_token, hd', hd, List.takeWhile_cons, this]
      omega
    · have hd' := hd
      simp only [isDigitChar, decide_eq_true_eq, Char.reduceToNat] at hd'
      simp [ts_lex_case, TSLexer.lookahead, TSLexer.eof, TSLexer.advance,
        TSLexer.accept_token, hd', hd, List.takeWhile_cons]

/-- From state 32 the lexer returns the identifier token that ends after the
maximal run of characters of `[A-Za-z0-9_]` ahead. -/
theorem lexLoop_32 (rest : List Char) :
    ∀ (fuel : Nat) (result : Bool) (pos ts te rs : Nat), rest.length + 1 ≤ fuel →
      lexLoop fuel 32 result ⟨rest, pos, ts, te, rs⟩ =
        .token ⟨aux_sym_alias_definition_token1, ts,
          pos + (rest.takeWhile isIdentChar).length⟩ := by
  induction rest with
  | nil =>
    intro fuel result pos ts te rs hf
    obtain ⟨f, rfl⟩ : ∃ f, fuel = f + 1 := ⟨fuel - 1, by omega⟩
    simp [lexLoop, ts_lex_case, TSLexer.lookahead, TSLexer.eof, TSLexer.accept_token]
  | cons c cs ih =>
    intro fuel result pos ts te rs hf
    obtain ⟨f, rfl⟩ : ∃ f, fuel = f + 1 := ⟨fuel - 1, by omega⟩
    simp only [List.length_cons] at hf
    rw [lexLoop]
    by_cases hd : isIdentChar c = true
    · have hd' := hd
      simp only [isIdentChar, isDigitChar, isIdentStart, Bool.or_eq_true, decide_eq_true_eq,
        Char.reduceToNat] at hd'
      have := ih f true (pos + 1) ts pos aux_sym_alias_definition_token1 (by omega)
      simp [ts_lex_case, TSLexer.lookahead, TSLexer.eof, TSLexer.advance,
        TSLexer.accept_token, hd', hd, List.takeWhile_cons, this]
      omega
    · have hd' := hd
      simp only [isIdentChar, isDigitChar, isIdentStart, Bool.or_eq_true, decide_eq_true_eq,
        Char.reduceToNat] at hd'
      simp [ts_lex_case, TSLexer.lookahead, TSLexer.eof, TSLexer.advance,
        TSLexer.accept_token, hd', hd, List.takeWhile_cons]

/-- A run of characters that state `st` skips moves the token start past the
run and leaves the scan in state `st`. -/
theorem lexLoop_skip (st : Nat) (ws : List Char)
    (h : ∀ d ∈ ws, ts_lex_case st d.toNat false = some ⟨none, .skip st⟩) :
    ∀ (fuel : Nat) (tail : List Char) (pos te rs : Nat),
      lexLoop (fuel + ws.length) st false ⟨ws ++ tail, pos, pos, te, rs⟩ =
        lexLoop fuel st false ⟨tail, pos + ws.length, pos + ws.length, te, rs⟩ := by
  induction ws with
  | nil => intro fuel tail pos te rs; simp
  | cons c cs ih =>
    intro fuel tail pos te rs
    have hc := h c (by simp)
    have hcs : ∀ d ∈ cs, ts_lex_case st d.toNat false = some ⟨none, .skip st⟩ :=
      fun d hd => h d (by simp [hd])
    have := ih hcs fuel tail (pos + 1) te rs
    show lexLoop (fuel + cs.length + 1) st false ⟨c :: (cs ++ tail), pos, pos, te, rs⟩ = _
    rw [lexLoop]
    simp only [TSLexer.lookahead, TSLexer.eof, List.isEmpty_cons, hc, Bool.or_false,
      Option.isSome_none, TSLexer.advance, if_true]
    rw [this]
    simp only [List.length_cons]
    congr 2 <;> omega

/-- State 2 skips the five whitespace characters. -/
theorem skip_case_2 (d : Char) (h : isSkipped d) :
    ts_lex_case 2 d.toNat false = some ⟨none, .skip 2⟩ := by
  rcases h with rfl | rfl | rfl | rfl | rfl <;> decide

/-- Moving all positions of the lexer object by `d` moves the result by `d`. -/
theorem lexLoop_shift (d : Nat) :
    ∀ (fuel state : Nat) (result : Bool) (rest : List Char) (pos ts te rs : Nat),
      lexLoop fuel state result ⟨rest, pos + d, ts + d, te + d, rs⟩ =
        (lexLoop fuel state result ⟨rest, pos, ts, te, rs⟩).shift d := by
  intro fuel
  induction fuel with
  | zero => intro state result rest pos ts te rs; simp [lexLoop, LexResult.shift]
  | succ f ih =>
    intro state result rest pos ts te rs
    rw [lexLoop, lexLoop]
    cases rest with
    | nil =>
      simp only [TSLexer.lookahead, TSLexer.eof, List.isEmpty_nil]
      generalize ts_lex_case state 0 true = oc
      cases oc with
      | none => simp [LexResult.shift]
      | some c =>
        obtain ⟨acc, next⟩ := c
        cases result <;> cases acc <;> cases next <;>
          simp [TSLexer.advance, TSLexer.accept_token, ih, LexResult.shift, Token.shift]
    | cons x xs =>
      simp only [TSLexer.lookahead, TSLexer.eof, List.isEmpty_cons]
      generalize ts_lex_case state x.toNat false = oc
      have e1 : pos + d + 1 = pos + 1 + d := by omega
      cases oc with
      | none => simp [LexResult.shift]
      | some c =>
        obtain ⟨acc, next⟩ := c
        cases result <;> cases acc <;> cases next <;>
          simp [TSLexer.advance, TSLexer.accept_token, ih, LexResult.shift, Token.shift, e1]

/-- Before a token is accepted the recorded token end and symbol do not
matter. -/
theorem lexLoop_fresh :
    ∀ (fuel state : Nat) (rest : List Char) (pos ts te rs te' rs' : Nat),
      lexLoop fuel state false ⟨rest, pos, ts, te, rs⟩ =
        lexLoop fuel state false ⟨rest, pos, ts, te', rs'⟩ := by
  intro fuel
  induction fuel with
  | zero => intro state rest pos ts te rs te' rs'; simp [lexLoop]
  | succ f ih =>
    intro state rest pos ts te rs te' rs'
    rw [lexLoop, lexLoop]
    cases rest with
    | nil =>
      simp only [TSLexer.lookahead, TSLexer.eof, List.isEmpty_nil]
      generalize ts_lex_case state 0 true = oc
      cases oc with
      | none => rfl
      | some c =>
        obtain ⟨acc, next⟩ := c
        cases acc <;> cases next <;>
          simp [TSLexer.advance, TSLexer.accept_token] <;> apply ih
    | cons x xs =>
      simp only [TSLexer.lookahead, TSLexer.eof, List.isEmpty_cons]
      generalize ts_lex_case state x.toNat false = oc
      cases oc with
      | none => rfl
      | some c =>
        obtain ⟨acc, next⟩ := c
        cases acc <;> cases next <;>
          simp [TSLexer.advance, TSLexer.accept_token] <;> apply ih

/-- Taking as many elements as the maximal run has gives the run. -/
theorem take_takeWhile_length (p : Char → Bool) (l : List Char) :
    l.take (l.takeWhile p).length = l.takeWhile p :=
  (List.prefix_iff_eq_take.mp (List.takeWhile_prefix p)).symm

/-- The text of a token that starts behind `ws` and has `k + 1` characters. -/
theorem tokenText_run (ws rest : List Char) (c : Char) (sym k : Nat) :
    tokenText (ws ++ c :: rest) ⟨sym, ws.length, ws.length + 1 + k⟩ = c :: rest.take k := by
  have e : ws.length + 1 + k - ws.length = k + 1 := by omega
  simp [tokenText, e]

/-- A leading run of characters that state `st` skips only moves the result
of `ts_lex` by the length of the run. -/
theorem ts_lex_skip (st : Nat) (ws s : List Char)
    (h : ∀ d ∈ ws, ts_lex_case st d.toNat false = some ⟨none, .skip st⟩) :
    ts_lex st (ws ++ s) = (ts_lex st s).shift ws.length := by
  have e : (ws ++ s).length + 2 = s.length + 2 + ws.length := by
    simp only [List.length_append]; omega
  unfold ts_lex
  rw [e, lexLoop_skip st ws h, lexLoop_fresh _ _ _ _ _ 0 0 (0 + ws.length) 0]
  exact lexLoop_shift ws.length (s.length + 2) st false s 0 0 0 0

/-- State 7 skips the newline. -/
theorem skip_case_7 (d : Char) (h : d = '\n') :
    ts_lex_case 7 d.toNat false = some ⟨none, .skip 7⟩ := by
  subst h; decide

/-- A node a field refers to is never an extra. -/
theorem field_not_extra (n : Node) (f : Nat) (x : Node) (h : x ∈ Node.field n f) :
    x.isExtra = false := by
  cases n with
  | leaf sym start stop extra => simp [Node.field] at h
  | inner sym production_id cs =>
    simp only [Node.field, List.mem_filterMap] at h
    obtain ⟨e, _, he⟩ := h
    have hx := List.get?_mem he
    simpa using (List.mem_filter.mp hx).2

/-- At the end of input no state makes a transition other than into state 8. -/
theorem ts_lex_case_eof (state : Nat) (c : LexCase)
    (h : ts_lex_case state 0 true = some c) : c.next = .stop ∨ c.next = .advance 8 := by
  unfold ts_lex_case at h
  split at h <;> cases h <;> simp

/-- State 8 accepts the end-of-input token and returns. -/
theorem ts_lex_case_8 (la : Nat) (eof : Bool) :
    ts_lex_case 8 la eof = some ⟨some ts_builtin_sym_end, .stop⟩ := rfl

/-- With a budget of `lexBudget` cases the loop returns, and a larger budget
gives the same result. -/
theorem lexLoop_budget : ∀ (fuel state : Nat) (result : Bool) (rest : List Char)
    (pos ts te rs : Nat), lexBudget state rest ≤ fuel →
    lexLoop fuel state result ⟨rest, pos, ts, te, rs⟩ ≠ .outOfFuel ∧
    lexLoop (fuel + 1) state result ⟨rest, pos, ts, te, rs⟩ =
      lexLoop fuel state result ⟨rest, pos, ts, te, rs⟩ := by
  intro fuel
  induction fuel with
  | zero =>
    intro state result rest pos ts te rs hf
    unfold lexBudget at hf
    split_ifs at hf <;> omega
  | succ f ih =>
    intro state result rest pos ts te rs hf
    by_cases h8 : state = 8
    · subst h8
      rw [lexLoop, lexLoop]
      simp [ts_lex_case_8]
    · have hb : rest.length + 2 ≤ f + 1 := by simpa [lexBudget, h8] using hf
      rw [lexLoop, lexLoop]
      cases rest with
      | nil =>
        simp only [TSLexer.lookahead, TSLexer.eof, List.isEmpty_nil]
        cases hcase : ts_lex_case state 0 true with
        | none => simp
        | some c =>
          obtain ⟨acc, next⟩ := c
          rcases ts_lex_case_eof state _ hcase with hn | hn
          · simp only at hn
            subst hn
            cases result <;> cases acc <;> simp
          · simp only at hn
            subst hn
            have hb8 : lexBudget 8 [] ≤ f := by simp [lexBudget]; simpa using hb
            cases acc with
            | none =>
              simpa [TSLexer.advance] using ih 8 (result || false) [] pos ts te rs hb8
            | some sym =>
              simpa [TSLexer.advance, TSLexer.accept_token] using
                ih 8 (result || true) [] pos ts pos sym hb8
      | cons x xs =>
        simp only [TSLexer.lookahead, TSLexer.eof, List.isEmpty_cons]
        simp only [List.length_cons] at hb
        have hbx : ∀ s, lexBudget s xs ≤ f := by
          intro s
          unfold lexBudget
          split_ifs <;> omega
        cases hcase : ts_lex_case state x.toNat false with
        | none => simp
        | some c =>
          obtain ⟨acc, next⟩ := c
          cases next with
          | stop => cases result <;> cases acc <;> simp
          | advance s =>
            cases acc with
            | none =>
              simpa [TSLexer.advance] using ih s (result || false) xs (pos + 1) ts te rs (hbx s)
            | some sym =>
              simpa [TSLexer.advance, TSLexer.accept_token] using
                ih s (result || true) xs (pos + 1) ts pos sym (hbx s)
          | skip s =>
            cases acc with
            | none =>
              simpa [TSLexer.advance] using
                ih s (result || false) xs (pos + 1) (pos + 1) te rs (hbx s)
            | some sym =>
              simpa [TSLexer.advance, TSLexer.accept_token] using
                ih s (result || true) xs (pos + 1) (pos + 1) pos sym (hbx s)

/-- Any budget above `lexBudget` gives the same result. -/
theorem lexLoop_fuel (state : Nat) (result : Bool) (rest : List Char) (pos ts te rs : Nat) :
    ∀ (k fuel : Nat), lexBudget state rest ≤ fuel →
      lexLoop (fuel + k) state result ⟨rest, pos, ts, te, rs⟩ =
        lexLoop fuel state result ⟨rest, pos, ts, te, rs⟩ := by
  intro k
  induction k with
  | zero => intro fuel _; rfl
  | succ k ih =>
    intro fuel hf
    have e : fuel + (k + 1) = fuel + k + 1 := by omega
    rw [e, (lexLoop_budget (fuel + k) state result rest pos ts te rs (by omega)).2]
    exact ih fuel hf

/-- The loop makes at most as many transitions as characters remain, plus
one for the transition into state 8 at the end of input. -/
theorem lexTransitions_le : ∀ (fuel state : Nat) (rest : List Char) (pos ts te rs : Nat),
    lexTransitions fuel state ⟨rest, pos, ts, te, rs⟩ + (if state = 8 then 1 else 0) ≤
      rest.length + 1 := by
  intro fuel
  induction fuel with
  | zero => intro state rest pos ts te rs; simp [lexTransitions]; split_ifs <;> omega
  | succ f ih =>
    intro state rest pos ts te rs
    by_cases h8 : state = 8
    · subst h8
      rw [lexTransitions]
      simp [ts_lex_case_8]
    · rw [lexTransitions]
      simp only [h8, if_false, Nat.add_zero]
      cases rest with
      | nil =>
        simp only [TSLexer.lookahead, TSLexer.eof, List.isEmpty_nil]
        cases hcase : ts_lex_case state 0 true with
        | none => simp
        | some c =>
          obtain ⟨acc, next⟩ := c
          rcases ts_lex_case_eof state _ hcase with hn | hn
          · simp only at hn
            subst hn
            simp
          · simp only at hn
            subst hn
            have := ih 8 [] pos ts te rs
            simp only [if_true, List.length_nil] at this
            simp only [TSLexer.advance, List.length_nil]
            omega
      | cons x xs =>
        simp only [TSLexer.lookahead, TSLexer.eof, List.isEmpty_cons]
        cases hcase : ts_lex_case state x.toNat false with
        | none => simp
        | some c =>
          obtain ⟨acc, next⟩ := c
          cases next with
          | stop => simp
          | advance s =>
            have := ih s xs (pos + 1) ts te rs
            simp only [TSLexer.advance, List.length_cons, Bool.false_eq_true, if_false]
            split_ifs at this <;> omega
          | skip s =>
            have := ih s xs (pos + 1) (pos + 1) te rs
            simp only [TSLexer.advance, List.length_cons, if_true]
            split_ifs at this <;> omega

/-- Every state of `inS7` accepts a token. -/
theorem s7_accept (s la : Nat) (eof : Bool) (c : LexCase) (hs : inS7 s)
    (h : ts_lex_case s la eof = some c) : c.accept = some (lexAccept s) := by
  rcases hs with rfl | rfl | rfl | rfl | rfl | rfl | rfl | rfl | rfl | rfl | rfl | rfl | rfl | rfl <;>
    (simp only [ts_lex_case, Option.some.injEq] at h
     subst h
     rfl)

/-- Every state of `inS7` stops on a newline and on lookahead 0. -/
theorem s7_stop (s la : Nat) (eof : Bool) (c : LexCase) (hs : inS7 s)
    (h : ts_lex_case s la eof = some c) (hla : la = 0 ∨ la = 10) : c.next = .stop := by
  rcases hla with rfl | rfl <;>
  rcases hs with rfl | rfl | rfl | rfl | rfl | rfl | rfl | rfl | rfl | rfl | rfl | rfl | rfl | rfl <;>
    (simp only [ts_lex_case, Option.some.injEq] at h
     subst h
     rfl)

/-- A property of transitions holds of an `if` when it holds of both
branches. -/
theorem lexAct_ite (P : LexAct → Prop) {c : Prop} [Decidable c] {a b : LexAct}
    (ha : c → P a) (hb : ¬ c → P b) : P (if c then a else b) := by
  split_ifs with h
  · exact ha h
  · exact hb h

/-- Every state of `inS7` advances into `inS7` on any other character. -/
theorem s7_advance (s la : Nat) (eof : Bool) (c : LexCase) (hs : inS7 s)
    (h : ts_lex_case s la eof = some c) (h0 : la ≠ 0) (h10 : la ≠ 10) :
    advInto inS7 c.next := by
  rcases hs with rfl | rfl | rfl | rfl | rfl | rfl | rfl | rfl | rfl | rfl | rfl | rfl | rfl | rfl <;>
    (simp only [ts_lex_case, Option.some.injEq] at h
     subst h
     dsimp only
     repeat (
       refine lexAct_ite (advInto inS7) (fun hc => ?_) (fun hn => ?_)
       · exact ⟨_, rfl, by decide⟩)
     exfalso
     simp only [Char.reduceToNat] at *
     omega)

/-- The states of `inS7` have a case. -/
theorem s7_some (s la : Nat) (eof : Bool) (hs : inS7 s) :
    ∃ c, ts_lex_case s la eof = some c := by
  rcases hs with rfl | rfl | rfl | rfl | rfl | rfl | rfl | rfl | rfl | rfl | rfl | rfl | rfl | rfl <;>
    exact ⟨_, rfl⟩

/-- State 7 accepts nothing and advances into `inS7` on a character that is
neither a newline nor a NUL. -/
theorem s7_first (la : Nat) (h0 : la ≠ 0) (h10 : la ≠ 10) :
    ∃ nxt, ts_lex_case 7 la false = some ⟨none, nxt⟩ ∧ advInto inS7 nxt := by
  refine ⟨_, rfl, ?_⟩
  refine lexAct_ite (advInto inS7) (fun hc => absurd hc (by decide)) (fun _ => ?_)
  refine lexAct_ite (advInto inS7) (fun hc => absurd hc (by simpa using h10)) (fun _ => ?_)
  repeat (
    refine lexAct_ite (advInto inS7) (fun hc => ?_) (fun hn => ?_)
    · exact ⟨_, rfl, by decide⟩)
  exfalso
  simp only [Char.reduceToNat] at *
  omega

/-- An `ADVANCE` of the case of `s` on `x` is what `lexNext` gives. -/
theorem lexNext_eq (s : Nat) (x : Char) (acc : Option Nat) (s1 : Nat)
    (h : ts_lex_case s x.toNat false = some ⟨acc, .advance s1⟩) : lexNext s x = s1 := by
  unfold lexNext
  rw [h]
  rfl

/-- From a state of `inS7` the scan runs to the next newline or to the end of
the input, and returns the token the state reached there accepts. -/
theorem lexLoop_line (rest : List Char) (hnul : NulFree rest) :
    ∀ (fuel s : Nat) (result : Bool) (pos ts te rs : Nat), inS7 s → rest.length + 1 ≤ fuel →
      lexLoop fuel s result ⟨rest, pos, ts, te, rs⟩ =
        .token ⟨lexAccept ((rest.takeWhile (fun c => c != '\n')).foldl lexNext s), ts,
          pos + lineEnd rest⟩ := by
  induction rest with
  | nil =>
    intro fuel s result pos ts te rs hs hf
    obtain ⟨f, rfl⟩ : ∃ f, fuel = f + 1 := ⟨fuel - 1, by omega⟩
    obtain ⟨c, hc⟩ := s7_some s 0 true hs
    have hacc := s7_accept s 0 true c hs hc
    have hstop := s7_stop s 0 true c hs hc (Or.inl rfl)
    obtain ⟨acc, nxt⟩ := c
    simp only at hacc hstop
    subst hacc hstop
    rw [lexLoop]
    simp [TSLexer.lookahead, TSLexer.eof, hc, TSLexer.accept_token, lineEnd]
  | cons x xs ih =>
    intro fuel s result pos ts te rs hs hf
    obtain ⟨f, rfl⟩ : ∃ f, fuel = f + 1 := ⟨fuel - 1, by omega⟩
    simp only [List.length_cons] at hf
    obtain ⟨c, hc⟩ := s7_some s x.toNat false hs
    have hacc := s7_accept s x.toNat false c hs hc
    obtain ⟨acc, nxt⟩ := c
    simp only at hacc
    subst hacc
    by_cases hx : x = '\n'
    · have hstop := s7_stop s x.toNat false _ hs hc (Or.inr (by rw [hx]; rfl))
      simp only at hstop
      subst hstop
      subst hx
      have hc1 : ts_lex_case s 10 false = some ⟨some (lexAccept s), .stop⟩ := hc
      rw [lexLoop]
      simp [TSLexer.lookahead, TSLexer.eof, hc1, TSLexer.accept_token, lineEnd]
    · have hx0 : x.toNat ≠ 0 := toNat_ne_zero (hnul x (by simp))
      have hx10 : x.toNat ≠ 10 := fun h => hx ((toNat_newline x).1 h)
      obtain ⟨s1, hn, hs1⟩ := s7_advance s x.toNat false _ hs hc hx0 hx10
      simp only at hn
      subst hn
      have hxs : NulFree xs := fun d hd => hnul d (by simp [hd])
      have := ih hxs f s1 true (pos + 1) ts pos (lexAccept s) hs1 (by omega)
      rw [lexLoop]
      simp only [TSLexer.lookahead, TSLexer.eof, List.isEmpty_cons, hc, TSLexer.accept_token,
        TSLexer.advance, Option.isSome_some, Bool.or_true, Bool.false_eq_true, if_false]
      rw [this, lineEnd_cons_of_ne hx]
      have hne : (x != '\n') = true := by simpa using hx
      simp only [List.takeWhile_cons, hne, if_true, List.foldl_cons, lexNext_eq s x _ s1 hc]
      congr 2
      omega

/-- Lex state 7 on an input whose first character is no newline: the token
runs from that character to the end of the line. -/
theorem ts_lex_7_line (x : Char) (xs : List Char) (hnul : NulFree (x :: xs)) (hx : x ≠ '\n') :
    ts_lex 7 (x :: xs) =
      .token ⟨lexAccept (((x :: xs).takeWhile (fun c => c != '\n')).foldl lexNext 7), 0,
        lineEnd (x :: xs)⟩ := by
  have hx0 : x.toNat ≠ 0 := toNat_ne_zero (hnul x (by simp))
  have hx10 : x.toNat ≠ 10 := fun h => hx ((toNat_newline x).1 h)
  obtain ⟨nxt, hc, s1, hn, hs1⟩ := s7_first x.toNat hx0 hx10
  subst hn
  have hxs : NulFree xs := fun d hd => hnul d (by simp [hd])
  have := lexLoop_line xs hxs (xs.length + 2) s1 false 1 0 0 0 hs1 (by omega)
  show lexLoop (xs.length + 2 + 1) 7 false ⟨x :: xs, 0, 0, 0, 0⟩ = _
  rw [lexLoop]
  simp only [TSLexer.lookahead, TSLexer.eof, List.isEmpty_cons, hc, TSLexer.advance,
    Option.isSome_none, Bool.or_false, Bool.false_eq_true, if_false]
  rw [this, lineEnd_cons_of_ne hx]
  have hne : (x != '\n') = true := by simpa using hx
  simp only [List.takeWhile_cons, hne, if_true, List.foldl_cons, lexNext_eq 7 x _ s1 hc]
  congr 2
  omega

/-- Dropping as many elements as the maximal run has drops the run. -/
theorem drop_takeWhile_length (p : Char → Bool) (l : List Char) :
    l.drop (l.takeWhile p).length = l.dropWhile p := by
  induction l with
  | nil => rfl
  | cons x xs ih =>
    by_cases h : p x = true
    · simp [List.takeWhile_cons, List.dropWhile_cons, h, ih]
    · simp [List.takeWhile_cons, List.dropWhile_cons, h]

/-- The first element left by `dropWhile` fails the test. -/
theorem dropWhile_head (p : Char → Bool) (l : List Char) (x : Char) (xs : List Char)
    (h : l.dropWhile p = x :: xs) : p x = false := by
  induction l with
  | nil => simp at h
  | cons y ys ih =>
    by_cases hy : p y = true
    · simp only [List.dropWhile_cons, hy, if_true] at h
      exact ih h
    · simp only [List.dropWhile_cons, hy] at h
      simp only [Bool.false_eq_true, if_false, List.cons.injEq] at h
      rw [← h.1]
      simpa using hy

/-- Lex state 7 on a NUL-free input: the end-of-input token when only
newlines are left, otherwise the token of the scanned line, whose kind is
what the state reached at the end of the line accepts. -/
theorem ts_lex_7_scan (input : List Char) (hnul : NulFree input) :
    (input.drop (leadingNewlines input) = [] →
      ts_lex 7 input =
        .token ⟨ts_builtin_sym_end, leadingNewlines input, leadingNewlines input⟩) ∧
    (input.drop (leadingNewlines input) ≠ [] →
      ts_lex 7 input = .token ⟨lexAccept ((scannedLine input).foldl lexNext 7),
        leadingNewlines input, leadingNewlines input + (scannedLine input).length⟩ ∧
      scannedLine input ≠ []) := by
  have hdrop : input.drop (leadingNewlines input) = input.dropWhile (fun c => c == '\n') :=
    drop_takeWhile_length _ input
  have hsplit : input.takeWhile (fun c => c == '\n') ++ input.dropWhile (fun c => c == '\n') =
      input := List.takeWhile_append_dropWhile _ input
  have hskip := ts_lex_skip 7 (input.takeWhile (fun c => c == '\n'))
    (input.dropWhile (fun c => c == '\n'))
    (fun d hd => skip_case_7 d (by simpa using (List.mem_takeWhile_imp hd)))
  rw [hsplit] at hskip
  have hn : (input.takeWhile (fun c => c == '\n')).length = leadingNewlines input := rfl
  rw [hn] at hskip
  unfold scannedLine
  rw [hdrop]
  cases hs : input.dropWhile (fun c => c == '\n') with
  | nil =>
    rw [hs] at hskip
    refine ⟨fun _ => ?_, fun h => absurd rfl h⟩
    rw [hskip]
    have e : ts_lex 7 [] = .token ⟨ts_builtin_sym_end, 0, 0⟩ := by decide
    simp [e, LexResult.shift, Token.shift]
  | cons x xs =>
    rw [hs] at hskip
    have hx : x ≠ '\n' := by
      have := dropWhile_head _ input x xs hs
      simpa using this
    have hnul' : NulFree (x :: xs) := by
      intro d hd
      have : d ∈ input.dropWhile (fun c => c == '\n') := by rw [hs]; exact hd
      exact hnul d ((List.dropWhile_sublist _).subset this)
    refine ⟨fun h => by simp at h, fun _ => ⟨?_, ?_⟩⟩
    · rw [hskip, ts_lex_7_line x xs hnul' hx]
      simp only [LexResult.shift, Token.shift, lineEnd]
      congr 2 <;> omega
    · have hne : (x != '\n') = true := by simpa using hx
      simp [List.takeWhile_cons, hne]

/-- The scanned line starts behind the leading newlines, holds no newline,
is the text of a token with its range, and ends at a newline or at the end
of the input. -/
theorem scannedLine_facts (input : List Char) :
    (∀ c ∈ input.take (leadingNewlines input), c = '\n') ∧
    '\n' ∉ scannedLine input ∧
    (∀ sym : Nat, tokenText input ⟨sym, leadingNewlines input,
      leadingNewlines input + (scannedLine input).length⟩ = scannedLine input) ∧
    (input.drop (leadingNewlines input + (scannedLine input).length) = [] ∨
      (input.drop (leadingNewlines input + (scannedLine input).length)).head? = some '\n') := by
  refine ⟨?_, ?_, ?_, ?_⟩
  · intro c hc
    unfold leadingNewlines at hc
    rw [take_takeWhile_length] at hc
    simpa using List.mem_takeWhile_imp hc
  · intro h
    have := List.mem_takeWhile_imp h
    simp at this
  · intro sym
    have e : leadingNewlines input + (scannedLine input).length - leadingNewlines input =
        (scannedLine input).length := by omega
    simp only [tokenText, e]
    unfold scannedLine
    exact take_takeWhile_length _ _
  · rw [← List.drop_drop]
    unfold scannedLine
    rw [drop_takeWhile_length]
    cases h : (input.drop (leadingNewlines input)).dropWhile (fun c => c != '\n') with
    | nil => exact Or.inl rfl
    | cons x xs =>
      right
      have := dropWhile_head _ _ x xs h
      simp only [bne_eq_false_iff_eq, beq_iff_eq] at this
      simp [this]

/-- The states of `inD` lead to each other only. -/
theorem lexNext_dead (s : Nat) (c : Char) (hs : inD s) : inD (lexNext s c) := by
  rcases hs with rfl | rfl | rfl | rfl | rfl | rfl | rfl | rfl | rfl | rfl <;>
    (show inD (nextOf _ _)
     repeat (
       refine lexAct_ite (fun act => inD (nextOf _ act)) (fun hc => ?_) (fun hn => ?_)
       · exact (by decide))
     exact (by decide))

/-- No state of `inD` accepts the todo token. -/
theorem lexAccept_dead (s : Nat) (hs : inD s) : lexAccept s ≠ sym_todo_block := by
  rcases hs with rfl | rfl | rfl | rfl | rfl | rfl | rfl | rfl | rfl | rfl <;> decide

/-- From a state of `inD` no run ends in a state that accepts the todo
token. -/
theorem run_dead (r : List Char) : ∀ s, inD s → lexAccept (r.foldl lexNext s) ≠ sym_todo_block := by
  induction r with
  | nil => intro s hs; exact lexAccept_dead s hs
  | cons c cs ih => intro s hs; exact ih _ (lexNext_dead s c hs)

/-- State 43 (behind leading blanks) stays on a blank, goes to state 46 on an
uppercase letter and into `inD` on any other character of a line; state 7
goes where state 43 goes. -/
theorem lexNext_43 (c : Char) (h10 : c.toNat ≠ 10) (h0 : c.toNat ≠ 0) :
    (isBlankChar c = true → lexNext 43 c = 43) ∧
    (isUpperChar c = true → lexNext 43 c = 46) ∧
    (isBlankChar c = false → isUpperChar c = false → inD (lexNext 43 c)) ∧
    lexNext 7 c = lexNext 43 c := by
  simp only [isBlankChar, isUpperChar, decide_eq_true_eq, decide_eq_false_iff_not,
    Char.reduceToNat]
  refine ⟨?_, ?_, ?_, ?_⟩
  · intro hb
    show nextOf 43 _ = 43
    repeat (
      refine lexAct_ite (fun act => nextOf 43 act = 43) (fun hc => ?_) (fun hn => ?_)
      · first
          | rfl
          | (exfalso; simp only [Char.reduceToNat] at *; omega))
    rfl
  · intro hu
    show nextOf 43 _ = 46
    repeat (
      refine lexAct_ite (fun act => nextOf 43 act = 46) (fun hc => ?_) (fun hn => ?_)
      · first
          | rfl
          | (exfalso; simp only [Char.reduceToNat] at *; omega))
    exfalso
    simp only [Char.reduceToNat] at *
    omega
  · intro hb hu
    show inD (nextOf 43 _)
    repeat (
      refine lexAct_ite (fun act => inD (nextOf 43 act)) (fun hc => ?_) (fun hn => ?_)
      · first
          | exact (by decide)
          | (exfalso; simp only [Char.reduceToNat] at *; omega))
    exfalso
    simp only [Char.reduceToNat] at *
    omega
  · show nextOf 7 _ = lexNext 43 c
    refine lexAct_ite (fun act => nextOf 7 act = lexNext 43 c)
      (fun hc => absurd hc (by simpa using h10)) (fun _ => ?_)
    repeat (
      refine lexAct_ite (fun act => nextOf 7 act = lexNext 43 c) (fun hc => ?_) (fun hn => ?_)
      · show _ = nextOf 43 _
        repeat (
          refine lexAct_ite (fun act => _ = nextOf 43 act) (fun hc2 => ?_) (fun hn2 => ?_)
          · first
              | rfl
              | (exfalso; simp only [Char.reduceToNat] at *; omega))
        exfalso
        simp only [Char.reduceToNat] at *
        omega)
    exfalso
    simp only [Char.reduceToNat] at *
    omega

/-- State 46 (behind one uppercase letter) goes to state 42 on an uppercase
letter, a digit or a space, and to state 47 on any other character of a
line. -/
theorem lexNext_46 (c : Char) (h10 : c.toNat ≠ 10) (h0 : c.toNat ≠ 0) :
    (isTagChar c = true → lexNext 46 c = 42) ∧ (isTagChar c = false → lexNext 46 c = 47) := by
  simp only [isTagChar, isTagEnd, isUpperChar, isDigitChar, Bool.or_eq_true, Bool.or_eq_false_iff,
    decide_eq_true_eq, decide_eq_false_iff_not, Char.reduceToNat]
  refine ⟨?_, ?_⟩
  · intro ht
    show nextOf 46 _ = 42
    repeat (
      refine lexAct_ite (fun act => nextOf 46 act = 42) (fun hc => ?_) (fun hn => ?_)
      · first
          | rfl
          | (exfalso; simp only [Char.reduceToNat] at *; omega))
    exfalso
    simp only [Char.reduceToNat] at *
    omega
  · intro ht
    show nextOf 46 _ = 47
    repeat (
      refine lexAct_ite (fun act => nextOf 46 act = 47) (fun hc => ?_) (fun hn => ?_)
      · first
          | rfl
          | (exfalso; simp only [Char.reduceToNat] at *; omega))
    exfalso
    simp only [Char.reduceToNat] at *
    omega

/-- States 42 and 27 go to state 27 on an uppercase letter or a digit, to
state 42 on a space, and to state 47 on any other character of a line. -/
theorem lexNext_42_27 (s : Nat) (hs : s = 42 ∨ s = 27) (c : Char) (h10 : c.toNat ≠ 10)
    (h0 : c.toNat ≠ 0) :
    (isTagEnd c = true → lexNext s c = 27) ∧
    (isTagEnd c = false → isTagChar c = true → lexNext s c = 42) ∧
    (isTagChar c = false → lexNext s c = 47) := by
  simp only [isTagChar, isTagEnd, isUpperChar, isDigitChar, Bool.or_eq_true, Bool.or_eq_false_iff,
    decide_eq_true_eq, decide_eq_false_iff_not, Char.reduceToNat]
  rcases hs with rfl | rfl
  · refine ⟨?_, ?_, ?_⟩
    · intro ht
      show nextOf 42 _ = 27
      repeat (
        refine lexAct_ite (fun act => nextOf 42 act = 27) (fun hc => ?_) (fun hn => ?_)
        · first
            | rfl
            | (exfalso; simp only [Char.reduceToNat] at *; omega))
      exfalso
      simp only [Char.reduceToNat] at *
      omega
    · intro ht1 ht2
      show nextOf 42 _ = 42
      repeat (
        refine lexAct_ite (fun act => nextOf 42 act = 42) (fun hc => ?_) (fun hn => ?_)
        · first
            | rfl
            | (exfalso; simp only [Char.reduceToNat] at *; omega))
      rfl
    · intro ht
      show nextOf 42 _ = 47
      repeat (
        refine lexAct_ite (fun act => nextOf 42 act = 47) (fun hc => ?_) (fun hn => ?_)
        · first
            | rfl
            | (exfalso; simp only [Char.reduceToNat] at *; omega))
      exfalso
      simp only [Char.reduceToNat] at *
      omega
  · refine ⟨?_, ?_, ?_⟩
    · intro ht
      show nextOf 27 _ = 27
      repeat (
        refine lexAct_ite (fun act => nextOf 27 act = 27) (fun hc => ?_) (fun hn => ?_)
        · first
            | rfl
            | (exfalso; simp only [Char.reduceToNat] at *; omega))
      rfl
    · intro ht1 ht2
      show nextOf 27 _ = 42
      repeat (
        refine lexAct_ite (fun act => nextOf 27 act = 42) (fun hc => ?_) (fun hn => ?_)
        · first
            | rfl
            | (exfalso; simp only [Char.reduceToNat] at *; omega))
      exfalso
      simp only [Char.reduceToNat] at *
      omega
    · intro ht
      show nextOf 27 _ = 47
      repeat (
        refine lexAct_ite (fun act => nextOf 27 act = 47) (fun hc => ?_) (fun hn => ?_)
        · first
            | rfl
            | (exfalso; simp only [Char.reduceToNat] at *; omega))
      exfalso
      simp only [Char.reduceToNat] at *
      omega

/-- A test of the last element of a non-empty list, by its first element. -/
theorem getLast_cons_test (p : Char → Bool) (c : Char) (cs : List Char) :
    (c :: cs).getLast?.any p = (if p c then cs.getLast?.all p else cs.getLast?.any p) ∧
    (c :: cs).getLast?.all p = (if p c then cs.getLast?.all p else cs.getLast?.any p) := by
  cases cs with
  | nil => cases h : p c <;> simp [h]
  | cons d ds =>
    rw [List.getLast?_cons_cons]
    cases h : (d :: ds).getLast? with
    | none => simp at h
    | some x => simp

/-- A list whose last element passes a test is not empty. -/
theorem getLast_any_length (p : Char → Bool) (cs : List Char) (h : cs.getLast?.any p = true) :
    1 ≤ cs.length ∧ cs.getLast?.all p = true := by
  cases cs with
  | nil => simp at h
  | cons d ds =>
    cases hl : (d :: ds).getLast? with
    | none => simp at hl
    | some x =>
      rw [hl] at h
      simpa using h

/-- A run from state 27, resp. 42, ends in the todo state 27 exactly when
all characters are uppercase letters, digits or spaces and the last one, if
any, resp. which exists, is an uppercase letter or a digit. -/
theorem run_27_42 (r : List Char) (hr : LineChars r) :
    (lexAccept (r.foldl lexNext 27) = sym_todo_block ↔
      (r.all isTagChar && r.getLast?.all isTagEnd) = true) ∧
    (lexAccept (r.foldl lexNext 42) = sym_todo_block ↔
      (r.all isTagChar && r.getLast?.any isTagEnd) = true) := by
  induction r with
  | nil => exact ⟨by decide, by decide⟩
  | cons c cs ih =>
    have hc := hr c (by simp)
    have ih' := ih (fun d hd => hr d (by simp [hd]))
    obtain ⟨l1, l2⟩ := getLast_cons_test isTagEnd c cs
    have n27 := lexNext_42_27 27 (Or.inr rfl) c hc.1 hc.2
    have n42 := lexNext_42_27 42 (Or.inl rfl) c hc.1 hc.2
    simp only [List.foldl_cons, List.all_cons, l1, l2]
    by_cases hte : isTagEnd c = true
    · have htc : isTagChar c = true := by simp [isTagChar, hte]
      rw [n27.1 hte, n42.1 hte]
      simp only [hte, htc, if_true, Bool.true_and]
      exact ⟨ih'.1, ih'.1⟩
    · have hte' : isTagEnd c = false := by simpa using hte
      by_cases htc : isTagChar c = true
      · rw [n27.2.1 hte' htc, n42.2.1 hte' htc]
        simp only [hte', htc, Bool.false_eq_true, if_false, Bool.true_and]
        exact ⟨ih'.2, ih'.2⟩
      · have htc' : isTagChar c = false := by simpa using htc
        rw [n27.2.2 htc', n42.2.2 htc']
        have hd := run_dead cs 47 (by decide)
        simp [htc', hd]

/-- A run from state 46 ends in the todo state exactly when it has at least
two characters, all uppercase letters, digits or spaces, the last one an
uppercase letter or a digit. -/
theorem run_46 (r : List Char) (hr : LineChars r) :
    lexAccept (r.foldl lexNext 46) = sym_todo_block ↔
      (decide (2 ≤ r.length) && r.all isTagChar && r.getLast?.any isTagEnd) = true := by
  cases r with
  | nil => decide
  | cons c cs =>
    have hc := hr c (by simp)
    have h42 := (run_27_42 cs (fun d hd => hr d (by simp [hd]))).2
    obtain ⟨l1, _⟩ := getLast_cons_test isTagEnd c cs
    have n46 := lexNext_46 c hc.1 hc.2
    simp only [List.foldl_cons, List.all_cons, l1, List.length_cons]
    by_cases htc : isTagChar c = true
    · rw [n46.1 htc, h42]
      simp only [htc, Bool.true_and, Bool.and_eq_true, decide_eq_true_eq]
      constructor
      · rintro ⟨ha, hl⟩
        obtain ⟨hlen, hall⟩ := getLast_any_length isTagEnd cs hl
        refine ⟨⟨by omega, ha⟩, ?_⟩
        split_ifs
        · exact hall
        · exact hl
      · rintro ⟨⟨hlen, ha⟩, hl⟩
        refine ⟨ha, ?_⟩
        cases cs with
        | nil => simp at hlen
        | cons d ds =>
          cases hx : (d :: ds).getLast? with
          | none => simp at hx
          | some x =>
            rw [hx] at hl
            split_ifs at hl <;> simpa using hl
    · have htc' : isTagChar c = false := by simpa using htc
      rw [n46.2 htc']
      have hd := run_dead cs 47 (by decide)
      simp [htc', hd]

/-- A run from state 43 ends in the todo state exactly on a todo line. -/
theorem run_43 (r : List Char) (hr : LineChars r) :
    lexAccept (r.foldl lexNext 43) = sym_todo_block ↔ isTodoLine r = true := by
  induction r with
  | nil => decide
  | cons c cs ih =>
    have hc := hr c (by simp)
    have hcs : LineChars cs := fun d hd => hr d (by simp [hd])
    obtain ⟨nb, nu, nd, _⟩ := lexNext_43 c hc.1 hc.2
    simp only [List.foldl_cons]
    by_cases hb : isBlankChar c = true
    · rw [nb hb, ih hcs]
      simp [isTodoLine, List.dropWhile_cons, hb]
    · have hb' : isBlankChar c = false := by simpa using hb
      by_cases hu : isUpperChar c = true
      · rw [nu hu, run_46 cs hcs]
        simp [isTodoLine, List.dropWhile_cons, hb', hu]
      · have hu' : isUpperChar c = false := by simpa using hu
        have hd := run_dead cs _ (nd hb' hu')
        simp [isTodoLine, List.dropWhile_cons, hb', hu', hd]

/-- A run from state 7 over a line that is not empty ends in the todo state
exactly on a todo line. -/
theorem run_7 (r : List Char) (hr : LineChars r) (hne : r ≠ []) :
    lexAccept (r.foldl lexNext 7) = sym_todo_block ↔ isTodoLine r = true := by
  cases r with
  | nil => exact absurd rfl hne
  | cons c cs =>
    have hc := hr c (by simp)
    have := run_43 (c :: cs) hr
    simp only [List.foldl_cons] at this ⊢
    rw [(lexNext_43 c hc.1 hc.2).2.2.2]
    exact this

/-- The scanned line of a NUL-free input has neither newline nor NUL. -/
theorem scannedLine_chars (input : List Char) (hnul : NulFree input) :
    LineChars (scannedLine input) := by
  intro c hc
  unfold scannedLine at hc
  have h1 := List.mem_takeWhile_imp hc
  have h2 : c ∈ input :=
    List.mem_of_mem_drop ((List.takeWhile_sublist _).subset hc)
  refine ⟨fun h => ?_, toNat_ne_zero (hnul c h2)⟩
  have := (toNat_newline c).1 h
  simp [this] at h1

/-- From state 7, state 8 and the states of `inS7` an `ADVANCE` leads into
state 8 or into `inS7`. -/
theorem s7_closed (s la : Nat) (eof : Bool) (c : LexCase) (s1 : Nat)
    (hs : s = 7 ∨ s = 8 ∨ inS7 s) (h : ts_lex_case s la eof = some c)
    (hn : c.next = .advance s1) : s1 = 8 ∨ inS7 s1 := by
  have key : ∀ s2, c.next = .advance s2 → s2 = 8 ∨ inS7 s2 := by
    rcases hs with rfl | rfl | hs
    · simp only [ts_lex_case, Option.some.injEq] at h
      subst h
      dsimp only
      repeat (
        refine lexAct_ite (fun act => ∀ s2, act = .advance s2 → s2 = 8 ∨ inS7 s2)
          (fun hc => ?_) (fun hn => ?_)
        · intro s2 h2
          first
            | (cases h2; exact (by decide))
            | cases h2)
      intro s2 h2
      cases h2
    · simp only [ts_lex_case, Option.some.injEq] at h
      subst h
      intro s2 h2
      cases h2
    · rcases hs with rfl | rfl | rfl | rfl | rfl | rfl | rfl | rfl | rfl | rfl | rfl | rfl | rfl | rfl <;>
        (simp only [ts_lex_case, Option.some.injEq] at h
         subst h
         dsimp only
         repeat (
           refine lexAct_ite (fun act => ∀ s2, act = .advance s2 → s2 = 8 ∨ inS7 s2)
             (fun hc => ?_) (fun hn => ?_)
           · intro s2 h2
             cases h2
             exact (by decide))
         intro s2 h2
         cases h2)
  exact key s1 hn

/-- A `-` token returned by lex state 7 stops in front of a newline, a NUL or
the end of the input. -/
theorem ts_lex_7_dash_stop (input : List Char) (t : Token) (h : ts_lex 7 input = .token t)
    (hsym : t.sym = anon_sym_DASH) :
    laOf (input.drop t.stop) = 0 ∨ laOf (input.drop t.stop) = 10 := by
  obtain ⟨_, _, _, a, c, hI, hcase, hacc, hnext⟩ :=
    ts_lex_inv (fun s _ => s = 7 ∨ s = 8 ∨ inS7 s)
      (fun s pre ch c s' hI hcase hn => Or.inr (s7_closed s _ _ c s' hI hcase hn))
      (fun s pre c s' hI hcase hn => Or.inr (s7_closed s _ _ c s' hI hcase hn))
      7 input t h (Or.inl rfl)
  rw [hsym] at hacc
  rcases hI with rfl | rfl | hI
  · have := (ts_lex_case_accept 7 _ _ c hcase).1 (Or.inr (Or.inr rfl))
    rw [this] at hacc
    cases hacc
  · simp only [ts_lex_case, Option.some.injEq] at hcase
    subst hcase
    cases hacc
  · have hacc2 := s7_accept a _ _ c hI hcase
    rw [hacc] at hacc2
    by_contra hla
    simp only [not_or] at hla
    obtain ⟨s1, hn, hs1⟩ := s7_advance a _ _ c hI hcase hla.1 hla.2
    rcases hnext with hstop | ⟨s2, hle, hadv⟩
    · rw [hstop] at hn
      cases hn
    · rw [hadv] at hn
      cases hn
      unfold inS7 at hs1
      omega

/-- Lex state 13 in front of a newline, a NUL or the end of the input
returns the empty section-title token. -/
theorem ts_lex_13_line_end (l : List Char) (h : laOf l = 0 ∨ laOf l = 10) :
    ts_lex 13 l = .token ⟨aux_sym_section_token1, 0, 0⟩ := by
  show lexLoop (l.length + 1 + 1) 13 false ⟨l, 0, 0, 0, 0⟩ = _
  rw [lexLoop]
  cases l with
  | nil => simp [ts_lex_case, TSLexer.lookahead, TSLexer.eof, TSLexer.accept_token]
  | cons x xs =>
    simp only [laOf] at h
    rcases h with h | h <;>
      simp [ts_lex_case, TSLexer.lookahead, TSLexer.eof, TSLexer.accept_token, h]

/-- The table `ts_parse_actions` has entries below index 103 only. -/
theorem ts_parse_actions_lt (i : Nat) (e : TSParseActionEntry)
    (h : ts_parse_actions i = some e) : i < 103 := by
  by_contra hge
  obtain ⟨k, rfl⟩ : ∃ k, i = k + 103 := ⟨i - 103, by omega⟩
  simp [ts_parse_actions] at h

/-- Every action the table gives is one of `ts_parse_actions`. -/
theorem tableAction_mem (s y : Nat) (a : TSParseAction) (h : tableAction s y = some a) :
    a ∈ allParseActions := by
  unfold tableAction at h
  cases he : ts_parse_actions (ts_language_lookup s y) with
  | none => rw [he] at h; cases h
  | some e =>
    rw [he] at h
    have hlt := ts_parse_actions_lt _ e he
    unfold allParseActions
    rw [List.mem_flatMap]
    refine ⟨ts_language_lookup s y, List.mem_range.2 hlt, ?_⟩
    rw [he]
    exact List.mem_of_mem_head? h

/-- Every token a lexer state accepts is a terminal. -/
theorem ts_lex_case_sym (state la : Nat) (eof : Bool) (c : LexCase) (sym : Nat)
    (h : ts_lex_case state la eof = some c) (ha : c.accept = some sym) : sym < TOKEN_COUNT := by
  unfold ts_lex_case at h
  split at h <;> cases h <;> cases ha <;> decide

/-- Every token `ts_lex` returns is a terminal. -/
theorem ts_lex_sym_lt (state : Nat) (input : List Char) (t : Token)
    (h : ts_lex state input = .token t) : t.sym < TOKEN_COUNT := by
  obtain ⟨_, _, _, a, c, _, hcase, hacc, _⟩ :=
    ts_lex_inv (fun _ _ => True) (fun _ _ _ _ _ _ _ _ => trivial)
      (fun _ _ _ _ _ _ _ => trivial) state input t h trivial
  exact ts_lex_case_sym a _ _ c t.sym hcase hacc

/-- The stack left by the pop of a reduce is part of the stack before. -/
theorem popChildren_suffix : ∀ (stack : List (Nat × Node)) (n : Nat) (acc cs : List Node)
    (stack1 : List (Nat × Node)), popChildren n stack acc = some (cs, stack1) →
    ∀ e ∈ stack1, e ∈ stack := by
  intro stack
  induction stack with
  | nil =>
    intro n acc cs stack1 h e he
    cases n with
    | zero => simp only [popChildren, Option.some.injEq, Prod.mk.injEq] at h; rw [← h.2] at he; exact he
    | succ k => simp [popChildren] at h
  | cons x xs ih =>
    intro n acc cs stack1 h e he
    cases n with
    | zero => simp only [popChildren, Option.some.injEq, Prod.mk.injEq] at h; rw [← h.2] at he; exact he
    | succ k =>
      obtain ⟨st, nd⟩ := x
      simp only [popChildren] at h
      split_ifs at h
      · exact List.mem_cons_of_mem _ (ih _ _ _ _ h e he)
      · exact List.mem_cons_of_mem _ (ih _ _ _ _ h e he)

/-- The top state of a stack of parse states is a parse state. -/
theorem topState_lt (stack : List (Nat × Node)) (h : ∀ e ∈ stack, e.1 < STATE_COUNT) :
    topState stack < STATE_COUNT := by
  cases stack with
  | nil => decide
  | cons x xs => exact h x (by simp)

/-- The root Accept returns is the node of the stack that is no extra. -/
theorem acceptRoot_symbol (stack : List (Nat × Node)) (root : Node) (S : Nat)
    (h : acceptRoot stack = some root)
    (hex : ∃ e ∈ stack, e.2.isExtra = false ∧ e.2.symbol = S) :
    root.symbol = S ∧ root.isExtra = false := by
  obtain ⟨e, he, hne, hsym⟩ := hex
  have hmem : e.2 ∈ ((stack.map Prod.snd).reverse).filter (fun n => !n.isExtra) := by
    rw [List.mem_filter]
    refine ⟨List.mem_reverse.2 (List.mem_map_of_mem _ he), by simp [hne]⟩
  unfold acceptRoot at h
  simp only at h
  split at h
  · rename_i sym pid cs heq
    rw [heq] at hmem
    simp only [List.mem_singleton] at hmem
    simp only [Option.some.injEq] at h
    rw [← h]
    rw [hmem] at hsym
    exact ⟨hsym, rfl⟩
  · cases h

/-- In `ts_parse_actions` a shift that is no extra leads to a parse state
other than 16, and a reduce builds a non-terminal. -/
theorem table_shift_reduce :
    ∀ a ∈ allParseActions,
      (match a with
        | .shift st ex _ => ex || (decide (st < STATE_COUNT) && decide (st ≠ 16))
        | .reduce sym _ _ _ => decide (TOKEN_COUNT ≤ sym) && decide (sym < SYMBOL_COUNT)
        | _ => true) = true := by decide

/-- The goto of a parse state on a non-terminal is a parse state, and it is
state 16 only from state 1 on source_file. -/
theorem table_goto :
    ∀ s, s < STATE_COUNT → ∀ sym, sym < SYMBOL_COUNT → TOKEN_COUNT ≤ sym →
      ts_language_lookup s sym < STATE_COUNT ∧
      (ts_language_lookup s sym = 16 → s = 1 ∧ sym = sym_source_file) := by decide

/-- The table action is Accept exactly in state 16 on the end of input. -/
theorem table_accept :
    ∀ s, s < STATE_COUNT → ∀ y, y < SYMBOL_COUNT →
      (tableAction s y = some ACCEPT_INPUT ↔ s = 16 ∧ y = ts_builtin_sym_end) := by decide

/-- The automaton keeps `StackInv`, so a root it accepts is a source_file
node. -/
theorem parseLoop_root : ∀ (fuel : Nat) (stack : List (Nat × Node)) (rest : List Char)
    (pos : Nat) (la : Option Token) (root : Node),
    StackInv stack → (∀ t, la = some t → t.sym < TOKEN_COUNT) →
    parseLoop fuel stack rest pos la = .accepted root →
    root.symbol = sym_source_file ∧ root.isExtra = false := by
  intro fuel
  induction fuel with
  | zero => intro stack rest pos la root _ _ h; simp [parseLoop] at h
  | succ f ih =>
    intro stack rest pos la root hinv hla h
    have htop := topState_lt stack hinv.1
    cases la with
    | none =>
      rw [parseLoop] at h
      cases hlex : ts_lex (ts_lex_modes (topState stack)) rest with
      | token t =>
        rw [hlex] at h
        refine ih stack rest pos (some t) root hinv ?_ h
        intro t' ht'
        cases ht'
        exact ts_lex_sym_lt _ _ _ hlex
      | noToken => rw [hlex] at h; cases h
      | outOfFuel => rw [hlex] at h; cases h
    | some t =>
      have hsym : t.sym < SYMBOL_COUNT :=
        Nat.lt_of_lt_of_le (hla t rfl) (by decide)
      rw [parseLoop] at h
      cases hact : tableAction (topState stack) t.sym with
      | none => rw [hact] at h; cases h
      | some a =>
        rw [hact] at h
        have hmem := tableAction_mem _ _ _ hact
        have htab := table_shift_reduce a hmem
        cases a with
        | recover => cases h
        | accept =>
          simp only at h
          have h16 := ((table_accept _ htop _ hsym).1 hact).1
          cases hroot : acceptRoot stack with
          | none => rw [hroot] at h; cases h
          | some r =>
            rw [hroot] at h
            cases h
            exact acceptRoot_symbol stack _ _ hroot (hinv.2 h16)
        | shift st ex rep =>
          simp only at h
          refine ih _ _ _ none root ?_ (fun t' ht' => by cases ht') h
          cases ex with
          | true =>
            refine ⟨?_, ?_⟩
            · intro e he
              rcases List.mem_cons.1 he with rfl | he
              · exact htop
              · exact hinv.1 e he
            · intro h16
              obtain ⟨e, he, h1, h2⟩ := hinv.2 (by simpa [topState] using h16)
              exact ⟨e, List.mem_cons_of_mem _ he, h1, h2⟩
          | false =>
            simp only [Bool.false_or, Bool.and_eq_true, decide_eq_true_eq] at htab
            refine ⟨?_, ?_⟩
            · intro e he
              rcases List.mem_cons.1 he with rfl | he
              · exact htab.1
              · exact hinv.1 e he
            · intro h16
              exact absurd (by simpa [topState] using h16) htab.2
        | reduce sym n d p =>
          simp only at h
          simp only [Bool.and_eq_true, decide_eq_true_eq] at htab
          cases hpop : popChildren n stack [] with
          | none => rw [hpop] at h; cases h
          | some res =>
            obtain ⟨cs, stack1⟩ := res
            rw [hpop] at h
            simp only at h
            have hsub := popChildren_suffix stack n [] cs stack1 hpop
            have hs1 : ∀ e ∈ stack1, e.1 < STATE_COUNT := fun e he => hinv.1 e (hsub e he)
            have hgoto := table_goto _ (topState_lt stack1 hs1) sym htab.2 htab.1
            refine ih _ _ _ (some t) root ?_ hla h
            refine ⟨?_, ?_⟩
            · intro e he
              rcases List.mem_cons.1 he with rfl | he
              · exact hgoto.1
              · exact hs1 e he
            · intro h16
              have := (hgoto.2 (by simpa [topState] using h16)).2
              exact ⟨_, List.mem_cons_self _ _, rfl, this⟩

/-- The states 18 (behind a `+`) and 47 (inside a statement) advance into
state 47 only, and accept the `+` token, resp. the statement token. -/
theorem plus_states (s la : Nat) (eof : Bool) (c : LexCase) (hs : s = 18 ∨ s = 47)
    (h : ts_lex_case s la eof = some c) :
    (∀ s1, c.next = .advance s1 → s1 = 18 ∨ s1 = 47) ∧
    (c.accept = some anon_sym_PLUS ∨ c.accept = some sym_statement) := by
  rcases hs with rfl | rfl <;>
    (simp only [ts_lex_case, Option.some.injEq] at h
     subst h
     refine ⟨?_, by simp⟩
     intro s1 hn
     dsimp only at hn
     split_ifs at hn
     cases hn
     exact Or.inr rfl)

/-- Lex state 7 on a line that starts with `+` returns the `+` token or a
statement token, whatever follows. -/
theorem ts_lex_7_plus_sym (rest : List Char) (t : Token)
    (h : ts_lex 7 ('+' :: rest) = .token t) :
    t.sym = anon_sym_PLUS ∨ t.sym = sym_statement := by
  have hstep : ts_lex 7 ('+' :: rest) = lexLoop (rest.length + 2) 18 false ⟨rest, 1, 0, 0, 0⟩ := by
    show lexLoop (rest.length + 2 + 1) 7 false ⟨'+' :: rest, 0, 0, 0, 0⟩ = _
    rw [lexLoop]
    simp [ts_lex_case, TSLexer.lookahead, TSLexer.eof, TSLexer.advance]
  rw [hstep] at h
  obtain ⟨_, _, _, _, a, c, hI, hcase, hacc, _⟩ :=
    lexLoop_inv (fun s _ => s = 18 ∨ s = 47)
      (fun s pre ch c s' hI hcase hn => (plus_states s _ _ c hI hcase).1 s' hn)
      (fun s pre c s' hI hcase hn => (plus_states s _ _ c hI hcase).1 s' hn)
      (rest.length + 2) 18 false ['+'] rest 1 0 0 0 t h (Or.inl rfl) rfl
      (fun hs => by omega) (fun hr => by cases hr)
  rcases (plus_states a _ _ c hI hcase).2 with h1 | h1 <;>
    (rw [h1] at hacc
     simp only [Option.some.injEq] at hacc)
  · exact Or.inl hacc.symm
  · exact Or.inr hacc.symm

/-! ## Parses used in the examples -/

/-- The parse of ":: context ::\nstatement one\n". -/
theorem parse_colon_line :
    parse ":: context ::\nstatement one\n".toList =
      .accepted (.inner sym_source_file 0 [.inner aux_sym_source_file_repeat1 0 [.leaf
        sym_statement 0 13 false, .leaf sym_statement 14 27 false]]) := by
  rfl

/-- The parse of "::\ncontext\n::\nstatement one\n". -/
theorem parse_context_block :
    parse "::\ncontext\n::\nstatement one\n".toList =
      .accepted (.inner sym_source_file 0 [.inner aux_sym_source_file_repeat1 0 [.inner
        sym_context_block 5 [.leaf anon_sym_COLON_COLON 0 2 false, .leaf
        aux_sym_context_block_token1 2 10 false, .leaf anon_sym_COLON_COLON 11 13 false],
        .leaf sym_statement 14 27 false]]) := by
  rfl

/-- The parse of "(unterminated\nnext line\n". -/
theorem parse_unterminated :
    parse "(unterminated\nnext line\n".toList =
      .accepted (.inner sym_source_file 0 [.inner aux_sym_source_file_repeat1 0 [.leaf
        sym_statement 0 13 false, .leaf sym_statement 14 23 false]]) := by
  rfl

/-- The parse of "@\nfoo\n". -/
theorem parse_alias :
    parse "@\nfoo\n".toList =
      .accepted (.inner sym_source_file 0 [.inner sym_alias_definition 2 [.leaf anon_sym_AT
        0 1 false, .leaf aux_sym_alias_definition_token1 2 5 false]]) := by
  rfl

/-- The parse of "$\n37\n". -/
theorem parse_number_ref :
    parse "$\n37\n".toList =
      .accepted (.inner sym_source_file 0 [.inner sym_reference_line 4 [.leaf
        anon_sym_DOLLAR 0 1 false, .leaf aux_sym_reference_line_token1 2 4 false]]) := by
  rfl

/-- The parse of "$\nfoo\n". -/
theorem parse_alias_ref :
    parse "$\nfoo\n".toList =
      .accepted (.inner sym_source_file 0 [.inner sym_reference_line 3 [.leaf
        anon_sym_DOLLAR 0 1 false, .leaf aux_sym_alias_definition_token1 2 5 false]]) := by
  rfl

/-- The parse of "\n-\nIntroduction\n". -/
theorem parse_dash_line :
    parse "\n-\nIntroduction\n".toList =
      .accepted (.inner sym_source_file 0 [.inner aux_sym_source_file_repeat1 0 [.inner
        sym_section 1 [.leaf anon_sym_DASH 1 2 false, .leaf aux_sym_section_token1 2 2
        false], .leaf sym_statement 3 15 false]]) := by
  rfl

/-- The parse of "+\n::\nctx\n::\n". -/
theorem parse_plus_context :
    parse "+\n::\nctx\n::\n".toList =
      .accepted (.inner sym_source_file 0 [.inner sym_context_block 7 [.leaf anon_sym_PLUS 0
        1 false, .leaf anon_sym_COLON_COLON 2 4 false, .leaf aux_sym_context_block_token1 4
        8 false, .leaf anon_sym_COLON_COLON 9 11 false]]) := by
  rfl

/-- The parse of "a\nb\nc\nd\ne\n". -/
theorem parse_five_lines :
    parse "a\nb\nc\nd\ne\n".toList =
      .accepted (.inner sym_source_file 0 [.inner aux_sym_source_file_repeat1 0 [.inner
        aux_sym_source_file_repeat1 0 [.inner aux_sym_source_file_repeat1 0 [.inner
        aux_sym_source_file_repeat1 0 [.leaf sym_statement 0 1 false, .leaf sym_statement 2
        3 false], .leaf sym_statement 4 5 false], .leaf sym_statement 6 7 false], .leaf
        sym_statement 8 9 false]]) := by
  rfl

/-- The items of a parse with five lines: the four nested repeat nodes are
all folded away. -/
theorem items_five_lines :
    (parse "a\nb\nc\nd\ne\n".toList).items = some (sym_source_file,
      [.leaf sym_statement 0 1 false, .leaf sym_statement 2 3 false,
       .leaf sym_statement 4 5 false, .leaf sym_statement 6 7 false,
       .leaf sym_statement 8 9 false]) := by
  rw [parse_five_lines]
  rfl

/-! ## Leading punctuation in the top-level lex state -/

/-- C1: in the top-level lex state 7, on NUL-free input that begins with a
leading punctuation `p` (one of `-`, `+`, `@`, `$`, `(`, `::`), `ts_lex`
returns the bare token of `p`, covering just `p`, exactly when `p` is
followed at once by a newline or by the end of input; otherwise it returns
one statement token from `p` to the next newline or the end of input. -/
theorem ts_lex_leading_punct (p : List Char) (sym : Nat) (rest : List Char)
    (hp : (p, sym) ∈ leadingPunct) (hnul : NulFree rest) :
    (ts_lex 7 (p ++ rest) = .token ⟨sym, 0, p.length⟩ ↔ AtLineEnd rest) ∧
    (¬ AtLineEnd rest →
      ts_lex 7 (p ++ rest) = .token ⟨sym_statement, 0, lineEnd (p ++ rest)⟩) := by
  have key := ts_lex_7_punct p sym rest hp hnul
  rw [key]
  by_cases h : AtLineEnd rest
  · simp [h]
  · simp only [h, if_false, not_false_eq_true, forall_true_left, and_true, iff_false]
    intro hcontra
    injection hcontra with ht
    injection ht with hsym
    simp only [leadingPunct, List.mem_cons, Prod.mk.injEq, List.mem_singleton,
      List.not_mem_nil, or_false] at hp
    rcases hp with ⟨_, rfl⟩ | ⟨_, rfl⟩ | ⟨_, rfl⟩ | ⟨_, rfl⟩ | ⟨_, rfl⟩ | ⟨_, rfl⟩ <;>
      simp at hsym

/-- Witness for C1: `::` followed by text is one statement token, `::` before
a newline is the bare token. -/
theorem ts_lex_leading_punct_witness :
    ((ts_lex 7 ([':', ':'] ++ " context ::\n".toList) = .token ⟨anon_sym_COLON_COLON, 0, 2⟩ ↔
        AtLineEnd " context ::\n".toList) ∧
      (¬ AtLineEnd " context ::\n".toList →
        ts_lex 7 ([':', ':'] ++ " context ::\n".toList) =
          .token ⟨sym_statement, 0, lineEnd ([':', ':'] ++ " context ::\n".toList)⟩)) ∧
    ¬ AtLineEnd " context ::\n".toList ∧
    lineEnd ([':', ':'] ++ " context ::\n".toList) = 13 :=
  ⟨ts_lex_leading_punct [':', ':'] anon_sym_COLON_COLON " context ::\n".toList
      (by decide) (by decide),
    by decide, by decide⟩


/-! ## The examples of the construct mapping -/

/-- C2: on "- Introduction\n" the top-level lex state returns the whole line
as one statement token, so the parse is a source_file with a single
statement node and no section. The section path exists in the tables (shift
of `-` into state 12, a title token in lex state 13, the reduce to section
with the field title on child 1) but this input never enters it; lex state
0, which has no statement token, returns the bare `-` on the same input. -/
theorem parse_dash_introduction :
    ts_lex (ts_lex_modes 1) "- Introduction\n".toList = .token ⟨sym_statement, 0, 14⟩ ∧
    parse "- Introduction\n".toList =
      .accepted (.inner sym_source_file 0 [.leaf sym_statement 0 14 false]) ∧
    tableAction 1 anon_sym_DASH = some (SHIFT 12) ∧
    ts_lex_modes 12 = 13 ∧
    ts_lex 13 " Introduction\n".toList = .token ⟨aux_sym_section_token1, 0, 13⟩ ∧
    tableAction 12 aux_sym_section_token1 = some (SHIFT 5) ∧
    tableAction 5 ts_builtin_sym_end = some (REDUCE sym_section 2 0 1) ∧
    fieldMap 1 = [⟨field_title, 1⟩] ∧
    ts_lex 0 "- Introduction\n".toList = .token ⟨anon_sym_DASH, 0, 1⟩ :=
  ⟨by decide, by rfl, by decide, by decide, by decide, by decide, by decide, by decide,
    by decide⟩

/-- C3: on "$3 backref text\n" and on "$Foo backref text\n" the top-level lex
state returns the whole line as one statement token, so each parse is a
source_file with a single statement node and no reference_line. The
reference path exists in the tables (shift of `$` into state 11, a digit run
or an identifier in lex state 2, the reduces to reference_line with the
field number_ref, resp. alias_ref, on child 1) but these inputs never enter
it; lex state 0, which has no statement token, returns the bare `$` on the
same inputs. -/
theorem parse_dollar_reference :
    ts_lex (ts_lex_modes 1) "$3 backref text\n".toList = .token ⟨sym_statement, 0, 15⟩ ∧
    parse "$3 backref text\n".toList =
      .accepted (.inner sym_source_file 0 [.leaf sym_statement 0 15 false]) ∧
    ts_lex (ts_lex_modes 1) "$Foo backref text\n".toList = .token ⟨sym_statement, 0, 17⟩ ∧
    parse "$Foo backref text\n".toList =
      .accepted (.inner sym_source_file 0 [.leaf sym_statement 0 17 false]) ∧
    tableAction 1 anon_sym_DOLLAR = some (SHIFT 11) ∧
    ts_lex_modes 11 = 2 ∧
    ts_lex 2 "3 backref text\n".toList = .token ⟨aux_sym_reference_line_token1, 0, 1⟩ ∧
    ts_lex 2 "Foo backref text\n".toList = .token ⟨aux_sym_alias_definition_token1, 0, 3⟩ ∧
    tableAction 11 aux_sym_reference_line_token1 = some (SHIFT 4) ∧
    tableAction 11 aux_sym_alias_definition_token1 = some (SHIFT 7) ∧
    tableAction 4 sym_statement = some (REDUCE sym_reference_line 2 0 4) ∧
    tableAction 7 sym_statement = some (REDUCE sym_reference_line 2 0 3) ∧
    fieldMap 4 = [⟨field_number_ref, 1⟩] ∧
    fieldMap 3 = [⟨field_alias_ref, 1⟩] ∧
    ts_lex 0 "$3 backref text\n".toList = .token ⟨anon_sym_DOLLAR, 0, 1⟩ ∧
    ts_lex 0 "$Foo backref text\n".toList = .token ⟨anon_sym_DOLLAR, 0, 1⟩ :=
  ⟨by decide, by rfl, by decide, by rfl, by decide, by decide, by decide, by decide,
    by decide, by decide, by decide, by decide, by decide, by decide, by decide, by decide⟩

/-- C4, the claim refuted: the parse of ":: context ::\nstatement one\n" has
two statement items and no context_block, and the productions of the reduce
actions that build a context_block (5 and 7) have no entry for the field
title. -/
theorem context_block_title_counterexample :
    (parse ":: context ::\nstatement one\n".toList).items =
      some (sym_source_file, [.leaf sym_statement 0 13 false, .leaf sym_statement 14 27 false]) ∧
    reductionsOf sym_context_block = [(3, 5), (4, 7)] ∧
    ¬ (∃ e ∈ fieldMap 5 ++ fieldMap 7, e.field_id = field_title) :=
  ⟨(by rw [parse_colon_line]; rfl), by decide, by decide⟩

/-- C4 as amended: the text of a context block is exposed under the field
content, not title. The reduce actions that build a context_block are the
3-child form `::` text `::` (production 5, reduced in parse state 8), which
maps content to child 1, and the 4-child form (production 7, reduced in
parse state 10), which maps content to child 2 and prefix to child 0; the
parse tables reach state 10 only by shifting a leading `-` (state 12) or a
leading `+` (state 20), then `::` (state 17), the text (state 21) and the
closing `::`, and no goto leads into one of these states. Parsing "::\ncontext\n::\nstatement one\n" gives a
context_block whose content field is the text token, and whose title field
is empty, followed by a statement node with the text "statement one";
parsing "+\n::\nctx\n::\n" gives the 4-child form, whose prefix field is the
`+` and whose content field is the text token. -/
theorem context_block_content_field :
    reductionsOf sym_context_block = [(3, 5), (4, 7)] ∧
    fieldMap 5 = [⟨field_content, 1⟩] ∧
    fieldMap 7 = [⟨field_content, 2⟩, ⟨ field_prefix, 0⟩] ∧
    (parse "::\ncontext\n::\nstatement one\n".toList).items =
      some (sym_source_file,
        [.inner sym_context_block 5
            [.leaf anon_sym_COLON_COLON 0 2 false,
             .leaf aux_sym_context_block_token1 2 10 false,
             .leaf anon_sym_COLON_COLON 11 13 false],
         .leaf sym_statement 14 27 false]) ∧
    Node.field (.inner sym_context_block 5
        [.leaf anon_sym_COLON_COLON 0 2 false,
         .leaf aux_sym_context_block_token1 2 10 false,
         .leaf anon_sym_COLON_COLON 11 13 false]) field_content =
      [.leaf aux_sym_context_block_token1 2 10 false] ∧
    Node.field (.inner sym_context_block 5
        [.leaf anon_sym_COLON_COLON 0 2 false,
         .leaf aux_sym_context_block_token1 2 10 false,
         .leaf anon_sym_COLON_COLON 11 13 false]) field_title = [] ∧
    Node.text "::\ncontext\n::\nstatement one\n".toList
        (.leaf aux_sym_context_block_token1 2 10 false) = "\ncontext".toList ∧
    Node.text "::\ncontext\n::\nstatement one\n".toList
        (.leaf sym_statement 14 27 false) = "statement one".toList ∧
    (∀ s, s < STATE_COUNT → ∀ y, y < SYMBOL_COUNT →
      (tableAction s y = some (REDUCE sym_context_block 3 0 5) → s = 8) ∧
      (tableAction s y = some (SHIFT 8) ↔ s = 18 ∧ y = anon_sym_COLON_COLON) ∧
      (tableAction s y = some (SHIFT 18) ↔ s = 13 ∧ y = aux_sym_context_block_token1) ∧
      (tableAction s y = some (SHIFT 13) ↔ (s = 1 ∨ s = 2) ∧ y = anon_sym_COLON_COLON)) ∧
    (∀ s, s < STATE_COUNT → ∀ y, y < SYMBOL_COUNT →
      (tableAction s y = some (REDUCE sym_context_block 4 0 7) → s = 10) ∧
      (tableAction s y = some (SHIFT 10) ↔ s = 21 ∧ y = anon_sym_COLON_COLON) ∧
      (tableAction s y = some (SHIFT 21) ↔ s = 17 ∧ y = aux_sym_context_block_token1) ∧
      (tableAction s y = some (SHIFT 17) ↔ (s = 12 ∨ s = 20) ∧ y = anon_sym_COLON_COLON) ∧
      (tableAction s y = some (SHIFT 12) ↔ (s = 1 ∨ s = 2) ∧ y = anon_sym_DASH) ∧
      (tableAction s y = some (SHIFT 20) ↔ (s = 1 ∨ s = 2) ∧ y = anon_sym_PLUS)) ∧
    (∀ s, s < STATE_COUNT → ∀ sym, sym < SYMBOL_COUNT → TOKEN_COUNT ≤ sym →
      ts_language_lookup s sym ∈ [0, 2, 3, 16]) ∧
    (∀ la ∈ [ts_builtin_sym_end, anon_sym_DASH, anon_sym_PLUS, anon_sym_COLON_COLON,
        sym_todo_block, anon_sym_AT, anon_sym_DOLLAR, anon_sym_LPAREN, sym_statement],
      tableAction 8 la = some (REDUCE sym_context_block 3 0 5) ∧
      tableAction 10 la = some (REDUCE sym_context_block 4 0 7)) ∧
    (parse "+\n::\nctx\n::\n".toList).items =
      some (sym_source_file,
        [.inner sym_context_block 7
            [.leaf anon_sym_PLUS 0 1 false,
             .leaf anon_sym_COLON_COLON 2 4 false,
             .leaf aux_sym_context_block_token1 4 8 false,
             .leaf anon_sym_COLON_COLON 9 11 false]]) ∧
    Node.field (.inner sym_context_block 7
        [.leaf anon_sym_PLUS 0 1 false,
         .leaf anon_sym_COLON_COLON 2 4 false,
         .leaf aux_sym_context_block_token1 4 8 false,
         .leaf anon_sym_COLON_COLON 9 11 false]) field_prefix =
      [.leaf anon_sym_PLUS 0 1 false] ∧
    Node.field (.inner sym_context_block 7
        [.leaf anon_sym_PLUS 0 1 false,
         .leaf anon_sym_COLON_COLON 2 4 false,
         .leaf aux_sym_context_block_token1 4 8 false,
         .leaf anon_sym_COLON_COLON 9 11 false]) field_content =
      [.leaf aux_sym_context_block_token1 4 8 false] ∧
    Node.text "+\n::\nctx\n::\n".toList
        (.leaf aux_sym_context_block_token1 4 8 false) = "\nctx".toList := by
  have r8 : ∀ s, s < STATE_COUNT → ∀ y, y < SYMBOL_COUNT →
      (tableAction s y = some (REDUCE sym_context_block 3 0 5) → s = 8) := by decide
  have s8 : ∀ s, s < STATE_COUNT → ∀ y, y < SYMBOL_COUNT →
      (tableAction s y = some (SHIFT 8) ↔ s = 18 ∧ y = anon_sym_COLON_COLON) := by decide
  have s18 : ∀ s, s < STATE_COUNT → ∀ y, y < SYMBOL_COUNT →
      (tableAction s y = some (SHIFT 18) ↔ s = 13 ∧ y = aux_sym_context_block_token1) := by
    decide
  have s13 : ∀ s, s < STATE_COUNT → ∀ y, y < SYMBOL_COUNT →
      (tableAction s y = some (SHIFT 13) ↔ (s = 1 ∨ s = 2) ∧ y = anon_sym_COLON_COLON) := by
    decide
  have r10 : ∀ s, s < STATE_COUNT → ∀ y, y < SYMBOL_COUNT →
      (tableAction s y = some (REDUCE sym_context_block 4 0 7) → s = 10) := by decide
  have s10 : ∀ s, s < STATE_COUNT → ∀ y, y < SYMBOL_COUNT →
      (tableAction s y = some (SHIFT 10) ↔ s = 21 ∧ y = anon_sym_COLON_COLON) := by decide
  have s21 : ∀ s, s < STATE_COUNT → ∀ y, y < SYMBOL_COUNT →
      (tableAction s y = some (SHIFT 21) ↔ s = 17 ∧ y = aux_sym_context_block_token1) := by
    decide
  have s17 : ∀ s, s < STATE_COUNT → ∀ y, y < SYMBOL_COUNT →
      (tableAction s y = some (SHIFT 17) ↔ (s = 12 ∨ s = 20) ∧ y = anon_sym_COLON_COLON) := by
    decide
  have s12 : ∀ s, s < STATE_COUNT → ∀ y, y < SYMBOL_COUNT →
      (tableAction s y = some (SHIFT 12) ↔ (s = 1 ∨ s = 2) ∧ y = anon_sym_DASH) := by decide
  have s20 : ∀ s, s < STATE_COUNT → ∀ y, y < SYMBOL_COUNT →
      (tableAction s y = some (SHIFT 20) ↔ (s = 1 ∨ s = 2) ∧ y = anon_sym_PLUS) := by decide
  exact ⟨by decide, by decide, by decide, (by rw [parse_context_block]; rfl), by rfl, by rfl,
    by decide, by decide,
    fun s hs y hy => ⟨r8 s hs y hy, s8 s hs y hy, s18 s hs y hy, s13 s hs y hy⟩,
    fun s hs y hy =>
      ⟨r10 s hs y hy, s10 s hs y hy, s21 s hs y hy, s17 s hs y hy, s12 s hs y hy,
        s20 s hs y hy⟩,
    by decide, by decide, (by rw [parse_plus_context]; rfl), by rfl, by rfl, by decide⟩

/-- C6, the claim refuted: "+TODO FIX BUG\n" is returned as a statement
token, not as a todo_block token. -/
theorem plus_todo_counterexample :
    ts_lex 7 "+TODO FIX BUG\n".toList = .token ⟨sym_statement, 0, 13⟩ ∧
    ¬ (∃ start stop, ts_lex 7 "+TODO FIX BUG\n".toList = .token ⟨sym_todo_block, start, stop⟩) := by
  have h : ts_lex 7 "+TODO FIX BUG\n".toList = .token ⟨sym_statement, 0, 13⟩ := by decide
  refine ⟨h, ?_⟩
  rintro ⟨a, b, hab⟩
  rw [h] at hab
  injection hab with ht
  injection ht with hsym
  exact absurd hsym (by decide)

/-- C6 as amended: in the top-level lex mode a line that starts with `+` is
never returned as a todo_block token: whatever follows the `+`, a returned
token is the `+` token or a statement token. For every NUL-free continuation
of the `+`: when it is neither empty nor starts with a newline, a run of
uppercase words included, the line is returned as one statement token to its
end (witnesses "+TODO FIX BUG\n" and "+just free text\n"); when it is empty
or starts with a newline, the bare `+` token is returned. A NUL right behind
the `+` ends the `+` token as a newline does (witness "+\x00x\n"). The
todo_block token is returned for "TODO FIX BUG\n", the same run of words
without the `+`. -/
theorem plus_line_statement :
    (∀ rest : List Char, NulFree rest → ¬ AtLineEnd rest →
      ts_lex 7 ('+' :: rest) = .token ⟨sym_statement, 0, lineEnd ('+' :: rest)⟩) ∧
    (∀ rest : List Char, NulFree rest → AtLineEnd rest →
      ts_lex 7 ('+' :: rest) = .token ⟨anon_sym_PLUS, 0, 1⟩) ∧
    (∀ (rest : List Char) (t : Token),
      ts_lex 7 ('+' :: rest) = .token t → t.sym = anon_sym_PLUS ∨ t.sym = sym_statement) ∧
    (∀ (rest : List Char) (t : Token),
      ts_lex 7 ('+' :: rest) = .token t → t.sym ≠ sym_todo_block) ∧
    ts_lex 7 "+TODO FIX BUG\n".toList = .token ⟨sym_statement, 0, 13⟩ ∧
    ts_lex 7 "+just free text\n".toList = .token ⟨sym_statement, 0, 15⟩ ∧
    ts_lex 7 "+\x00x\n".toList = .token ⟨anon_sym_PLUS, 0, 1⟩ ∧
    ts_lex 7 "TODO FIX BUG\n".toList = .token ⟨sym_todo_block, 0, 12⟩ := by
  have key : ∀ rest : List Char, NulFree rest →
      ts_lex 7 ('+' :: rest) =
        if AtLineEnd rest then .token ⟨anon_sym_PLUS, 0, 1⟩
        else .token ⟨sym_statement, 0, lineEnd ('+' :: rest)⟩ := by
    intro rest hnul
    simpa using ts_lex_7_punct ['+'] anon_sym_PLUS rest (by decide) hnul
  refine ⟨?_, ?_, ts_lex_7_plus_sym, ?_, by decide, by decide, by decide, by decide⟩
  · intro rest hnul hend
    rw [key rest hnul, if_neg hend]
  · intro rest hnul hend
    rw [key rest hnul, if_pos hend]
  · intro rest t h hsym
    rcases ts_lex_7_plus_sym rest t h with h1 | h1 <;>
      (rw [h1] at hsym
       exact absurd hsym (by decide))

/-- C7: on "(unterminated\nnext line\n" no error action is met: the top-level
lex state returns "(unterminated" as one statement token, then "next line",
and the parse is accepted with these two statement nodes. The relation path
exists in the tables (shift of `(` into state 15, relation text in lex state
4, then state 19, where only `)` and a comment have an action, so the end of
input there is an error) but this input never enters it; lex state 0, which
has no statement token, returns the bare `(` on the same input. -/
theorem parse_unterminated_relation :
    ts_lex (ts_lex_modes 1) "(unterminated\nnext line\n".toList =
      .token ⟨sym_statement, 0, 13⟩ ∧
    parse "(unterminated\nnext line\n".toList =
      .accepted (.inner sym_source_file 0
        [.inner aux_sym_source_file_repeat1 0
          [.leaf sym_statement 0 13 false, .leaf sym_statement 14 23 false]]) ∧
    (parse "(unterminated\nnext line\n".toList).items =
      some (sym_source_file, [.leaf sym_statement 0 13 false, .leaf sym_statement 14 23 false]) ∧
    Node.text "(unterminated\nnext line\n".toList (.leaf sym_statement 0 13 false) =
      "(unterminated".toList ∧
    Node.text "(unterminated\nnext line\n".toList (.leaf sym_statement 14 23 false) =
      "next line".toList ∧
    tableAction 1 anon_sym_LPAREN = some (SHIFT 15) ∧
    ts_lex_modes 15 = 4 ∧
    tableAction 15 aux_sym_relation_line_token1 = some (SHIFT 19) ∧
    tableAction 19 anon_sym_RPAREN = some (SHIFT 9) ∧
    tableAction 19 ts_builtin_sym_end = none ∧
    ts_lex 0 "(unterminated\nnext line\n".toList = .token ⟨anon_sym_LPAREN, 0, 1⟩ :=
  ⟨by decide, by rfl, (by rw [parse_unterminated]; rfl), by decide, by decide, by decide,
    by decide, by decide, by decide, by decide, by decide⟩

/-! ## Empty and blank input -/

/-- C8: for the empty input and for every input made only of newlines
(`n` of them, `n = 0` being the empty input) the parse is an empty
source_file: `ts_lex` in the lex mode of the start state returns the token
for the end of input, state 1 reduces source_file with 0 children on it,
the goto on source_file leads to state 16, and state 16 accepts on the
lookahead for the end of input. -/
theorem parse_blank_input (n : Nat) :
    ts_lex_modes 1 = 7 ∧
    ts_lex 7 (List.replicate n '\n') = .token ⟨ts_builtin_sym_end, n, n⟩ ∧
    tableAction 1 ts_builtin_sym_end = some (REDUCE sym_source_file 0 0 0) ∧
    ts_language_lookup 1 sym_source_file = 16 ∧
    tableAction 16 ts_builtin_sym_end = some ACCEPT_INPUT ∧
    parse (List.replicate n '\n') = .accepted (.inner sym_source_file 0 []) := by
  have hlex : ts_lex 7 (List.replicate n '\n') = .token ⟨ts_builtin_sym_end, n, n⟩ := by
    have := lexLoop_7_newlines n (n + 2) 0 0 0 (by omega)
    simpa [ts_lex] using this
  have h1 : tableAction 1 ts_builtin_sym_end = some (REDUCE sym_source_file 0 0 0) := by decide
  have h2 : ts_language_lookup 1 sym_source_file = 16 := by decide
  have h3 : tableAction 16 ts_builtin_sym_end = some ACCEPT_INPUT := by decide
  refine ⟨by decide, hlex, h1, h2, h3, ?_⟩
  unfold parse
  rw [List.length_replicate]
  show parseLoop (4 * n + 5 + 1 + 1 + 1) [] (List.replicate n '\n') 0 none = _
  rw [parseLoop]
  simp only [topState, ts_lex_modes, hlex]
  rw [parseLoop]
  simp only [topState, h1, popChildren, h2]
  rw [parseLoop]
  simp only [topState, h3]
  rfl

/-! ## Coverage of the input by token ranges -/

/-- C9, the claim refuted: on "a\n" the calls of `ts_lex` in the lex modes of
the parse states 1 and 2 (state 2 is entered by shifting the statement)
return the statement token [0, 1) and the end-of-input token [2, 2); the
parse is accepted, and the newline at position 1 lies in no token range. -/
theorem token_cover_counterexample :
    lexAll [ts_lex_modes 1, ts_lex_modes 2] "a\n".toList 0 =
      some [⟨sym_statement, 0, 1⟩, ⟨ts_builtin_sym_end, 2, 2⟩] ∧
    tableAction 1 sym_statement = some (SHIFT 2) ∧
    parse "a\n".toList = .accepted (.inner sym_source_file 0 [.leaf sym_statement 0 1 false]) ∧
    "a\n".toList.get? 1 = some '\n' ∧
    ¬ (∃ t ∈ [(⟨sym_statement, 0, 1⟩ : Token), ⟨ts_builtin_sym_end, 2, 2⟩],
        t.start ≤ 1 ∧ 1 < t.stop) :=
  ⟨by decide, by decide, by rfl, by decide, by decide⟩

/-- C9 as amended: when every call of `ts_lex` returns a token (each call
starting where the previous token ended, in lex modes the parse states use),
the token ranges lie inside the input, are ordered and do not overlap, so a
character lies in at most one of them (every value of `ts_lex_modes` is such
a lex mode); every character before the end of
the last token lies in a token range or is whitespace (tab, newline, form
feed, carriage return, space) that `ts_lex` skipped in front of a token; and
the end-of-input token ends at the end of the input, so once it is returned
this holds of every character of the input. -/
theorem lexAll_ranges (modes : List Nat) (input : List Char) (toks : List Token)
    (hm : ∀ m ∈ modes, m ∈ lexModes) (h : lexAll modes input 0 = some toks) :
    (∀ state, ts_lex_modes state ∈ lexModes) ∧
    (∀ t ∈ toks, t.start ≤ t.stop ∧ t.stop ≤ input.length) ∧
    toks.Pairwise (fun a b => a.stop ≤ b.start) ∧
    (∀ i, ∀ t1 ∈ toks, ∀ t2 ∈ toks, t1.start ≤ i ∧ i < t1.stop → t2.start ≤ i ∧ i < t2.stop →
      t1 = t2) ∧
    (∀ i c, input.get? i = some c → (∃ t ∈ toks, i < t.stop) →
      (∃ t ∈ toks, t.start ≤ i ∧ i < t.stop) ∨ isSkipped c) ∧
    (∀ t ∈ toks, t.sym = ts_builtin_sym_end → t.stop = input.length) := by
  have hm8 : ∀ m ∈ modes, m ≠ 8 := by
    intro m hmem h8
    have := hm m hmem
    subst h8
    simp [lexModes] at this
  obtain ⟨r1, r2, r3, r4⟩ := lexAll_sound modes input 0 toks hm8 h
  refine ⟨?_, ?_, r2, ?_, ?_, ?_⟩
  · intro state
    unfold ts_lex_modes
    split <;> decide
  · intro t ht
    have := r1 t ht
    omega
  · intro i t1 h1 t2 h2 hi1 hi2
    by_contra hne
    have hsym : Symmetric (fun a b : Token => a.stop ≤ b.start ∨ b.stop ≤ a.start) :=
      fun a b hab => hab.symm
    have hp : toks.Pairwise (fun a b : Token => a.stop ≤ b.start ∨ b.stop ≤ a.start) :=
      r2.imp (fun hab => Or.inl hab)
    rcases hp.forall hsym h1 h2 hne with hc | hc <;> omega
  · intro i c hi hex
    have := r3 i c hi (by simpa using hex)
    simpa using this
  · intro t ht hz
    have := r4 t ht hz
    omega

/-- Witness for C9: the two calls on "a\n". -/
theorem lexAll_ranges_witness :
    (∀ state, ts_lex_modes state ∈ lexModes) ∧
    (∀ t ∈ [(⟨sym_statement, 0, 1⟩ : Token), ⟨ts_builtin_sym_end, 2, 2⟩],
      t.start ≤ t.stop ∧ t.stop ≤ "a\n".toList.length) ∧
    [(⟨sym_statement, 0, 1⟩ : Token), ⟨ts_builtin_sym_end, 2, 2⟩].Pairwise
      (fun a b => a.stop ≤ b.start) ∧
    (∀ i, ∀ t1 ∈ [(⟨sym_statement, 0, 1⟩ : Token), ⟨ts_builtin_sym_end, 2, 2⟩],
      ∀ t2 ∈ [(⟨sym_statement, 0, 1⟩ : Token), ⟨ts_builtin_sym_end, 2, 2⟩],
      t1.start ≤ i ∧ i < t1.stop → t2.start ≤ i ∧ i < t2.stop → t1 = t2) ∧
    (∀ i c, "a\n".toList.get? i = some c →
      (∃ t ∈ [(⟨sym_statement, 0, 1⟩ : Token), ⟨ts_builtin_sym_end, 2, 2⟩], i < t.stop) →
      (∃ t ∈ [(⟨sym_statement, 0, 1⟩ : Token), ⟨ts_builtin_sym_end, 2, 2⟩],
        t.start ≤ i ∧ i < t.stop) ∨ isSkipped c) ∧
    (∀ t ∈ [(⟨sym_statement, 0, 1⟩ : Token), ⟨ts_builtin_sym_end, 2, 2⟩],
      t.sym = ts_builtin_sym_end → t.stop = "a\n".toList.length) :=
  lexAll_ranges [7, 7] "a\n".toList [⟨sym_statement, 0, 1⟩, ⟨ts_builtin_sym_end, 2, 2⟩]
    (by decide) (by decide)

/-! ## Comments at the start of a token -/

/-- C10, the claim refuted: in the relation-content lex state 4 the input
"#x\n" (NUL-free, beginning with `#`) is returned as a relation text token
that covers the newline too, not as a comment token ending at the newline
at position 2. -/
theorem comment_state4_counterexample :
    NulFree "#x\n".toList ∧
    ts_lex 4 "#x\n".toList = .token ⟨aux_sym_relation_line_token1, 0, 3⟩ ∧
    lineEnd "#x\n".toList = 2 ∧
    ts_lex 4 "#x\n".toList ≠ .token ⟨sym_comment, 0, lineEnd "#x\n".toList⟩ :=
  ⟨by decide, by decide, by decide, by decide⟩

/-- C10 as amended: for the lex start states 0, 2, 3, 7 and 13 and every
NUL-free input that begins with `#` or with `//`, `ts_lex` returns a comment
token that ends exactly at the first newline or at the end of input. In the
relation-content state 4 the same holds when the text behind the opener has
a `)` before its first newline or has no newline; otherwise state 4 returns
a relation text token that runs on past the first newline. -/
theorem ts_lex_comment (opener rest : List Char) (ho : opener ∈ commentOpeners)
    (hnul : NulFree rest) :
    (∀ s ∈ [0, 2, 3, 7, 13],
      ts_lex s (opener ++ rest) = .token ⟨sym_comment, 0, lineEnd (opener ++ rest)⟩) ∧
    (ClosesBeforeNewline rest →
      ts_lex 4 (opener ++ rest) = .token ⟨sym_comment, 0, lineEnd (opener ++ rest)⟩) ∧
    (¬ ClosesBeforeNewline rest →
      ∃ stop, ts_lex 4 (opener ++ rest) = .token ⟨aux_sym_relation_line_token1, 0, stop⟩ ∧
        lineEnd (opener ++ rest) < stop) := by
  have h10 : ∀ (result : Bool) (pos te rs : Nat),
      lexLoop (rest.length + 2) 10 result ⟨rest, pos, 0, te, rs⟩ =
        .token ⟨sym_comment, 0, pos + lineEnd rest⟩ :=
    fun result pos te rs => lexLoop_10 rest hnul (rest.length + 2) result pos 0 te rs (by omega)
  have h9 := fun (result : Bool) (pos te rs : Nat) =>
    lexLoop_9 rest hnul (rest.length + 2) result pos 0 te rs (by omega)
  simp only [commentOpeners, List.mem_cons, List.mem_singleton, List.not_mem_nil, or_false]
    at ho
  rcases ho with rfl | rfl
  · have hl : lineEnd (['#'] ++ rest) = 1 + lineEnd rest := by
      simp [lineEnd_cons_of_ne, Nat.add_comm]
    rw [hl]
    refine ⟨?_, ?_, ?_⟩
    · intro s hs
      simp only [List.mem_cons, List.mem_singleton, List.not_mem_nil, or_false] at hs
      rcases hs with rfl | rfl | rfl | rfl | rfl <;>
      · show lexLoop (rest.length + 2 + 1) _ false ⟨'#' :: rest, 0, 0, 0, 0⟩ = _
        rw [lexLoop]
        simp [ts_lex_case, TSLexer.lookahead, TSLexer.eof, TSLexer.advance,
          TSLexer.accept_token, h10]
    · intro hc
      show lexLoop (rest.length + 2 + 1) 4 false ⟨'#' :: rest, 0, 0, 0, 0⟩ = _
      rw [lexLoop]
      simp [ts_lex_case, TSLexer.lookahead, TSLexer.eof, TSLexer.advance,
        TSLexer.accept_token, (h9 false 1 0 0).1 hc]
    · intro hc
      obtain ⟨stop, hs1, hs2⟩ := (h9 false 1 0 0).2 hc
      refine ⟨stop, ?_, hs2⟩
      show lexLoop (rest.length + 2 + 1) 4 false ⟨'#' :: rest, 0, 0, 0, 0⟩ = _
      rw [lexLoop]
      simp [ts_lex_case, TSLexer.lookahead, TSLexer.eof, TSLexer.advance,
        TSLexer.accept_token, hs1]
  · have hl : lineEnd (['/', '/'] ++ rest) = 2 + lineEnd rest := by
      simp [lineEnd_cons_of_ne]
      omega
    rw [hl]
    refine ⟨?_, ?_, ?_⟩
    · intro s hs
      simp only [List.mem_cons, List.mem_singleton, List.not_mem_nil, or_false] at hs
      rcases hs with rfl | rfl | rfl | rfl | rfl <;>
      · show lexLoop (rest.length + 2 + 1 + 1) _ false ⟨'/' :: '/' :: rest, 0, 0, 0, 0⟩ = _
        rw [lexLoop]
        simp only [ts_lex_case, TSLexer.lookahead, TSLexer.eof, TSLexer.advance,
          TSLexer.accept_token]
        simp only [Char.reduceToNat, Nat.reduceEqDiff, List.isEmpty_cons, Bool.false_eq_true,
          if_false, if_true, OfNat.ofNat_ne_zero, Nat.reduceLeDiff, false_or, or_false,
          false_and, and_false, Nat.reduceAdd, reduceCtorEq, Bool.or_self, Option.isSome_none,
          Option.isSome_some, Bool.or_true, Bool.false_or, ne_eq, not_false_eq_true, and_self,
          and_true, true_and, not_true_eq_false, OfNat.ofNat_ne_one, zero_add]
        rw [lexLoop]
        simp [ts_lex_case, TSLexer.lookahead, TSLexer.eof, TSLexer.advance,
          TSLexer.accept_token, h10]
    · intro hc
      show lexLoop (rest.length + 2 + 1 + 1) 4 false ⟨'/' :: '/' :: rest, 0, 0, 0, 0⟩ = _
      rw [lexLoop]
      simp only [ts_lex_case, TSLexer.lookahead, TSLexer.eof, TSLexer.advance,
        TSLexer.accept_token]
      simp only [Char.reduceToNat, Nat.reduceEqDiff, List.isEmpty_cons, Bool.false_eq_true,
        if_false, if_true, OfNat.ofNat_ne_zero, Nat.reduceLeDiff, false_or, or_false,
        false_and, and_false, Nat.reduceAdd, reduceCtorEq, Bool.or_self, Option.isSome_none,
        Option.isSome_some, Bool.or_true, Bool.false_or, ne_eq, not_false_eq_true, and_self,
        and_true, true_and, not_true_eq_false, OfNat.ofNat_ne_one, zero_add]
      rw [lexLoop]
      simp [ts_lex_case, TSLexer.lookahead, TSLexer.eof, TSLexer.advance,
        TSLexer.accept_token, (h9 true 2 1 aux_sym_relation_line_token1).1 hc]
    · intro hc
      obtain ⟨stop, hs1, hs2⟩ := (h9 true 2 1 aux_sym_relation_line_token1).2 hc
      refine ⟨stop, ?_, hs2⟩
      show lexLoop (rest.length + 2 + 1 + 1) 4 false ⟨'/' :: '/' :: rest, 0, 0, 0, 0⟩ = _
      rw [lexLoop]
      simp only [ts_lex_case, TSLexer.lookahead, TSLexer.eof, TSLexer.advance,
        TSLexer.accept_token]
      simp only [Char.reduceToNat, Nat.reduceEqDiff, List.isEmpty_cons, Bool.false_eq_true,
        if_false, if_true, OfNat.ofNat_ne_zero, Nat.reduceLeDiff, false_or, or_false,
        false_and, and_false, Nat.reduceAdd, reduceCtorEq, Bool.or_self, Option.isSome_none,
        Option.isSome_some, Bool.or_true, Bool.false_or, ne_eq, not_false_eq_true, and_self,
        and_true, true_and, not_true_eq_false, OfNat.ofNat_ne_one, zero_add]
      rw [lexLoop]
      simp [ts_lex_case, TSLexer.lookahead, TSLexer.eof, TSLexer.advance,
        TSLexer.accept_token, hs1]

/-- Witness for C10: "#x\n" in the five states, and in state 4, where the
newline comes first and the relation text token runs past it. -/
theorem ts_lex_comment_witness :
    ((∀ s ∈ [0, 2, 3, 7, 13],
        ts_lex s (['#'] ++ "x\n".toList) =
          .token ⟨sym_comment, 0, lineEnd (['#'] ++ "x\n".toList)⟩) ∧
      (ClosesBeforeNewline "x\n".toList →
        ts_lex 4 (['#'] ++ "x\n".toList) =
          .token ⟨sym_comment, 0, lineEnd (['#'] ++ "x\n".toList)⟩) ∧
      (¬ ClosesBeforeNewline "x\n".toList →
        ∃ stop, ts_lex 4 (['#'] ++ "x\n".toList) =
            .token ⟨aux_sym_relation_line_token1, 0, stop⟩ ∧
          lineEnd (['#'] ++ "x\n".toList) < stop)) ∧
    ¬ ClosesBeforeNewline "x\n".toList ∧ lineEnd (['#'] ++ "x\n".toList) = 2 :=
  ⟨ts_lex_comment ['#'] "x\n".toList (by decide) (by decide), by decide, by decide⟩

/-! ## Comment tokens and lines -/

/-- C11, the claim refuted: in the context-title state 3 (the lex mode of
parse state 13, entered by shifting `::`) and in the relation-content state 4
the input "\n#x" is returned as one comment token [0, 3), whose text starts
with the newline. -/
theorem comment_newline_counterexample :
    ts_lex_modes 13 = 3 ∧ 3 ∈ lexModes ∧ 4 ∈ lexModes ∧
    ts_lex 3 "\n#x".toList = .token ⟨sym_comment, 0, 3⟩ ∧
    ts_lex 4 "\n#x".toList = .token ⟨sym_comment, 0, 3⟩ ∧
    '\n' ∈ tokenText "\n#x".toList ⟨sym_comment, 0, 3⟩ :=
  ⟨by decide, by decide, by decide, by decide, by decide, by decide⟩

/-- C11 as amended: whenever `ts_lex` returns a comment token, for the start
states 0, 2, 7 and 13 its text contains no newline; for every start state,
the states 3 and 4 included, which advance over leading whitespace instead
of skipping it, its text is a run of whitespace (newlines among it in states
3 and 4) followed by a body without a newline. -/
theorem comment_token_lines (state : Nat) (input : List Char) (t : Token)
    (h : ts_lex state input = .token t) (hc : t.sym = sym_comment) :
    (state ∈ [0, 2, 7, 13] → '\n' ∉ tokenText input t) ∧
    BlankThenLine (tokenText input t) :=
  ⟨fun hs => token_no_newline state input t hs h, comment_blankThenLine state input t h hc⟩

/-- Witness for C11: the comment token of state 3 on "\n#x" is the newline
followed by the body "#x". -/
theorem comment_token_lines_witness :
    ((3 ∈ [0, 2, 7, 13] → '\n' ∉ tokenText "\n#x".toList ⟨sym_comment, 0, 3⟩) ∧
      BlankThenLine (tokenText "\n#x".toList ⟨sym_comment, 0, 3⟩)) ∧
    tokenText "\n#x".toList ⟨sym_comment, 0, 3⟩ = ['\n'] ++ "#x".toList :=
  ⟨comment_token_lines 3 "\n#x".toList ⟨sym_comment, 0, 3⟩ (by decide) (by decide), by decide⟩

/-! ## Text tokens of the opaque-remainder modes -/

/-- C12, the claim refuted: in each opaque-remainder mode a text token runs
over a comment opener: the section-title token of "a # b\n", the
context-title token of "a // b\n" and the relation text token of "a # b)"
contain the `#`, resp. the `//`. -/
theorem text_token_opener_counterexample :
    ts_lex 13 "a # b\n".toList = .token ⟨aux_sym_section_token1, 0, 5⟩ ∧
    tokenText "a # b\n".toList ⟨aux_sym_section_token1, 0, 5⟩ = "a # b".toList ∧
    ts_lex 3 "a // b\n".toList = .token ⟨aux_sym_context_block_token1, 0, 6⟩ ∧
    tokenText "a // b\n".toList ⟨aux_sym_context_block_token1, 0, 6⟩ = "a // b".toList ∧
    ts_lex 4 "a # b)".toList = .token ⟨aux_sym_relation_line_token1, 0, 5⟩ ∧
    tokenText "a # b)".toList ⟨aux_sym_relation_line_token1, 0, 5⟩ = "a # b".toList :=
  ⟨by decide, by decide, by decide, by decide, by decide, by decide⟩

/-- C12 as amended: in every opaque-remainder mode a text token returned by
`ts_lex` starts where the scan started and stops only at a newline, a NUL or
the end of input (section title, state 13, and context title, state 3),
resp. only at a `)`, a NUL or the end of input (relation content, state 4):
a comment opener does not end it, and `#` and `//` behind the first
character of the text are part of the token. Only where the text would
begin does `#` or `//` give a comment token instead. -/
theorem text_token_end (input : List Char) (t : Token) :
    (ts_lex 13 input = .token t → t.sym = aux_sym_section_token1 →
      t.start = 0 ∧ LineStop input t.stop) ∧
    (ts_lex 3 input = .token t → t.sym = aux_sym_context_block_token1 →
      t.start = 0 ∧ LineStop input t.stop) ∧
    (ts_lex 4 input = .token t → t.sym = aux_sym_relation_line_token1 →
      t.start = 0 ∧ ParenStop input t.stop) ∧
    ts_lex 13 "a # b\n".toList = .token ⟨aux_sym_section_token1, 0, 5⟩ ∧
    ts_lex 3 "a // b\n".toList = .token ⟨aux_sym_context_block_token1, 0, 6⟩ ∧
    ts_lex 4 "a # b)".toList = .token ⟨aux_sym_relation_line_token1, 0, 5⟩ ∧
    ts_lex 13 "# b\n".toList = .token ⟨sym_comment, 0, 3⟩ ∧
    ts_lex 3 "// b\n".toList = .token ⟨sym_comment, 0, 4⟩ :=
  ⟨fun h hs => section_token_stop input t h hs,
    fun h hs => context_token_stop input t h hs,
    fun h hs => ⟨(relation_token_stop input t h hs).1, (relation_token_stop input t h hs).2.1⟩,
    by decide, by decide, by decide, by decide, by decide⟩

/-! ## The terminators `)` and `::` -/

/-- C13: in relation-content mode (state 4), for every NUL-free input, a
returned relation text token starts where the scan started, contains no `)`
and stops right before the first `)` of the input, or at the end of input
when there is none. -/
theorem relation_token_paren (input : List Char) (t : Token) (hnul : NulFree input)
    (h : ts_lex 4 input = .token t) (hsym : t.sym = aux_sym_relation_line_token1) :
    t.start = 0 ∧ t.stop = parenEnd input ∧ ')' ∉ tokenText input t ∧
    ((')' ∉ input ∧ t.stop = input.length) ∨ input.get? t.stop = some ')') := by
  obtain ⟨h0, hstop, hno⟩ := relation_token_stop input t h hsym
  obtain ⟨_, hle, _⟩ := ts_lex_sound 4 input t (by decide) h
  have hat : input.drop t.stop = [] ∨ (input.drop t.stop).head? = some ')' := by
    rcases hstop with h1 | h1 | h1
    · exact Or.inl h1
    · exact Or.inr h1
    · exfalso
      have hmem : '\x00' ∈ input.drop t.stop := by
        cases hd : input.drop t.stop with
        | nil => rw [hd] at h1; simp at h1
        | cons c cs =>
          rw [hd] at h1
          simp only [List.head?_cons, Option.some.injEq] at h1
          simp [h1]
      exact hnul _ (List.mem_of_mem_drop hmem) rfl
  have htext : tokenText input t = input.take t.stop := by
    simp [tokenText, h0]
  rw [htext] at hno
  have hpe := parenEnd_eq input t.stop hle hno hat
  refine ⟨h0, hpe.symm, by rw [htext]; exact hno, ?_⟩
  rcases hat with h1 | h1
  · left
    have hlen : input.length ≤ t.stop := by
      have := congrArg List.length h1
      simp only [List.length_drop, List.length_nil] at this
      omega
    have heq : t.stop = input.length := by omega
    refine ⟨?_, heq⟩
    rw [heq, List.take_length] at hno
    exact hno
  · right
    rw [List.get?_eq_getElem?, ← List.head?_drop]
    exact h1

/-- Witness for C13: the relation text token of "rel)x" stops before the
`)`. -/
theorem relation_token_paren_witness :
    ((0 : Nat) = 0 ∧ (3 : Nat) = parenEnd "rel)x".toList ∧
      ')' ∉ tokenText "rel)x".toList ⟨aux_sym_relation_line_token1, 0, 3⟩ ∧
      ((')' ∉ "rel)x".toList ∧ (3 : Nat) = "rel)x".toList.length) ∨
        "rel)x".toList.get? 3 = some ')')) ∧
    ts_lex 4 "rel)x".toList = .token ⟨aux_sym_relation_line_token1, 0, 3⟩ :=
  ⟨relation_token_paren "rel)x".toList ⟨aux_sym_relation_line_token1, 0, 3⟩
    (by decide) (by decide) rfl, by decide⟩

/-- C14, the claim refuted: in context-title mode (state 3) the token of
"a :: b\n" runs to the newline and contains the `::`. -/
theorem context_token_colon_counterexample :
    ts_lex 3 "a :: b\n".toList = .token ⟨aux_sym_context_block_token1, 0, 6⟩ ∧
    tokenText "a :: b\n".toList ⟨aux_sym_context_block_token1, 0, 6⟩ = "a :: b".toList ∧
    "a :: b".toList = "a ".toList ++ [':', ':'] ++ " b".toList :=
  ⟨by decide, by decide, by decide⟩

/-- C14 as amended: in context-title mode (state 3) `::` is no exit trigger.
A `:` is refused only as the very first character of the scan, where
`ts_lex` returns no token; a returned context-title token starts where the
scan started and stops only at a newline, a NUL or the end of input, so a
`::` on the line being scanned lies inside the token (witness "a :: b\n"). -/
theorem context_token_colon (input : List Char) (t : Token) :
    (∀ rest : List Char, ts_lex 3 (':' :: rest) = .noToken) ∧
    (ts_lex 3 input = .token t → t.sym = aux_sym_context_block_token1 →
      t.start = 0 ∧ LineStop input t.stop) ∧
    ts_lex 3 "a :: b\n".toList = .token ⟨aux_sym_context_block_token1, 0, 6⟩ ∧
    ts_lex 3 " :: b\n".toList = .token ⟨aux_sym_context_block_token1, 0, 5⟩ := by
  refine ⟨?_, fun h hs => context_token_stop input t h hs, by decide, by decide⟩
  intro rest
  show lexLoop (rest.length + 2 + 1) 3 false ⟨':' :: rest, 0, 0, 0, 0⟩ = _
  rw [lexLoop]
  simp [ts_lex_case, TSLexer.lookahead, TSLexer.eof]

/-! ## The name mode after `$` and `@` -/

/-- C15: in the name mode (state 2), behind any run of skipped whitespace,
a first character that is a decimal digit makes `ts_lex` return the
digit-run token, whose text is that digit followed by the maximal run of
decimal digits; a first character that is a letter of `A-Z`, `a-z` or an
underscore makes it return the identifier token, whose text is that
character followed by the maximal run of characters of `[A-Za-z0-9_]`. -/
theorem ts_lex_name (ws rest : List Char) (c : Char) (hws : ∀ d ∈ ws, isSkipped d) :
    (isDigitChar c = true →
      ts_lex 2 (ws ++ c :: rest) = .token ⟨aux_sym_reference_line_token1, ws.length,
        ws.length + 1 + (rest.takeWhile isDigitChar).length⟩ ∧
      tokenText (ws ++ c :: rest) ⟨aux_sym_reference_line_token1, ws.length,
        ws.length + 1 + (rest.takeWhile isDigitChar).length⟩ =
          c :: rest.takeWhile isDigitChar) ∧
    (isIdentStart c = true →
      ts_lex 2 (ws ++ c :: rest) = .token ⟨aux_sym_alias_definition_token1, ws.length,
        ws.length + 1 + (rest.takeWhile isIdentChar).length⟩ ∧
      tokenText (ws ++ c :: rest) ⟨aux_sym_alias_definition_token1, ws.length,
        ws.length + 1 + (rest.takeWhile isIdentChar).length⟩ =
          c :: rest.takeWhile isIdentChar) := by
  have hskip := ts_lex_skip 2 ws (c :: rest) (fun d hd => skip_case_2 d (hws d hd))
  constructor
  · intro hd
    refine ⟨?_, by rw [tokenText_run, take_takeWhile_length]⟩
    rw [hskip]
    have hd' := hd
    simp only [isDigitChar, decide_eq_true_eq, Char.reduceToNat] at hd'
    have h1 : ts_lex 2 (c :: rest) = .token ⟨aux_sym_reference_line_token1, 0,
        0 + 1 + (rest.takeWhile isDigitChar).length⟩ := by
      show lexLoop (rest.length + 2 + 1) 2 false ⟨c :: rest, 0, 0, 0, 0⟩ = _
      rw [lexLoop]
      have n1 : c.toNat ≠ 35 := by omega
      have n2 : c.toNat ≠ 47 := by omega
      have n3 : c.toNat ≠ 9 := by omega
      have n4 : c.toNat ≠ 10 := by omega
      have n5 : c.toNat ≠ 12 := by omega
      have n6 : c.toNat ≠ 13 := by omega
      have n7 : c.toNat ≠ 32 := by omega
      simp [ts_lex_case, TSLexer.lookahead, TSLexer.eof, TSLexer.advance,
        TSLexer.accept_token, n1, n2, n3, n4, n5, n6, n7, hd']
      exact lexLoop_35 rest _ _ _ _ _ _ (by omega)
    rw [h1]
    simp only [LexResult.shift, Token.shift]
    congr 2 <;> omega
  · intro hd
    refine ⟨?_, by rw [tokenText_run, take_takeWhile_length]⟩
    rw [hskip]
    have hd' := hd
    simp only [isIdentStart, decide_eq_true_eq, Char.reduceToNat] at hd'
    have h1 : ts_lex 2 (c :: rest) = .token ⟨aux_sym_alias_definition_token1, 0,
        0 + 1 + (rest.takeWhile isIdentChar).length⟩ := by
      show lexLoop (rest.length + 2 + 1) 2 false ⟨c :: rest, 0, 0, 0, 0⟩ = _
      rw [lexLoop]
      have n1 : c.toNat ≠ 35 := by omega
      have n2 : c.toNat ≠ 47 := by omega
      have n3 : c.toNat ≠ 9 := by omega
      have n4 : c.toNat ≠ 10 := by omega
      have n5 : c.toNat ≠ 12 := by omega
      have n6 : c.toNat ≠ 13 := by omega
      have n7 : c.toNat ≠ 32 := by omega
      have n8 : ¬ (48 ≤ c.toNat ∧ c.toNat ≤ 57) := by omega
      simp [ts_lex_case, TSLexer.lookahead, TSLexer.eof, TSLexer.advance,
        TSLexer.accept_token, n1, n2, n3, n4, n5, n6, n7, n8, hd']
      exact lexLoop_32 rest _ _ _ _ _ _ (by omega)
    rw [h1]
    simp only [LexResult.shift, Token.shift]
    congr 2 <;> omega

/-- Witness for C15: behind a blank and a tab, "42x" gives the digit-run
token of "42" and "ab_1-" the identifier token of "ab_1". -/
theorem ts_lex_name_witness :
    ((isDigitChar '4' = true →
      ts_lex 2 (" \t".toList ++ '4' :: "2x".toList) =
        .token ⟨aux_sym_reference_line_token1, " \t".toList.length,
          " \t".toList.length + 1 + ("2x".toList.takeWhile isDigitChar).length⟩ ∧
      tokenText (" \t".toList ++ '4' :: "2x".toList) ⟨aux_sym_reference_line_token1,
        " \t".toList.length,
        " \t".toList.length + 1 + ("2x".toList.takeWhile isDigitChar).length⟩ =
          '4' :: "2x".toList.takeWhile isDigitChar) ∧
    (isIdentStart '4' = true →
      ts_lex 2 (" \t".toList ++ '4' :: "2x".toList) =
        .token ⟨aux_sym_alias_definition_token1, " \t".toList.length,
          " \t".toList.length + 1 + ("2x".toList.takeWhile isIdentChar).length⟩ ∧
      tokenText (" \t".toList ++ '4' :: "2x".toList) ⟨aux_sym_alias_definition_token1,
        " \t".toList.length,
        " \t".toList.length + 1 + ("2x".toList.takeWhile isIdentChar).length⟩ =
          '4' :: "2x".toList.takeWhile isIdentChar)) ∧
    ts_lex 2 " \t42x".toList = .token ⟨aux_sym_reference_line_token1, 2, 4⟩ ∧
    ts_lex 2 " \tab_1-".toList = .token ⟨aux_sym_alias_definition_token1, 2, 6⟩ :=
  ⟨ts_lex_name " \t".toList "2x".toList '4' (by decide), by decide, by decide⟩


/-! ## Leading whitespace in the line-start modes -/

/-- C17: in `ts_symbol_names` and `ts_symbol_metadata` the symbols flagged
visible and named are exactly comment, todo_block, statement, source_file,
section, context_block, alias_definition, reference_line and relation_line;
those flagged visible and not named are exactly the seven punctuation kinds
`-`, `+`, `::`, `@`, `$`, `(` and `)`; the remaining symbols, end, the five
`*_token1` helpers and source_file_repeat1, are invisible. Every symbol below
`SYMBOL_COUNT` has an entry in both tables and no other number has one. -/
theorem symbol_registry :
    symbolsWith true true = [sym_comment, sym_todo_block, sym_statement, sym_source_file,
      sym_section, sym_context_block, sym_alias_definition, sym_reference_line,
      sym_relation_line] ∧
    namesOf (symbolsWith true true) = ["comment", "todo_block", "statement", "source_file",
      "section", "context_block", "alias_definition", "reference_line", "relation_line"] ∧
    symbolsWith true false = [anon_sym_DASH, anon_sym_PLUS, anon_sym_COLON_COLON, anon_sym_AT,
      anon_sym_DOLLAR, anon_sym_LPAREN, anon_sym_RPAREN] ∧
    namesOf (symbolsWith true false) = ["-", "+", "::", "@", "$", "(", ")"] ∧
    symbolsWith false true = [ts_builtin_sym_end] ∧
    symbolsWith false false = [aux_sym_section_token1, aux_sym_context_block_token1,
      aux_sym_alias_definition_token1, aux_sym_reference_line_token1,
      aux_sym_relation_line_token1, aux_sym_source_file_repeat1] ∧
    namesOf (symbolsWith false true ++ symbolsWith false false) = ["end", "section_token1",
      "context_block_token1", "alias_definition_token1", "reference_line_token1",
      "relation_line_token1", "source_file_repeat1"] ∧
    (∀ s, s < SYMBOL_COUNT → (ts_symbol_metadata s).isSome ∧ (ts_symbol_names s).isSome) ∧
    (∀ s, SYMBOL_COUNT ≤ s → ts_symbol_metadata s = none ∧ ts_symbol_names s = none) := by
  refine ⟨by decide, by decide, by decide, by decide, by decide, by decide, by decide,
    by decide, ?_⟩
  intro s hs
  obtain ⟨k, rfl⟩ : ∃ k, s = k + 23 := ⟨s - 23, by simp only [SYMBOL_COUNT] at hs; omega⟩
  exact ⟨rfl, rfl⟩

/-! ## Productions and their fields -/

/-- C18: in the parse tables `-` followed by a section-title token is reduced
to section (2 children, production 1) whose only field is title, on child 1;
`@` followed by an identifier token to alias_definition (production 2) whose
only field is alias, on child 1; `$` followed by a digit-run token to
reference_line (production 4) whose only field is number_ref, on child 1;
`$` followed by an identifier token to reference_line (production 3) whose
only field is alias_ref, on child 1. These are the only reductions to the
three kinds. The parses of "@\nfoo\n", "$\n37\n" and "$\nfoo\n" show the
fields on the nodes. -/
theorem punct_productions :
    (∀ s ∈ [1, 2], tableAction s anon_sym_DASH = some (SHIFT 12) ∧
      tableAction s anon_sym_AT = some (SHIFT 14) ∧
      tableAction s anon_sym_DOLLAR = some (SHIFT 11)) ∧
    tableAction 12 aux_sym_section_token1 = some (SHIFT 5) ∧
    tableAction 14 aux_sym_alias_definition_token1 = some (SHIFT 6) ∧
    tableAction 11 aux_sym_reference_line_token1 = some (SHIFT 4) ∧
    tableAction 11 aux_sym_alias_definition_token1 = some (SHIFT 7) ∧
    (∀ la ∈ [ts_builtin_sym_end, anon_sym_DASH, anon_sym_PLUS, anon_sym_COLON_COLON,
        sym_todo_block, anon_sym_AT, anon_sym_DOLLAR, anon_sym_LPAREN, sym_statement],
      tableAction 5 la = some (REDUCE sym_section 2 0 1) ∧
      tableAction 6 la = some (REDUCE sym_alias_definition 2 0 2) ∧
      tableAction 4 la = some (REDUCE sym_reference_line 2 0 4) ∧
      tableAction 7 la = some (REDUCE sym_reference_line 2 0 3)) ∧
    reductionsOf sym_section = [(2, 1)] ∧
    reductionsOf sym_alias_definition = [(2, 2)] ∧
    reductionsOf sym_reference_line = [(2, 4), (2, 3)] ∧
    fieldMap 1 = [⟨field_title, 1⟩] ∧
    fieldMap 2 = [⟨field_alias, 1⟩] ∧
    fieldMap 4 = [⟨field_number_ref, 1⟩] ∧
    fieldMap 3 = [⟨field_alias_ref, 1⟩] ∧
    (parse "@\nfoo\n".toList).items = some (sym_source_file,
      [.inner sym_alias_definition 2
        [.leaf anon_sym_AT 0 1 false, .leaf aux_sym_alias_definition_token1 2 5 false]]) ∧
    Node.field (.inner sym_alias_definition 2
        [.leaf anon_sym_AT 0 1 false, .leaf aux_sym_alias_definition_token1 2 5 false])
      field_alias = [.leaf aux_sym_alias_definition_token1 2 5 false] ∧
    (parse "$\n37\n".toList).items = some (sym_source_file,
      [.inner sym_reference_line 4
        [.leaf anon_sym_DOLLAR 0 1 false, .leaf aux_sym_reference_line_token1 2 4 false]]) ∧
    Node.field (.inner sym_reference_line 4
        [.leaf anon_sym_DOLLAR 0 1 false, .leaf aux_sym_reference_line_token1 2 4 false])
      field_number_ref = [.leaf aux_sym_reference_line_token1 2 4 false] ∧
    (parse "$\nfoo\n".toList).items = some (sym_source_file,
      [.inner sym_reference_line 3
        [.leaf anon_sym_DOLLAR 0 1 false, .leaf aux_sym_alias_definition_token1 2 5 false]]) ∧
    Node.field (.inner sym_reference_line 3
        [.leaf anon_sym_DOLLAR 0 1 false, .leaf aux_sym_alias_definition_token1 2 5 false])
      field_alias_ref = [.leaf aux_sym_alias_definition_token1 2 5 false] :=
  ⟨by decide, by decide, by decide, by decide, by decide, by decide, by decide, by decide,
    by decide, by decide, by decide, by decide, by decide, (by rw [parse_alias]; rfl), by rfl,
    (by rw [parse_number_ref]; rfl), by rfl, (by rw [parse_alias_ref]; rfl), by rfl⟩

/-- C20: in every one of the 22 parse states the table action on a comment
lookahead is `SHIFT_EXTRA`; the automaton then pushes the comment as an extra
leaf and stays in its state; no node a field refers to is an extra, so none
is such a comment leaf. In the parse of "$\n# c\n37\n" the comment is the
second child of the reference_line and the field number_ref is the digit
token. -/
theorem comment_shift_extra :
    (∀ s, s < STATE_COUNT → tableAction s sym_comment = some SHIFT_EXTRA) ∧
    (∀ (fuel : Nat) (stack : List (Nat × Node)) (rest : List Char) (pos : Nat) (t : Token),
      topState stack < STATE_COUNT → t.sym = sym_comment →
      parseLoop (fuel + 1) stack rest pos (some t) =
        parseLoop fuel
          ((topState stack, .leaf sym_comment (pos + t.start) (pos + t.stop) true) :: stack)
          (rest.drop t.stop) (pos + t.stop) none) ∧
    (∀ (n : Node) (f : Nat) (x : Node), x ∈ Node.field n f → x.isExtra = false) ∧
    (∀ (n : Node) (f : Nat) (start stop : Nat),
      Node.leaf sym_comment start stop true ∉ Node.field n f) ∧
    parse "$\n# c\n37\n".toList = .accepted (.inner sym_source_file 0
      [.inner sym_reference_line 4
        [.leaf anon_sym_DOLLAR 0 1 false, .leaf sym_comment 2 5 true,
         .leaf aux_sym_reference_line_token1 6 8 false]]) ∧
    Node.field (.inner sym_reference_line 4
        [.leaf anon_sym_DOLLAR 0 1 false, .leaf sym_comment 2 5 true,
         .leaf aux_sym_reference_line_token1 6 8 false]) field_number_ref =
      [.leaf aux_sym_reference_line_token1 6 8 false] := by
  have htab : ∀ s, s < STATE_COUNT → tableAction s sym_comment = some SHIFT_EXTRA := by decide
  refine ⟨htab, ?_, field_not_extra, ?_, by rfl, by rfl⟩
  · intro fuel stack rest pos t hs ht
    rw [parseLoop, ht, htab _ hs]
    simp
  · intro n f start stop h
    have := field_not_extra n f _ h
    simp [Node.isExtra] at this

/-! ## The accept action and the root -/

/-- C21: `ts_parse_actions` holds exactly one accept action; the table gives
it exactly in state 16 on the end-of-input token; no shift enters state 16,
and the goto of a parse state on a non-terminal is 16 exactly from the start
state 1 on source_file. Hence every parse the automaton accepts has a root
of kind source_file, and a lookahead on which a parse state accepts is the
token for the end of input, which `ts_lex` returns only at the end of the
input. -/
theorem accept_only_source_file :
    allParseActions.count ACCEPT_INPUT = 1 ∧
    (∀ s, s < STATE_COUNT → ∀ y, y < SYMBOL_COUNT →
      (tableAction s y = some ACCEPT_INPUT ↔ s = 16 ∧ y = ts_builtin_sym_end)) ∧
    (∀ a ∈ allParseActions, ∀ (rep : Bool), a ≠ .shift 16 false rep) ∧
    (∀ s, s < STATE_COUNT → ∀ sym, sym < SYMBOL_COUNT → TOKEN_COUNT ≤ sym →
      (ts_language_lookup s sym = 16 ↔ s = 1 ∧ sym = sym_source_file)) ∧
    (∀ (input : List Char) (root : Node), parse input = .accepted root →
      root.symbol = sym_source_file ∧ root.isExtra = false) ∧
    (∀ (s : Nat) (rest : List Char) (t : Token), s < STATE_COUNT →
      ts_lex (ts_lex_modes s) rest = .token t → tableAction s t.sym = some ACCEPT_INPUT →
      s = 16 ∧ t.sym = ts_builtin_sym_end ∧ t.stop = rest.length) := by
  refine ⟨by decide, table_accept, ?_, ?_, ?_, ?_⟩
  · intro a ha rep hea
    have := table_shift_reduce a ha
    rw [hea] at this
    simp at this
  · intro s hs sym hsym htok
    refine ⟨(table_goto s hs sym hsym htok).2, ?_⟩
    rintro ⟨rfl, rfl⟩
    decide
  · intro input root h
    exact parseLoop_root _ [] input 0 none root
      ⟨fun e he => (by cases he), fun h16 => (by simp [topState] at h16)⟩
      (fun t ht => by cases ht) h
  · intro s rest t hs hlex hacc
    have hsym : t.sym < SYMBOL_COUNT :=
      Nat.lt_of_lt_of_le (ts_lex_sym_lt _ _ _ hlex) (by decide)
    obtain ⟨h16, h0⟩ := (table_accept s hs _ hsym).1 hacc
    have hmode : ts_lex_modes s ≠ 8 := by
      rw [h16]
      decide
    exact ⟨h16, h0, (ts_lex_sound _ rest t hmode hlex).2.2.2 h0⟩

/-! ## Termination of the lexer -/

/-- C22: `ts_lex` returns on every input from every start state: its budget
of `length + 2` cases is never used up and a larger budget gives the same
result; the loop makes at most `remaining length + 1` transitions, whatever
the budget; a transition on a non-empty input consumes one character; at
the end of input the only transition is into state 8, which accepts the
token for the end of input and returns; and a state above 47 has no case, so
the call returns at once. -/
theorem ts_lex_terminates :
    (∀ (state : Nat) (input : List Char), ts_lex state input ≠ .outOfFuel) ∧
    (∀ (state : Nat) (input : List Char) (k : Nat),
      lexLoop (input.length + 2 + k) state false ⟨input, 0, 0, 0, 0⟩ = ts_lex state input) ∧
    (∀ (fuel state : Nat) (lx : TSLexer), lexTransitions fuel state lx ≤ lx.rest.length + 1) ∧
    (∀ (lx : TSLexer) (skip : Bool), lx.rest ≠ [] →
      (lx.advance skip).rest.length + 1 = lx.rest.length) ∧
    (∀ (state : Nat) (c : LexCase), ts_lex_case state 0 true = some c →
      c.next = .stop ∨ c.next = .advance 8) ∧
    (∀ (la : Nat) (eof : Bool),
      ts_lex_case 8 la eof = some ⟨some ts_builtin_sym_end, .stop⟩) ∧
    (∀ (state la : Nat) (eof : Bool), 48 ≤ state → ts_lex_case state la eof = none) := by
  have hb : ∀ (state : Nat) (input : List Char), lexBudget state input ≤ input.length + 2 := by
    intro state input
    unfold lexBudget
    split_ifs <;> omega
  refine ⟨?_, ?_, ?_, ?_, ts_lex_case_eof, ts_lex_case_8, ?_⟩
  · intro state input
    exact (lexLoop_budget _ state false input 0 0 0 0 (hb state input)).1
  · intro state input k
    exact lexLoop_fuel state false input 0 0 0 0 k _ (hb state input)
  · intro fuel state lx
    obtain ⟨rest, pos, ts, te, rs⟩ := lx
    have := lexTransitions_le fuel state rest pos ts te rs
    simp only at this ⊢
    omega
  · intro lx skip h
    obtain ⟨rest, pos, ts, te, rs⟩ := lx
    cases rest with
    | nil => exact absurd rfl h
    | cons x xs => simp [TSLexer.advance]
  · intro state la eof h
    obtain ⟨k, rfl⟩ : ∃ k, state = k + 48 := ⟨state - 48, by omega⟩
    rfl

/-! ## The top-level lex state scans whole lines -/

/-- C23: for every NUL-free input `ts_lex` in the top-level lex state 7
returns a token: behind the leading newlines, which it skips, the token
for the end of input when nothing is left, and otherwise a token that starts
at the first character that is no newline, has the scanned line as its text,
so contains no newline and is not empty, and ends at the next newline or at
the end of input. -/
theorem ts_lex_7_whole_line (input : List Char) (hnul : NulFree input) :
    (∀ c ∈ input.take (leadingNewlines input), c = '\n') ∧
    (input.drop (leadingNewlines input) = [] →
      ts_lex 7 input =
        .token ⟨ts_builtin_sym_end, leadingNewlines input, leadingNewlines input⟩) ∧
    (input.drop (leadingNewlines input) ≠ [] →
      ∃ sym, ts_lex 7 input = .token ⟨sym, leadingNewlines input,
          leadingNewlines input + (scannedLine input).length⟩ ∧
        0 < (scannedLine input).length ∧
        tokenText input ⟨sym, leadingNewlines input,
          leadingNewlines input + (scannedLine input).length⟩ = scannedLine input) ∧
    '\n' ∉ scannedLine input ∧
    (input.drop (leadingNewlines input + (scannedLine input).length) = [] ∨
      (input.drop (leadingNewlines input + (scannedLine input).length)).head? = some '\n') := by
  obtain ⟨h1, h2, h3, h4⟩ := scannedLine_facts input
  obtain ⟨hend, hline⟩ := ts_lex_7_scan input hnul
  refine ⟨h1, hend, fun hne => ?_, h2, h4⟩
  obtain ⟨ht, hnonempty⟩ := hline hne
  exact ⟨_, ht, List.length_pos.2 hnonempty, h3 _⟩

/-- Witness for C23: on "\n\nab c\nd" the token is the statement "ab c" at
[2, 6). -/
theorem ts_lex_7_whole_line_witness :
    NulFree "\n\nab c\nd".toList ∧
    ts_lex 7 "\n\nab c\nd".toList = .token ⟨sym_statement, 2, 6⟩ ∧
    scannedLine "\n\nab c\nd".toList = "ab c".toList ∧
    ((∀ c ∈ "\n\nab c\nd".toList.take (leadingNewlines "\n\nab c\nd".toList), c = '\n') ∧
    ("\n\nab c\nd".toList.drop (leadingNewlines "\n\nab c\nd".toList) = [] →
      ts_lex 7 "\n\nab c\nd".toList =
        .token ⟨ts_builtin_sym_end, leadingNewlines "\n\nab c\nd".toList,
          leadingNewlines "\n\nab c\nd".toList⟩) ∧
    ("\n\nab c\nd".toList.drop (leadingNewlines "\n\nab c\nd".toList) ≠ [] →
      ∃ sym, ts_lex 7 "\n\nab c\nd".toList = .token ⟨sym, leadingNewlines "\n\nab c\nd".toList,
          leadingNewlines "\n\nab c\nd".toList + (scannedLine "\n\nab c\nd".toList).length⟩ ∧
        0 < (scannedLine "\n\nab c\nd".toList).length ∧
        tokenText "\n\nab c\nd".toList ⟨sym, leadingNewlines "\n\nab c\nd".toList,
          leadingNewlines "\n\nab c\nd".toList + (scannedLine "\n\nab c\nd".toList).length⟩ =
            scannedLine "\n\nab c\nd".toList) ∧
    '\n' ∉ scannedLine "\n\nab c\nd".toList ∧
    ("\n\nab c\nd".toList.drop (leadingNewlines "\n\nab c\nd".toList +
        (scannedLine "\n\nab c\nd".toList).length) = [] ∨
      ("\n\nab c\nd".toList.drop (leadingNewlines "\n\nab c\nd".toList +
        (scannedLine "\n\nab c\nd".toList).length)).head? = some '\n')) :=
  ⟨by decide, by decide, by decide, ts_lex_7_whole_line "\n\nab c\nd".toList (by decide)⟩

/-! ## The title behind a top-level `-` -/

/-- C24: whenever `ts_lex` in the top-level lex state 7 returns the `-`
token, `ts_lex` in lex state 13, the lex mode of parse state 12, started
where that token ended returns the section-title token of length zero; and
the automaton, in the item states 1 or 2 with that `-` as lookahead, shifts
it to state 12 and shifts the empty title to state 5, the state that reduces
to section. -/
theorem dash_title_empty (input : List Char) (t : Token) (h : ts_lex 7 input = .token t)
    (hsym : t.sym = anon_sym_DASH) :
    ts_lex_modes 12 = 13 ∧
    ts_lex 13 (input.drop t.stop) = .token ⟨aux_sym_section_token1, 0, 0⟩ ∧
    (∀ (fuel : Nat) (stack : List (Nat × Node)) (pos : Nat),
      topState stack = 1 ∨ topState stack = 2 →
      parseLoop (fuel + 3) stack input pos (some t) =
        parseLoop fuel
          ((5, .leaf aux_sym_section_token1 (pos + t.stop) (pos + t.stop) false) ::
            (12, .leaf anon_sym_DASH (pos + t.start) (pos + t.stop) false) :: stack)
          (input.drop t.stop) (pos + t.stop) none) := by
  have h13 := ts_lex_13_line_end (input.drop t.stop) (ts_lex_7_dash_stop input t h hsym)
  refine ⟨by decide, h13, ?_⟩
  intro fuel stack pos hs
  have ha : tableAction (topState stack) t.sym = some (SHIFT 12) := by
    rw [hsym]
    rcases hs with hs | hs <;> rw [hs] <;> decide
  have hb : tableAction 12 aux_sym_section_token1 = some (SHIFT 5) := by decide
  rw [parseLoop, ha]
  simp only [Bool.false_eq_true, if_false]
  rw [parseLoop]
  simp only [topState, show ts_lex_modes 12 = 13 from by decide, h13]
  rw [parseLoop]
  simp only [topState, hb, Bool.false_eq_true, if_false, List.drop_zero, Nat.add_zero, hsym]

/-- Witness for C24: on "\n-\nIntroduction\n" the `-` token is [1, 2), the
title token is the empty [2, 2), and the parse is a section with that empty
title followed by the statement "Introduction". -/
theorem dash_title_empty_witness :
    ts_lex 7 "\n-\nIntroduction\n".toList = .token ⟨anon_sym_DASH, 1, 2⟩ ∧
    (ts_lex_modes 12 = 13 ∧
    ts_lex 13 ("\n-\nIntroduction\n".toList.drop 2) = .token ⟨aux_sym_section_token1, 0, 0⟩ ∧
    (∀ (fuel : Nat) (stack : List (Nat × Node)) (pos : Nat),
      topState stack = 1 ∨ topState stack = 2 →
      parseLoop (fuel + 3) stack "\n-\nIntroduction\n".toList pos
          (some ⟨anon_sym_DASH, 1, 2⟩) =
        parseLoop fuel
          ((5, .leaf aux_sym_section_token1 (pos + 2) (pos + 2) false) ::
            (12, .leaf anon_sym_DASH (pos + 1) (pos + 2) false) :: stack)
          ("\n-\nIntroduction\n".toList.drop 2) (pos + 2) none)) ∧
    (parse "\n-\nIntroduction\n".toList).items = some (sym_source_file,
      [.inner sym_section 1
          [.leaf anon_sym_DASH 1 2 false, .leaf aux_sym_section_token1 2 2 false],
        .leaf sym_statement 3 15 false]) ∧
    Node.field (.inner sym_section 1
        [.leaf anon_sym_DASH 1 2 false, .leaf aux_sym_section_token1 2 2 false]) field_title =
      [.leaf aux_sym_section_token1 2 2 false] ∧
    Node.text "\n-\nIntroduction\n".toList (.leaf aux_sym_section_token1 2 2 false) = [] :=
  ⟨by decide,
    dash_title_empty "\n-\nIntroduction\n".toList ⟨anon_sym_DASH, 1, 2⟩ (by decide) rfl,
    (by rw [parse_dash_line]; rfl), by rfl, by decide⟩

/-! ## The todo token -/

/-- C25: for every NUL-free input `ts_lex` in the top-level lex state 7
returns the todo token if and only if the scanned line (from the first
character that is no newline to the next newline or the end of input) is an
optional run of blanks, one uppercase letter, and at least two more
characters, all of them uppercase letters, digits or spaces, the last one an
uppercase letter or a digit (`isTodoLine`); the token then covers exactly
that line. -/
theorem ts_lex_7_todo (input : List Char) (hnul : NulFree input) :
    ((∃ t, ts_lex 7 input = .token t ∧ t.sym = sym_todo_block) ↔
      isTodoLine (scannedLine input) = true) ∧
    (∀ t, ts_lex 7 input = .token t → t.sym = sym_todo_block →
      t.start = leadingNewlines input ∧
      t.stop = leadingNewlines input + (scannedLine input).length ∧
      tokenText input t = scannedLine input) := by
  obtain ⟨hend, hline⟩ := ts_lex_7_scan input hnul
  obtain ⟨_, _, htext, _⟩ := scannedLine_facts input
  by_cases hd : input.drop (leadingNewlines input) = []
  · have h := hend hd
    have hs : scannedLine input = [] := by
      unfold scannedLine
      rw [hd]
      rfl
    rw [h, hs]
    refine ⟨⟨?_, fun h => by simp [isTodoLine] at h⟩, ?_⟩
    · rintro ⟨t, ht, hsym⟩
      simp only [LexResult.token.injEq] at ht
      rw [← ht] at hsym
      simp at hsym
    · intro t ht hsym
      simp only [LexResult.token.injEq] at ht
      rw [← ht] at hsym
      simp at hsym
  · obtain ⟨h, hne⟩ := hline hd
    have hrun := run_7 (scannedLine input) (scannedLine_chars input hnul) hne
    rw [h]
    refine ⟨⟨?_, fun hl => ⟨_, rfl, hrun.2 hl⟩⟩, ?_⟩
    · rintro ⟨t, ht, hsym⟩
      simp only [LexResult.token.injEq] at ht
      rw [← ht] at hsym
      exact hrun.1 hsym
    · intro t ht hsym
      simp only [LexResult.token.injEq] at ht
      subst ht
      exact ⟨rfl, rfl, htext _⟩

/-- Witness for C25: the line " TODO FIX 2" gives the todo token at [1, 12);
"TODO FIX " and "+TODO FIX BUG" are no todo lines and give statement
tokens. -/
theorem ts_lex_7_todo_witness :
    NulFree "\n TODO FIX 2\nx".toList ∧
    scannedLine "\n TODO FIX 2\nx".toList = " TODO FIX 2".toList ∧
    isTodoLine " TODO FIX 2".toList = true ∧
    ts_lex 7 "\n TODO FIX 2\nx".toList = .token ⟨sym_todo_block, 1, 12⟩ ∧
    isTodoLine "TODO FIX ".toList = false ∧
    ts_lex 7 "TODO FIX \n".toList = .token ⟨sym_statement, 0, 9⟩ ∧
    isTodoLine "+TODO FIX BUG".toList = false ∧
    ts_lex 7 "+TODO FIX BUG\n".toList = .token ⟨sym_statement, 0, 13⟩ ∧
    (((∃ t, ts_lex 7 "\n TODO FIX 2\nx".toList = .token t ∧ t.sym = sym_todo_block) ↔
      isTodoLine (scannedLine "\n TODO FIX 2\nx".toList) = true) ∧
    (∀ t, ts_lex 7 "\n TODO FIX 2\nx".toList = .token t → t.sym = sym_todo_block →
      t.start = leadingNewlines "\n TODO FIX 2\nx".toList ∧
      t.stop = leadingNewlines "\n TODO FIX 2\nx".toList +
        (scannedLine "\n TODO FIX 2\nx".toList).length ∧
      tokenText "\n TODO FIX 2\nx".toList t = scannedLine "\n TODO FIX 2\nx".toList)) :=
  ⟨by decide, by decide, by decide, by decide, by decide, by decide, by decide, by decide,
    ts_lex_7_todo "\n TODO FIX 2\nx".toList (by decide)⟩

/-! ## Well-formedness of the field tables -/

/-- C26: for every production id 0-7 the slice of `ts_field_map_slices` lies
inside `ts_field_map_entries`; every entry's field id is one of the 7
declared fields; no field id occurs twice in the slice of one production;
and for every reduce action of `ts_parse_actions`, with child count `n` and
production id `p`, `p` is a production id and every child index of the slice
of `p` is smaller than `n`. The reduce actions are listed. -/
theorem field_tables_well_formed :
    (∀ p, p < PRODUCTION_ID_COUNT →
      ∃ sl, ts_field_map_slices p = some sl ∧
        sl.index + sl.length ≤ ts_field_map_entries.length) ∧
    (∀ e ∈ ts_field_map_entries, 1 ≤ e.field_id ∧ e.field_id ≤ FIELD_COUNT) ∧
    (∀ p, p < PRODUCTION_ID_COUNT → ((fieldMap p).map (fun e => e.field_id)).Nodup) ∧
    (∀ (sym n : Nat) (d : Int) (p : Nat), TSParseAction.reduce sym n d p ∈ allParseActions →
      p < PRODUCTION_ID_COUNT ∧ ∀ e ∈ fieldMap p, e.child_index < n) ∧
    (allParseActions.filter (fun a => match a with | .reduce _ _ _ _ => true | _ => false)).dedup =
      [REDUCE sym_source_file 0 0 0, REDUCE sym_source_file 1 0 0,
       REDUCE aux_sym_source_file_repeat1 2 0 0, REDUCE sym_reference_line 2 0 4,
       REDUCE sym_section 2 0 1, REDUCE sym_alias_definition 2 0 2,
       REDUCE sym_reference_line 2 0 3, REDUCE sym_context_block 3 0 5,
       REDUCE sym_relation_line 3 0 6, REDUCE sym_context_block 4 0 7] := by
  have hred : ∀ a ∈ allParseActions,
      (match a with
        | .reduce _ n _ p =>
          decide (p < PRODUCTION_ID_COUNT) && (fieldMap p).all (fun e => decide (e.child_index < n))
        | _ => true) = true := by decide
  refine ⟨?_, by decide, by decide, ?_, by decide⟩
  · intro p hp
    have h : ∀ p, p < PRODUCTION_ID_COUNT →
        ((ts_field_map_slices p).map
          (fun sl => decide (sl.index + sl.length ≤ ts_field_map_entries.length))) = some true := by
      decide
    have := h p hp
    cases hs : ts_field_map_slices p with
    | none => rw [hs] at this; simp at this
    | some sl =>
      rw [hs] at this
      exact ⟨sl, rfl, by simpa using this⟩
  · intro sym n d p hmem
    have := hred _ hmem
    simp only [Bool.and_eq_true, decide_eq_true_eq, List.all_eq_true] at this
    exact this

end N4L
